import Mathlib

/-!
# GreenPak (SLG46826V) program writer: embedding of `src/main.cpp`

The protocol engine of the writer is embedded as pure functions.

* Characters and bytes are natural numbers (character codes, `uint8_t` values);
  `uint8_t` arithmetic is reduced `% 256` where the source stores into a byte.
* The I2C bus is an environment: `Bus` answers every transaction from the transactions
  issued so far.  Every `Wire.read`, `Wire.write` and `Wire.stop` of the source appends one
  `Txn` to the transaction trace; `wait` and `pc.printf` have no effect on the trace.
* The line buffer `buffer[Z_bufferNumber]` keeps what earlier lines left behind: `fgets`
  stores the characters it read and one terminating NUL and leaves the rest of the array
  as it was.  A read of `buffer` at an index outside the array is not given a meaning:
  `hexFileRead` then yields `none`.
* The loop variables of the clearing loops in `hexFileRead` are declared without an
  initial value; the values they start from are the parameter `Indeterminate`.
-/

namespace GreenPak

/-! ## Constants and types -/

/-- Size of the line buffer `buffer`. -/
def Z_bufferNumber : Nat := 100

/-- Block address of the register block. -/
def RESISTER_CONFIG : Nat := 0x02

/-- Block address of the NVM block. -/
def NVM_CONFIG : Nat := 0x04

/-- Block address of the EEPROM block. -/
def EEPROM_CONFIG : Nat := 0x06

/-- The memory a command works on (`greenPakMemory_t`). -/
inductive greenPakMemory_t where
  | NVM
  | EEPROM
  | RESISTER
  deriving DecidableEq, Repr

/-- One action on the I2C bus: `Wire.write(address, data, length, repeated)`,
`Wire.read(address, data, length, repeated)` or `Wire.stop()`. -/
inductive Txn where
  | write (address : Nat) (data : List Nat) (repeated : Bool)
  | read (address : Nat) (length : Nat) (repeated : Bool)
  | stop
  deriving DecidableEq, Repr

/-- The bus: given the transactions issued so far and the next one, says whether the next one
is acknowledged (`true` stands for the return value `0` of `Wire.read` / `Wire.write`). -/
abbrev Bus := List Txn → Txn → Bool

/-- The 16 x 16 image `hexData`, indexed by row and column. -/
abbrev HexData := Nat → Nat → Nat

/-- The global variables `buffer` and `hexData`. -/
structure Memory where
  buffer : Nat → Nat
  hexData : HexData

/-- The files of the local file system: `/local/NVM.hex` and `/local/EEPROM.hex`, each absent
or a sequence of characters. -/
structure LocalFiles where
  nvm : Option (List Nat)
  eeprom : Option (List Nat)

/-- Start values of the loop variables `i` and `j` (one `j` for each `i`) of the clearing
loops of `hexFileRead`, which the source leaves without initial value. -/
structure Indeterminate where
  i : Nat
  j : Nat → Nat

/-! ## Hex digits -/

/-- One ASCII character to its hex value, `0xff` when it is not a hex digit (`atoh1`);
the argument is the character `*p`. -/
def atoh1 (a : Nat) : Nat :=
  if 48 ≤ a ∧ a ≤ 57 then a - 48
  else if 97 ≤ a ∧ a ≤ 102 then a - 97 + 0x0a
  else if 65 ≤ a ∧ a ≤ 70 then a - 65 + 0x0a
  else 0xff

/-- The value `atoh2` computes from the characters `p[0]` and `p[1]`. -/
def atoh2Chars (c0 c1 : Nat) : Nat :=
  let up := atoh1 c0
  let dn := atoh1 c1
  if up ≠ 0xff ∧ dn ≠ 0xff then ((up <<< 4) ||| dn) % 256 else 0xff

/-- The character `buffer[p]`, `none` when `p` is outside the array. -/
def peek (buffer : Nat → Nat) (p : Nat) : Option Nat :=
  if p < Z_bufferNumber then some (buffer p) else none

/-- Two ASCII characters at `p` to a byte (`atoh2` on a pointer into `buffer`). -/
def atoh2 (buffer : Nat → Nat) (p : Nat) : Option Nat :=
  match peek buffer p, peek buffer (p + 1) with
  | some c0, some c1 => some (atoh2Chars c0 c1)
  | _, _ => none

/-! ## `hexFileRead` -/

/-- The assignment `hexData[r][c] = v`. -/
def setCell (h : HexData) (r c v : Nat) : HexData :=
  fun r1 c1 => if r1 = r ∧ c1 = c then v else h r1 c1

/-- The clearing loops at the head of `hexFileRead`:
`for (uint8_t i; i < 16; i++) for (uint8_t j; j < 16; j++) hexData[i][j] = 0x00;`. -/
def clearHexData (ind : Indeterminate) (h : HexData) : HexData :=
  (List.range' ind.i (16 - ind.i)).foldl
    (fun h1 i => (List.range' (ind.j i) (16 - ind.j i)).foldl (fun h2 j => setCell h2 i j 0x00) h1)
    h

/-- The data loop `for (uint8_t i = 0; i < 16; i++) { hexData[address][i] = atoh2(p); p += 2; }`,
as a recursion over the values of `i` that remain. -/
def readData (buffer : Nat → Nat) (address : Nat) :
    List Nat → Nat → HexData → Option (Nat × HexData)
  | [], p, h => some (p, h)
  | i :: rest, p, h =>
    match atoh2 buffer p with
    | none => none
    | some v => readData buffer address rest (p + 2) (setCell h address i v)

/-- The body of `case ':'`; `p` already points behind the colon.  Gives the new `p`, `ans`
and `hexData`. -/
def colonCase (buffer : Nat → Nat) (p ans : Nat) (h : HexData) : Option (Nat × Nat × HexData) :=
  match atoh2 buffer p, atoh2 buffer (p + 4), atoh2 buffer (p + 6) with
  | some byteCount, some lowAddress, some _recodeType =>
    let address := lowAddress >>> 4
    let address := if address > 0x0f then 0x00 else address
    if byteCount ≠ 0x10 then some (p + 8, ans, h)
    else
      match readData buffer address (List.range 16) (p + 8) h with
      | none => none
      | some (p1, h1) => some (p1, (ans + 1) % 256, h1)
  | _, _, _ => none

/-- The loop `while (*p != 0x00) { switch (*p++) { case ':': ... } }` over one line.  Every
round moves `p` forward, and `p` has to stay inside `buffer`, so `Z_bufferNumber` rounds are
enough: the first argument counts the rounds that remain, and it is used up only when `p`
has left the array. -/
def scanBuffer (buffer : Nat → Nat) : Nat → Nat → Nat → HexData → Option (Nat × HexData)
  | 0, _, _, _ => none
  | fuel + 1, p, ans, h =>
    match peek buffer p with
    | none => none
    | some c =>
      if c = 0x00 then some (ans, h)
      else if c = 58 then
        match colonCase buffer (p + 1) ans h with
        | none => none
        | some (p1, ans1, h1) => scanBuffer buffer fuel p1 ans1 h1
      else scanBuffer buffer fuel (p + 1) ans h

/-- The strings successive calls `fgets(buffer, Z_bufferNumber, fp)` deliver for a file: a
string ends behind a newline, after `Z_bufferNumber - 1` characters or at the end of the
file.  `cur` holds the characters of the string being read. -/
def fgetsAll : List Nat → List Nat → List (List Nat)
  | [], cur => if cur = [] then [] else [cur]
  | c :: rest, cur =>
    if c = 10 ∨ (cur ++ [c]).length = Z_bufferNumber - 1 then (cur ++ [c]) :: fgetsAll rest []
    else fgetsAll rest (cur ++ [c])

/-- All strings `fgets` delivers for a file until it returns `NULL`. -/
def fileLines (file : List Nat) : List (List Nat) := fgetsAll file []

/-- What `fgets` does to `buffer`: the characters read, a NUL behind them, the rest of the
array as it was. -/
def storeLine (line : List Nat) (buffer : Nat → Nat) : Nat → Nat :=
  fun k => if k < line.length then line.getD k 0 else if k = line.length then 0 else buffer k

/-- The loop `while (fgets(buffer, Z_bufferNumber, fp) != NULL) { p = buffer; ... }`. -/
def readLines : List (List Nat) → (Nat → Nat) → Nat → HexData →
    Option ((Nat → Nat) × Nat × HexData)
  | [], buffer, ans, h => some (buffer, ans, h)
  | line :: rest, buffer, ans, h =>
    match scanBuffer (storeLine line buffer) Z_bufferNumber 0 ans h with
    | none => none
    | some (ans1, h1) => readLines rest (storeLine line buffer) ans1 h1

/-- The file `hexFileRead` opens for a memory type. -/
def hexFileOf (files : LocalFiles) : greenPakMemory_t → Option (List Nat)
  | .NVM => files.nvm
  | .RESISTER => files.nvm
  | .EEPROM => files.eeprom

/-- Reads the HEX file of a memory type into `hexData` and returns the number of rows read
(`hexFileRead`); `none` when the scan of a line leaves `buffer`. -/
def hexFileRead (files : LocalFiles) (ind : Indeterminate) (memoryType : greenPakMemory_t)
    (mem : Memory) : Option (Nat × Memory) :=
  let h0 := clearHexData ind mem.hexData
  match hexFileOf files memoryType with
  | none => some (0, { buffer := mem.buffer, hexData := h0 })
  | some file =>
    match readLines (fileLines file) mem.buffer 0 h0 with
    | none => none
    | some (buffer1, ans, h1) => some (ans, { buffer := buffer1, hexData := h1 })

/-! ## Bus operations -/

/-- The call `Wire.read(address, i2cBuffer, length, repeated)`: its acknowledgment and the
trace behind it. -/
def wireRead (bus : Bus) (address length : Nat) (repeated : Bool) (tr : List Txn) :
    Bool × List Txn :=
  (bus tr (Txn.read address length repeated), tr ++ [Txn.read address length repeated])

/-- The call `Wire.write(address, i2cBuffer, length, repeated)` with the bytes sent: its
acknowledgment and the trace behind it. -/
def wireWrite (bus : Bus) (address : Nat) (data : List Nat) (repeated : Bool) (tr : List Txn) :
    Bool × List Txn :=
  (bus tr (Txn.write address data repeated), tr ++ [Txn.write address data repeated])

/-- The loop of `checkSlaveAddres` over the values of `i` that remain. -/
def checkSlaveAddresLoop (bus : Bus) : List Nat → List Txn → Nat × List Txn
  | [], tr => (0xff, tr)
  | i :: rest, tr =>
    let control_code := (i <<< 4) ||| RESISTER_CONFIG
    if (wireRead bus control_code 0 false tr).1 then (i, (wireRead bus control_code 0 false tr).2)
    else checkSlaveAddresLoop bus rest (wireRead bus control_code 0 false tr).2

/-- The slave address of the connected GreenPak, `0xff` when none answers
(`checkSlaveAddres`). -/
def checkSlaveAddres (bus : Bus) (tr : List Txn) : Nat × List Txn :=
  checkSlaveAddresLoop bus (List.range 16) tr

/-- The software reset after an NVM change (`powercycle`). -/
def powercycle (bus : Bus) (tr : List Txn) : List Txn :=
  let r := checkSlaveAddres bus tr
  if r.1 = 0xff then r.2
  else
    let control_code := (r.1 <<< 4) ||| RESISTER_CONFIG
    (wireWrite bus control_code [0xC8, 0x02] false r.2).2

/-- The loop of `ackPolling`.  The first argument is `1000 - nack_count`: the test
`nack_count >= 1000` of the source is the case `0`, and `nack_count++` is the step from
`budget + 1` to `budget`. -/
def ackPollingLoop (bus : Bus) (addressForAckPolling : Nat) : Nat → List Txn → Int × List Txn
  | 0, tr =>
    if (wireRead bus addressForAckPolling 0 false tr).1
    then (0, (wireRead bus addressForAckPolling 0 false tr).2)
    else (-1, (wireRead bus addressForAckPolling 0 false tr).2)
  | budget + 1, tr =>
    if (wireRead bus addressForAckPolling 0 false tr).1
    then (0, (wireRead bus addressForAckPolling 0 false tr).2)
    else ackPollingLoop bus addressForAckPolling budget
      (wireRead bus addressForAckPolling 0 false tr).2

/-- Waits for the acknowledgment of the GreenPak (`ackPolling`): `0` on ACK, `-1` when it
gives up. -/
def ackPolling (bus : Bus) (addressForAckPolling : Nat) (tr : List Txn) : Int × List Txn :=
  ackPollingLoop bus addressForAckPolling 1000 tr

/-- Clears the NVM protection (`resister_unprotect`). -/
def resister_unprotect (bus : Bus) (tr : List Txn) : List Txn :=
  let r := checkSlaveAddres bus tr
  if r.1 = 0xff then r.2
  else
    let control_code := (r.1 <<< 4) ||| RESISTER_CONFIG
    let tr1 := (wireWrite bus control_code [0xE1, 0x00] false r.2).2
    let tr2 := (wireWrite bus control_code [0xE1] false tr1).2
    (wireRead bus control_code 1 false tr2).2

/-- The second byte of the page erase command for page `i`.  The loop is never reached for
`RESISTER` (there the source would leave `i2cBuffer[1]` as it is). -/
def eraseByte (memoryType : greenPakMemory_t) (i : Nat) : Nat :=
  match memoryType with
  | .NVM => (0x80 ||| i) % 256
  | .EEPROM => (0x90 ||| i) % 256
  | .RESISTER => 0

/-- The page loop of `eraseChip` over the pages that remain. -/
def erasePages (bus : Bus) (memoryType : greenPakMemory_t)
    (control_code addressForAckPolling : Nat) : List Nat → List Txn → Int × List Txn
  | [], tr => (0, tr)
  | i :: rest, tr =>
    let tr1 := (wireWrite bus control_code [0xE3, eraseByte memoryType i] false tr).2
    let r := ackPolling bus addressForAckPolling tr1
    if r.1 = -1 then (-1, r.2)
    else erasePages bus memoryType control_code addressForAckPolling rest r.2

/-- Clears a memory (`eraseChip`): `0` on success, `-1` on failure. -/
def eraseChip (bus : Bus) (memoryType : greenPakMemory_t) (tr : List Txn) : Int × List Txn :=
  let r := checkSlaveAddres bus tr
  if r.1 = 0xff then (-1, r.2)
  else
    let control_code := (r.1 <<< 4) ||| RESISTER_CONFIG
    let addressForAckPolling := control_code
    if memoryType = .RESISTER then (0, r.2)
    else
      let tr1 := resister_unprotect bus r.2
      let e := erasePages bus memoryType control_code addressForAckPolling (List.range 16) tr1
      if e.1 = -1 then (-1, e.2)
      else (0, powercycle bus e.2)

/-- The 17 bytes sent for row `i`: the row address `i << 4` and the 16 bytes of the row. -/
def rowBytes (h : HexData) (i : Nat) : List Nat :=
  ((i <<< 4) % 256) :: (List.range 16).map (fun j => h i j)

/-- The row loop of `writeChip` over the rows that remain; `0` when every row was written. -/
def writeRows (bus : Bus) (control_code addressForAckPolling : Nat) (h : HexData) :
    List Nat → List Txn → Int × List Txn
  | [], tr => (0, tr)
  | i :: rest, tr =>
    let w := wireWrite bus control_code (rowBytes h i) false tr
    if w.1 = false then (-1, w.2 ++ [Txn.stop])
    else
      let r := ackPolling bus addressForAckPolling w.2
      if r.1 = -1 then (-1, r.2)
      else writeRows bus control_code addressForAckPolling h rest r.2

/-- The block address `writeChip` and `readChip` put into the control code. -/
def blockAddress : greenPakMemory_t → Nat
  | .NVM => NVM_CONFIG
  | .EEPROM => EEPROM_CONFIG
  | .RESISTER => RESISTER_CONFIG

/-- The slave address `writeChip` writes into the NVM image: the requested one when it is
in `0x00 .. 0x0f`, the present one otherwise. -/
def nextAddress (nextSlaveAddress : Int) (nowSlaveAddress : Nat) : Nat :=
  if nextSlaveAddress < 0x00 ∨ 0x0f < nextSlaveAddress then nowSlaveAddress
  else nextSlaveAddress.toNat

/-- The change `writeChip` makes to `hexData[0xC][0xA]` before it sends the rows. -/
def patchAddress (memoryType : greenPakMemory_t) (nextSlaveAddress : Int)
    (nowSlaveAddress : Nat) (h : HexData) : HexData :=
  match memoryType with
  | .NVM =>
    setCell h 0xC 0xA (((h 0xC 0xA &&& 0xF0) ||| nextAddress nextSlaveAddress nowSlaveAddress) % 256)
  | .EEPROM => h
  | .RESISTER => setCell h 0xC 0xA (((h 0xC 0xA &&& 0xF0) ||| nowSlaveAddress) % 256)

/-- The part of `writeChip` from the erase step on: erase (not for `RESISTER`), the row
loop, `Wire.stop()` and, for NVM, `powercycle`. -/
def writeChipRows (bus : Bus) (memoryType : greenPakMemory_t) (nowSlaveAddress : Nat)
    (h : HexData) (tr : List Txn) : Int × List Txn :=
  let control_code := (nowSlaveAddress <<< 4) ||| blockAddress memoryType
  let addressForAckPolling := nowSlaveAddress <<< 4
  let e := if memoryType ≠ .RESISTER then eraseChip bus memoryType tr else (0, tr)
  if e.1 ≠ 0 then (-1, e.2)
  else
    let w := writeRows bus control_code addressForAckPolling h (List.range 16) e.2
    if w.1 ≠ 0 then (-1, w.2)
    else
      let tr1 := w.2 ++ [Txn.stop]
      (0, if memoryType = .NVM then powercycle bus tr1 else tr1)

/-- Writes a memory (`writeChip`): `0` on success, `-1` on failure; `none` when
`hexFileRead` leaves `buffer`. -/
def writeChip (bus : Bus) (files : LocalFiles) (ind : Indeterminate)
    (memoryType : greenPakMemory_t) (nextSlaveAddress : Int) (mem : Memory) (tr : List Txn) :
    Option (Int × Memory × List Txn) :=
  let r := checkSlaveAddres bus tr
  let nowSlaveAddress := r.1 % 256
  if nowSlaveAddress = 0xff then some (-1, mem, r.2)
  else
    let tr1 := if memoryType = .NVM then resister_unprotect bus r.2 else r.2
    match hexFileRead files ind memoryType mem with
    | none => none
    | some (count, mem1) =>
      if count ≠ 16 then some (-1, mem1, tr1)
      else
        let h := patchAddress memoryType nextSlaveAddress nowSlaveAddress mem1.hexData
        let w := writeChipRows bus memoryType nowSlaveAddress h tr1
        some (w.1, { buffer := mem1.buffer, hexData := h }, w.2)

/-- The default value `0xff` of the parameter `nextSlaveAddress` of `writeChip`. -/
def defaultNextSlaveAddress : Int := 0xff

/-- The row loop of `readChip` over the rows that remain. -/
def readRows (bus : Bus) (control_code : Nat) : List Nat → List Txn → List Txn
  | [], tr => tr
  | i :: rest, tr =>
    let tr1 := (wireWrite bus control_code [(i <<< 4) % 256] true tr).2
    readRows bus control_code rest (wireRead bus control_code 16 true tr1).2

/-- Reads a memory (`readChip`): `0` on success, `-1` on failure. -/
def readChip (bus : Bus) (memoryType : greenPakMemory_t) (tr : List Txn) : Int × List Txn :=
  let r := checkSlaveAddres bus tr
  if r.1 = 0xff then (-1, r.2)
  else
    let control_code := ((r.1 <<< 4) % 256) ||| blockAddress memoryType
    (0, readRows bus control_code (List.range 16) r.2 ++ [Txn.stop])

/-! ## Vocabulary of the statements -/

/-- The discovery probe of slave address `i`: a read of length zero at the control byte of
the register block. -/
def probe (i : Nat) : Txn := Txn.read ((i <<< 4) ||| RESISTER_CONFIG) 0 false

/-- The discovery probes of the slave addresses `0 .. n - 1`, in this order. -/
def probes (n : Nat) : List Txn := (List.range n).map probe

/-- The probe of `ackPolling`: a read of length zero at the polled address. -/
def ackProbe (addressForAckPolling : Nat) : Txn := Txn.read addressForAckPolling 0 false

/-- A bus on which nothing is ever acknowledged. -/
def neverAck : Bus := fun _ _ => false

/-- A bus on which everything is acknowledged. -/
def alwaysAck : Bus := fun _ _ => true

/-- A bus on which exactly the device with slave address `d` answers: a transaction is
acknowledged when the high four bits of its control byte are `d`. -/
def onlyDevice (d : Nat) : Bus := fun _ t =>
  match t with
  | Txn.read address _ _ => address >>> 4 == d
  | Txn.write address _ _ => address >>> 4 == d
  | Txn.stop => false

/-- The row `case ':'` computes from the low address byte: `address = atoh2(p) >> 4`,
replaced by `0x00` when it is above `0x0f`. -/
def rowOfByte (lowAddress : Nat) : Nat :=
  if lowAddress >>> 4 > 0x0f then 0x00 else lowAddress >>> 4

/-- The byte count field of a line that starts with its colon, as `atoh2` decodes it. -/
def lineByteCount (line : List Nat) : Nat := atoh2Chars (line.getD 1 0) (line.getD 2 0)

/-- The row a line that starts with its colon is stored in. -/
def lineRow (line : List Nat) : Nat := rowOfByte (atoh2Chars (line.getD 5 0) (line.getD 6 0))

/-- The `c`-th data byte of a line that starts with its colon, as `atoh2` decodes it. -/
def lineByte (line : List Nat) (c : Nat) : Nat :=
  atoh2Chars (line.getD (9 + 2 * c) 0) (line.getD (9 + 2 * c + 1) 0)

/-- What a line with one record does to the image: a record with byte count `0x10` fills
its row, any other record changes nothing. -/
def lineEffect (line : List Nat) (h : HexData) : HexData :=
  if lineByteCount line = 0x10 then
    fun r c => if r = lineRow line ∧ c < 16 then lineByte line c else h r c
  else h

/-- What a line with one record does to the count `ans`. -/
def lineCount (line : List Nat) (ans : Nat) : Nat :=
  if lineByteCount line = 0x10 then (ans + 1) % 256 else ans

/-- A line that holds one complete record: it starts with the colon, the 8 characters of
the header follow (and the 32 data characters when the byte count is `0x10`), it fits the
line buffer, and it has no further colon and no NUL. -/
def RecordLine (line : List Nat) : Prop :=
  line.getD 0 0 = 58 ∧ 9 ≤ line.length ∧ line.length ≤ 99 ∧
  (lineByteCount line = 0x10 → 41 ≤ line.length) ∧
  ∀ k, 1 ≤ k → k < line.length → line.getD k 0 ≠ 58 ∧ line.getD k 0 ≠ 0

/-- The hex digits and their values, as a table: the reference the decoder is compared
with. -/
def hexDigitTable : List (Nat × Nat) :=
  [(48, 0), (49, 1), (50, 2), (51, 3), (52, 4), (53, 5), (54, 6), (55, 7), (56, 8), (57, 9),
   (65, 10), (66, 11), (67, 12), (68, 13), (69, 14), (70, 15),
   (97, 10), (98, 11), (99, 12), (100, 13), (101, 14), (102, 15)]

/-- The reference value of a hex digit character (`0` for any other character). -/
def refDigit (c : Nat) : Nat := (hexDigitTable.lookup c).getD 0

/-- The reference value of a pair of hex digit characters. -/
def refByte (c0 c1 : Nat) : Nat := 16 * refDigit c0 + refDigit c1

/-- The character is one of `0-9`, `A-F`, `a-f`. -/
def isHexDigit (c : Nat) : Bool :=
  (decide (48 ≤ c) && decide (c ≤ 57)) || (decide (65 ≤ c) && decide (c ≤ 70)) ||
    (decide (97 ≤ c) && decide (c ≤ 102))

/-- A data record of a HEX file: the characters `r` of its address `00r0`, of its record
type, its 32 data characters, the characters of its checksum, and its line end. -/
structure DataRecord where
  row : Nat
  type0 : Nat
  type1 : Nat
  digits : List Nat
  sum0 : Nat
  sum1 : Nat
  eol : List Nat

/-- The characters of a data record behind the colon: byte count `10`, address `00r0`,
record type, data, checksum. -/
def DataRecord.body (r : DataRecord) : List Nat :=
  [49, 48, 48, 48, r.row, 48, r.type0, r.type1] ++ r.digits ++ [r.sum0, r.sum1]

/-- The line of a data record. -/
def DataRecord.text (r : DataRecord) : List Nat := 58 :: (r.body ++ r.eol)

/-- All characters of the record are hex digits and it has 32 data characters. -/
def DataRecord.wellFormed (r : DataRecord) : Bool :=
  isHexDigit r.row && isHexDigit r.type0 && isHexDigit r.type1 &&
    decide (r.digits.length = 32) && r.digits.all isHexDigit &&
    isHexDigit r.sum0 && isHexDigit r.sum1

/-- The end record of a HEX file: the 8 characters behind its byte count `00` (address,
record type, checksum) and its line end. -/
structure EndRecord where
  rest : List Nat
  eol : List Nat

/-- The characters of an end record behind the colon. -/
def EndRecord.body (e : EndRecord) : List Nat := [48, 48] ++ e.rest

/-- The line of an end record. -/
def EndRecord.text (e : EndRecord) : List Nat := 58 :: (e.body ++ e.eol)

/-- All characters of the end record are hex digits and 8 of them follow the byte count. -/
def EndRecord.wellFormed (e : EndRecord) : Bool :=
  decide (e.rest.length = 8) && e.rest.all isHexDigit

/-- The line ends of a file, line by line: every line ends with LF or CR LF, the last line
may also end with the file. -/
def eolOk : List (List Nat) → Bool
  | [] => true
  | [e] => decide (e = [] ∨ e = [10] ∨ e = [13, 10])
  | e :: rest => decide (e = [10] ∨ e = [13, 10]) && eolOk rest

/-- A line given by the characters behind its colon and its line end. -/
def pairText (l : List Nat × List Nat) : List Nat := 58 :: (l.1 ++ l.2)

/-- The character codes of a string. -/
def chars (s : String) : List Nat := s.toList.map Char.toNat

/-- The data record a line of 43 characters and its line end stand for, read off by
position. -/
def DataRecord.ofChars (l : List Nat) : DataRecord :=
  { row := l.getD 5 0, type0 := l.getD 7 0, type1 := l.getD 8 0,
    digits := (l.drop 9).take 32, sum0 := l.getD 41 0, sum1 := l.getD 42 0, eol := l.drop 43 }

/-- The data lines of the example file in the head comment of `main.cpp`. -/
def exampleLines : List String :=
  [":100000009F07003D0F0000000000000000000000FE\n",
   ":1000100000000000000000000000000000000000E0\n",
   ":100020000000000000000000000000E0FB000000F5\n",
   ":10003000000000000000000000000000CFEFFC0006\n",
   ":1000400000000000000000000000000000000000B0\n",
   ":1000500000000000000000000000000000000000A0\n",
   ":1000600000303000303030300000303030000000E0\n",
   ":1000700030303030000000000000000000000000C0\n",
   ":10008000FA00FA663B1422300C0000000000000069\n",
   ":10009000000000000000000000000300000000005D\n",
   ":1000A0000000002000010000000201000002000129\n",
   ":1000B0000000020100000200010000020100000235\n",
   ":1000C000000100000200010000000101000000002A\n",
   ":1000D0000000000000000000000000000000000020\n",
   ":1000E0000000000000000000000000000000000010\n",
   ":1000F000000000000000000000000000000000A55B\n"]

/-- The data records of the example file. -/
def exampleRecords : List DataRecord := exampleLines.map (fun s => DataRecord.ofChars (chars s))

/-- The end record `:00000001FF` of the example file. -/
def exampleEnd : EndRecord := { rest := chars "000001FF", eol := chars "\n" }

/-- The example file: its 16 data lines and its end record. -/
def exampleFile : List Nat := (exampleLines.map chars).flatten ++ chars ":00000001FF\n"

/-- A file system that holds the example file under both names. -/
def exampleFiles : LocalFiles := { nvm := some exampleFile, eeprom := some exampleFile }

/-- A memory whose `buffer` and `hexData` are all zero, as after start-up. -/
def zeroMemory : Memory := { buffer := fun _ => 0, hexData := fun _ _ => 0 }

/-- Loop variables that happen to start at zero. -/
def zeroIndeterminate : Indeterminate := { i := 0, j := fun _ => 0 }

/-- The number of records with byte count `0x10` in a string: the places where a colon is
followed by two characters that `atoh2` decodes to `0x10`. -/
def qualifyingIn : List Nat → Nat
  | [] => 0
  | c :: rest =>
    (if c = 58 ∧ atoh2Chars (rest.getD 0 0) (rest.getD 1 0) = 0x10 then 1 else 0)
      + qualifyingIn rest

/-- The number of records with byte count `0x10` in a file, over the strings `fgets`
delivers. -/
def qualifyingRecords (file : List Nat) : Nat := ((fileLines file).map qualifyingIn).sum

/-- A line with nine blanks before a data record for row 0. -/
def shiftedLine : List Nat := chars "         :10000000000102030405060708090A0B0C0D0E0FCC\n"

/-- The example file without its last data line: 15 data records and the end record. -/
def shortFile : List Nat := ((exampleLines.take 15).map chars).flatten ++ chars ":00000001FF\n"

/-- A row write: a write of 17 bytes (every other write of the program has one or two). -/
def isRowWrite : Txn → Bool
  | Txn.write _ data _ => data.length == 17
  | _ => false

/-- The row write of row `i`: the 17 bytes of the row to the control byte `control_code`. -/
def rowWrite (control_code : Nat) (h : HexData) (i : Nat) : Txn :=
  Txn.write control_code (rowBytes h i) false

/-- The transactions of `resister_unprotect` behind its discovery, for slave address `d`. -/
def unprotectTxns (d : Nat) : List Txn :=
  [Txn.write ((d <<< 4) ||| RESISTER_CONFIG) [0xE1, 0x00] false,
   Txn.write ((d <<< 4) ||| RESISTER_CONFIG) [0xE1] false,
   Txn.read ((d <<< 4) ||| RESISTER_CONFIG) 1 false]

/-- A file of 16 data records that all carry the address `0000`. -/
def sameRowFile : List Nat :=
  (List.replicate 16 (chars ":100000009F07003D0F0000000000000000000000FE\n")).flatten

/-- A file system without HEX files. -/
def noFiles : LocalFiles := { nvm := none, eeprom := none }

/-- A bus on which everything is acknowledged except the row write of row 7 (a write of
17 bytes that starts with `0x70`). -/
def nackRow7 : Bus := fun _ t =>
  match t with
  | Txn.write _ data _ => !(data.length == 17 && data.head? == some 0x70)
  | _ => true

/-- The transactions `readChip` issues for row `i`: the write of the row address and the
read of 16 bytes, both without releasing the bus. -/
def rowAccess (control_code i : Nat) : List Txn :=
  [Txn.write control_code [(i <<< 4) % 256] true, Txn.read control_code 16 true]

/-- The page erase command for page `i`: register `0xE3` and the erase byte. -/
def eraseWrite (memoryType : greenPakMemory_t) (control_code i : Nat) : Txn :=
  Txn.write control_code [0xE3, eraseByte memoryType i] false

/-- The software reset of `powercycle` for slave address `d`: `0x02` to register `0xC8`. -/
def resetWrite (d : Nat) : Txn := Txn.write ((d <<< 4) ||| RESISTER_CONFIG) [0xC8, 0x02] false

/-- The transaction is a write. -/
def isWrite : Txn → Bool
  | Txn.write _ _ _ => true
  | _ => false

/-- The transactions of the page loop of `eraseChip` when the pages `0, 1, ...` are polled
`ns[0], ns[1], ...` times: for each page its erase command and its polling probes. -/
def pagesTrace (memoryType : greenPakMemory_t) (control_code : Nat) (ns : List Nat) : List Txn :=
  (List.zipWith (fun i n => eraseWrite memoryType control_code i
      :: List.replicate n (ackProbe control_code)) (List.range 16) ns).flatten

/-- A data line whose third data byte holds the character `G`. -/
def malformedLine : List Nat := chars ":100030000102G3040506070809000A0B0C0D0E0F06\n"

/-- An image that holds `0xA5` in every cell, as a load before may have left it. -/
def usedMemory : Memory := { buffer := fun _ => 0, hexData := fun _ _ => 0xA5 }

/-- Loop variables that start at 16, as a value left on the stack may be. -/
def staleIndeterminate : Indeterminate := { i := 16, j := fun _ => 16 }

/-- Loop variables of which `i` starts at zero and `j` at zero in the first round of the
outer loop only: in the later rounds `j` still holds the 16 the inner loop left. -/
def reusedIndeterminate : Indeterminate := { i := 0, j := fun i => if i = 0 then 0 else 16 }

/-- The transactions of the row loop of `writeChip` when the rows `0, 1, ...` are written
with acknowledgment and polled `ns[0], ns[1], ...` times: for each row its row write and
its polling probes at `addressForAckPolling`. -/
def rowsPolled (control_code addressForAckPolling : Nat) (h : HexData) (ns : List Nat) :
    List Txn :=
  (List.zipWith (fun i n => rowWrite control_code h i
      :: List.replicate n (ackProbe addressForAckPolling)) (List.range 16) ns).flatten

/-- A bus on which everything is acknowledged except a read at the control byte `0x00`: the
device at slave address 0 answers its discovery probe at `0x02` and takes the row writes, but
never answers the poll of the row loop. -/
def unpolled : Bus := fun _ t =>
  match t with
  | Txn.read address _ _ => address != 0
  | _ => true

/-- A bus on which the device with slave address `d` acknowledges every transaction sent to
it (every read and write whose control byte has `d` in its high four bits), whatever went
before, and on which no lower slave address answers a discovery probe. -/
def Acknowledges (bus : Bus) (d : Nat) : Prop :=
  (∀ tr i, i < d → bus tr (probe i) = false) ∧
  ∀ tr t, onlyDevice d [] t = true → bus tr t = true

/-- The transactions of a successful `eraseChip` (NVM, EEPROM) for the device at `d`, every
poll answered at its first probe: discovery, the discovery and the three transactions of
`resister_unprotect`, the 16 pages, the discovery and the reset write of `powercycle`. -/
def eraseTrace (memoryType : greenPakMemory_t) (d : Nat) : List Txn :=
  probes (d + 1) ++ (probes (d + 1) ++ unprotectTxns d)
    ++ pagesTrace memoryType ((d <<< 4) ||| RESISTER_CONFIG) (List.replicate 16 1)
    ++ (probes (d + 1) ++ [resetWrite d])

/-- The transactions of a successful `writeChip` of the image `h` for the device at `d`,
every poll answered at its first probe: discovery, `resister_unprotect` (NVM), `eraseChip`
(NVM, EEPROM), the 16 rows, `Wire.stop()`, `powercycle` (NVM). -/
def programTrace (memoryType : greenPakMemory_t) (d : Nat) (h : HexData) : List Txn :=
  probes (d + 1)
    ++ (if memoryType = .NVM then probes (d + 1) ++ unprotectTxns d else [])
    ++ (if memoryType ≠ .RESISTER then eraseTrace memoryType d else [])
    ++ rowsPolled ((d <<< 4) ||| blockAddress memoryType) (d <<< 4) h (List.replicate 16 1)
    ++ [Txn.stop]
    ++ (if memoryType = .NVM then probes (d + 1) ++ [resetWrite d] else [])

/-- The image `h1` agrees with `h` in every cell outside the 16 x 16 array `hexData`: no
write went out of bounds. -/
def SameOutside (h h1 : HexData) : Prop := ∀ r c, 16 ≤ r ∨ 16 ≤ c → h1 r c = h r c

/-- A data line whose address field is `ZZG0`: no character of the high byte is a hex
digit, and the low byte has a malformed first digit. -/
def malformedAddressLine : List Nat := chars ":10ZZG000000102030405060708090A0B0C0D0E0F06\n"
/-- The 16 data records of the example file, 17 times over: 272 records. -/
def records272 : List DataRecord := (List.replicate 17 exampleRecords).flatten

/-- A file of 272 data records: the 16 data lines of the example file, 17 times over. -/
def file272 : List Nat := (records272.map DataRecord.text).flatten

/-- A file system that holds the file of 272 records as `NVM.hex`. -/
def files272 : LocalFiles := { nvm := some file272, eeprom := none }

/-- A file of one data record behind nine blanks, followed by a line that holds a colon
only. -/
def staleOnce : List Nat := shiftedLine ++ chars ":\n"

/-- The poll that starts behind the trace `tr` is answered at its `n`-th probe: the bus
does not acknowledge the first `n - 1` probes at `addressForAckPolling` and acknowledges
the `n`-th, with `n` from 1 to 1001. -/
def Answered (bus : Bus) (addressForAckPolling : Nat) (tr : List Txn) (n : Nat) : Prop :=
  1 ≤ n ∧ n ≤ 1001 ∧
  (∀ j, j + 1 < n → bus (tr ++ List.replicate j (ackProbe addressForAckPolling))
    (ackProbe addressForAckPolling) = false) ∧
  bus (tr ++ List.replicate (n - 1) (ackProbe addressForAckPolling))
    (ackProbe addressForAckPolling) = true

/-- The poll that starts behind the trace `tr` is exhausted: the bus acknowledges none of
its 1001 probes at `addressForAckPolling`. -/
def Exhausted (bus : Bus) (addressForAckPolling : Nat) (tr : List Txn) : Prop :=
  ∀ j, j ≤ 1000 → bus (tr ++ List.replicate j (ackProbe addressForAckPolling))
    (ackProbe addressForAckPolling) = false

/-- The trace at the start of the poll of page `i` of `eraseChip`: the trace `tr1` before
the page loop, the pages `0 .. i - 1` with their polls of `ns[0], ns[1], ...` probes, and
the erase command of page `i`. -/
def pollStart (tr1 : List Txn) (memoryType : greenPakMemory_t) (control_code : Nat)
    (ns : List Nat) (i : Nat) : List Txn :=
  tr1 ++ pagesTrace memoryType control_code (ns.take i)
    ++ [eraseWrite memoryType control_code i]

/-- A bus on which everything is acknowledged until the erase command of NVM page 3 has
been sent to the control byte `0x02`; from then on no read is acknowledged. -/
def stuckPage3 : Bus := fun tr t =>
  match t with
  | Txn.read _ _ _ => !(tr.contains (eraseWrite greenPakMemory_t.NVM 0x02 3))
  | _ => true

/-- A file system that holds the example file as `NVM.hex` and no `EEPROM.hex`. -/
def nvmOnly : LocalFiles := { nvm := some exampleFile, eeprom := none }

/-- A file system that holds the example file as `EEPROM.hex` and no `NVM.hex`. -/
def eepromOnly : LocalFiles := { nvm := none, eeprom := some exampleFile }

/-! ## Discovery -/

theorem probes_succ (n : Nat) : probes (n + 1) = probes n ++ [probe n] := by
  simp [probes, List.range_succ]

theorem checkSlaveAddresLoop_range' (bus : Bus) :
    ∀ (n s : Nat) (tr : List Txn),
      (∃ i, i < n ∧
          checkSlaveAddresLoop bus (List.range' s n) tr
            = (s + i, tr ++ (List.range' s (i + 1)).map probe) ∧
          bus (tr ++ (List.range' s i).map probe) (probe (s + i)) = true ∧
          ∀ k, k < i → bus (tr ++ (List.range' s k).map probe) (probe (s + k)) = false) ∨
      (checkSlaveAddresLoop bus (List.range' s n) tr
            = (0xff, tr ++ (List.range' s n).map probe) ∧
          ∀ k, k < n → bus (tr ++ (List.range' s k).map probe) (probe (s + k)) = false) := by
  intro n
  induction n with
  | zero => intro s tr; right; simp [checkSlaveAddresLoop]
  | succ n ih =>
    intro s tr
    by_cases h0 : bus tr (probe s) = true
    · left
      refine ⟨0, by omega, ?_, by simpa using h0, by intro k hk; omega⟩
      have h0' : bus tr (Txn.read (s <<< 4 ||| RESISTER_CONFIG) 0 false) = true := h0
      simp [List.range', checkSlaveAddresLoop, wireRead, h0', probe]
    · have h0' : bus tr (Txn.read (s <<< 4 ||| RESISTER_CONFIG) 0 false) = false := by
        simpa [probe] using h0
      have hstep : checkSlaveAddresLoop bus (List.range' s (n + 1)) tr
          = checkSlaveAddresLoop bus (List.range' (s + 1) n) (tr ++ [probe s]) := by
        simp [List.range', checkSlaveAddresLoop, wireRead, h0', probe]
      have hshift : ∀ k, tr ++ [probe s] ++ (List.range' (s + 1) k).map probe
          = tr ++ (List.range' s (k + 1)).map probe := by
        intro k; simp [List.range']
      rcases ih (s + 1) (tr ++ [probe s]) with ⟨i, hi, hres, hack, hnack⟩ | ⟨hres, hnack⟩
      · left
        refine ⟨i + 1, by omega, ?_, ?_, ?_⟩
        · rw [hstep, hres, hshift]
          congr 1; omega
        · rw [hshift] at hack
          have : s + (i + 1) = s + 1 + i := by omega
          rw [this]; exact hack
        · intro k hk
          cases k with
          | zero => simpa [probe] using h0'
          | succ k =>
            have := hnack k (by omega)
            rw [hshift] at this
            have e : s + (k + 1) = s + 1 + k := by omega
            rw [e]; exact this
      · right
        refine ⟨?_, ?_⟩
        · rw [hstep, hres, hshift]
        · intro k hk
          cases k with
          | zero => simpa [probe] using h0'
          | succ k =>
            have := hnack k (by omega)
            rw [hshift] at this
            have e : s + (k + 1) = s + 1 + k := by omega
            rw [e]; exact this

/-- What `checkSlaveAddres` returns and leaves on the bus, for any bus and any trace. -/
theorem checkSlaveAddres_cases (bus : Bus) (tr : List Txn) :
    (∃ i, i < 16 ∧ checkSlaveAddres bus tr = (i, tr ++ probes (i + 1)) ∧
        bus (tr ++ probes i) (probe i) = true ∧
        ∀ k, k < i → bus (tr ++ probes k) (probe k) = false) ∨
    (checkSlaveAddres bus tr = (0xff, tr ++ probes 16) ∧
        ∀ k, k < 16 → bus (tr ++ probes k) (probe k) = false) := by
  have h := checkSlaveAddresLoop_range' bus 16 0 tr
  simpa [checkSlaveAddres, probes, List.range_eq_range'] using h

theorem checkSlaveAddres_found (bus : Bus) (tr : List Txn)
    (h : (checkSlaveAddres bus tr).1 ≠ 0xff) :
    (checkSlaveAddres bus tr).1 < 16 ∧
      (checkSlaveAddres bus tr).2 = tr ++ probes ((checkSlaveAddres bus tr).1 + 1) := by
  rcases checkSlaveAddres_cases bus tr with ⟨i, hi, hres, -, -⟩ | ⟨hres, -⟩
  · rw [hres]; exact ⟨hi, rfl⟩
  · rw [hres] at h; exact absurd rfl h

theorem checkSlaveAddres_missing (bus : Bus) (tr : List Txn)
    (h : (checkSlaveAddres bus tr).1 = 0xff) :
    (checkSlaveAddres bus tr).2 = tr ++ probes 16 := by
  rcases checkSlaveAddres_cases bus tr with ⟨i, hi, hres, -, -⟩ | ⟨hres, -⟩
  · rw [hres] at h; simp at h; omega
  · rw [hres]

/-! ## Acknowledge polling -/

theorem append_replicate_succ (tr : List Txn) (t : Txn) (j : Nat) :
    tr ++ [t] ++ List.replicate j t = tr ++ List.replicate (j + 1) t := by
  simp [List.replicate_succ]

theorem ackPollingLoop_ack (bus : Bus) (a : Nat) :
    ∀ (n budget : Nat) (tr : List Txn), n ≤ budget →
      (∀ j, j < n → bus (tr ++ List.replicate j (ackProbe a)) (ackProbe a) = false) →
      bus (tr ++ List.replicate n (ackProbe a)) (ackProbe a) = true →
      ackPollingLoop bus a budget tr = (0, tr ++ List.replicate (n + 1) (ackProbe a)) := by
  intro n
  induction n with
  | zero =>
    intro budget tr _ _ hack
    have hack' : bus tr (Txn.read a 0 false) = true := by simpa [ackProbe] using hack
    cases budget <;> simp [ackPollingLoop, wireRead, hack', ackProbe]
  | succ n ih =>
    intro budget tr hle hnack hack
    obtain ⟨b, rfl⟩ : ∃ b, budget = b + 1 := ⟨budget - 1, by omega⟩
    have h0 : bus tr (Txn.read a 0 false) = false := by
      simpa [ackProbe] using hnack 0 (by omega)
    have hstep : ackPollingLoop bus a (b + 1) tr = ackPollingLoop bus a b (tr ++ [ackProbe a]) := by
      simp [ackPollingLoop, wireRead, h0, ackProbe]
    rw [hstep, ih b (tr ++ [ackProbe a]) (by omega), append_replicate_succ]
    · intro j hj
      rw [append_replicate_succ]; exact hnack (j + 1) (by omega)
    · rw [append_replicate_succ]; exact hack

theorem ackPollingLoop_nack (bus : Bus) (a : Nat) :
    ∀ (budget : Nat) (tr : List Txn),
      (∀ j, j ≤ budget → bus (tr ++ List.replicate j (ackProbe a)) (ackProbe a) = false) →
      ackPollingLoop bus a budget tr
        = (-1, tr ++ List.replicate (budget + 1) (ackProbe a)) := by
  intro budget
  induction budget with
  | zero =>
    intro tr hnack
    have h0 : bus tr (Txn.read a 0 false) = false := by
      simpa [ackProbe] using hnack 0 (by omega)
    simp [ackPollingLoop, wireRead, h0, ackProbe]
  | succ b ih =>
    intro tr hnack
    have h0 : bus tr (Txn.read a 0 false) = false := by
      simpa [ackProbe] using hnack 0 (by omega)
    have hstep : ackPollingLoop bus a (b + 1) tr = ackPollingLoop bus a b (tr ++ [ackProbe a]) := by
      simp [ackPollingLoop, wireRead, h0, ackProbe]
    rw [hstep, ih (tr ++ [ackProbe a]), append_replicate_succ]
    intro j hj
    rw [append_replicate_succ]; exact hnack (j + 1) (by omega)

/-- Every run of the polling loop issues between one and `budget + 1` probes and nothing
else, and ends with `0` or `-1`. -/
theorem ackPollingLoop_shape (bus : Bus) (a : Nat) :
    ∀ (budget : Nat) (tr : List Txn),
      ∃ k, 1 ≤ k ∧ k ≤ budget + 1 ∧
        (ackPollingLoop bus a budget tr).2 = tr ++ List.replicate k (ackProbe a) ∧
        ((ackPollingLoop bus a budget tr).1 = 0 ∨ (ackPollingLoop bus a budget tr).1 = -1) := by
  intro budget
  induction budget with
  | zero =>
    intro tr
    refine ⟨1, by omega, by omega, ?_, ?_⟩
    · by_cases h : bus tr (Txn.read a 0 false) = true <;>
        simp [ackPollingLoop, wireRead, h, ackProbe]
    · by_cases h : bus tr (Txn.read a 0 false) = true <;>
        simp [ackPollingLoop, wireRead, h]
  | succ b ih =>
    intro tr
    by_cases h : bus tr (Txn.read a 0 false) = true
    · refine ⟨1, by omega, by omega, ?_, ?_⟩ <;>
        simp [ackPollingLoop, wireRead, h, ackProbe]
    · have hstep : ackPollingLoop bus a (b + 1) tr
          = ackPollingLoop bus a b (tr ++ [ackProbe a]) := by
        simp [ackPollingLoop, wireRead, h, ackProbe]
      obtain ⟨k, hk1, hk2, htr, hres⟩ := ih (tr ++ [ackProbe a])
      refine ⟨k + 1, by omega, by omega, ?_, ?_⟩
      · rw [hstep, htr, append_replicate_succ]
      · rw [hstep]; exact hres

/-! ## Claims on discovery and acknowledge polling -/

/-- C5: for every bus, `checkSlaveAddres` returns the least slave address `i` in `0 .. 15`
whose probe (a read of length zero at the control byte `(i << 4) | 0x02`) is acknowledged,
having issued exactly the probes of the addresses `0, 1, ..., i` in ascending order and
nothing behind them; when no probe is acknowledged it returns `0xff` after exactly the 16
probes.  On a bus where only the device `0x0B` answers, the probes of `0x0 .. 0x0A` are not
acknowledged, the probe of `0x0B` is, and the result is `0x0B`. -/
theorem checkSlaveAddres_least_acknowledged (bus : Bus) (tr : List Txn) :
    ((∃ i, i < 16 ∧
        checkSlaveAddres bus tr
          = (i, tr ++ (List.range (i + 1)).map
              (fun k => Txn.read ((k <<< 4) ||| 0x02) 0 false)) ∧
        bus (tr ++ probes i) (probe i) = true ∧
        ∀ k, k < i → bus (tr ++ probes k) (probe k) = false) ∨
      (checkSlaveAddres bus tr
          = (0xff, tr ++ (List.range 16).map
              (fun k => Txn.read ((k <<< 4) ||| 0x02) 0 false)) ∧
        ∀ k, k < 16 → bus (tr ++ probes k) (probe k) = false)) ∧
    (checkSlaveAddres (onlyDevice 0x0B) [] = (0x0B, probes 12) ∧
      probes 12 = [Txn.read 0x02 0 false, Txn.read 0x12 0 false, Txn.read 0x22 0 false,
        Txn.read 0x32 0 false, Txn.read 0x42 0 false, Txn.read 0x52 0 false,
        Txn.read 0x62 0 false, Txn.read 0x72 0 false, Txn.read 0x82 0 false,
        Txn.read 0x92 0 false, Txn.read 0xA2 0 false, Txn.read 0xB2 0 false] ∧
      (∀ k, k < 0x0B → onlyDevice 0x0B (probes k) (probe k) = false) ∧
      onlyDevice 0x0B (probes 0x0B) (probe 0x0B) = true) := by
  refine ⟨checkSlaveAddres_cases bus tr, by decide, by decide, by decide, by decide⟩

/-- C7, as the code has it: `eraseChip(RESISTER)` first looks for the device.  When some
slave address `d` in `0 .. 15` acknowledges its probe, it returns success (`0`) having
issued exactly the probes of the addresses `0 .. d` (reads of length zero) and no write;
when no address acknowledges, it returns failure (`-1`) after the 16 probes. -/
theorem eraseChip_resister_only_probes (bus : Bus) (tr : List Txn) :
    (∃ d, d < 16 ∧ (checkSlaveAddres bus tr).1 = d ∧
        bus (tr ++ probes d) (probe d) = true ∧
        eraseChip bus greenPakMemory_t.RESISTER tr = (0, tr ++ probes (d + 1))) ∨
    ((checkSlaveAddres bus tr).1 = 0xff ∧
        (∀ k, k < 16 → bus (tr ++ probes k) (probe k) = false) ∧
        eraseChip bus greenPakMemory_t.RESISTER tr = (-1, tr ++ probes 16)) := by
  rcases checkSlaveAddres_cases bus tr with ⟨i, hi, hres, hack, -⟩ | ⟨hres, hnack⟩
  · left
    refine ⟨i, hi, by rw [hres], hack, ?_⟩
    have hne : i ≠ 255 := by omega
    simp [eraseChip, hres, hne]
  · right
    refine ⟨by rw [hres], hnack, ?_⟩
    simp [eraseChip, hres]

/-- C7 fails as stated: on a bus on which no device answers `eraseChip(RESISTER)` returns
`-1` and has issued 16 transactions, and on a bus on which everything is acknowledged it
has issued one. -/
theorem eraseChip_resister_touches_bus :
    (eraseChip neverAck greenPakMemory_t.RESISTER []).1 = -1 ∧
    (eraseChip neverAck greenPakMemory_t.RESISTER []).2.length = 16 ∧
    eraseChip alwaysAck greenPakMemory_t.RESISTER [] = (0, [Txn.read 0x02 0 false]) := by
  refine ⟨by decide, by decide, by decide⟩

/-- C8, as the code has it: on a bus that never acknowledges the polled address,
`ackPolling` returns `-1` after exactly 1001 reads of length zero at that address (the
first probe and 1000 repetitions), and issues nothing behind them. -/
theorem ackPolling_gives_up (bus : Bus) (a : Nat) (tr : List Txn)
    (h : ∀ tr1, bus tr1 (Txn.read a 0 false) = false) :
    ackPolling bus a tr = (-1, tr ++ List.replicate 1001 (Txn.read a 0 false)) :=
  ackPollingLoop_nack bus a 1000 tr (fun _ _ => h _)

theorem ackPolling_gives_up_witness :
    (∀ tr1, neverAck tr1 (Txn.read 0x02 0 false) = false) ∧
    ackPolling neverAck 0x02 [] = (-1, [] ++ List.replicate 1001 (Txn.read 0x02 0 false)) :=
  ⟨fun _ => rfl, ackPolling_gives_up neverAck 0x02 [] (fun _ => rfl)⟩

/-- C8 fails as stated: on a bus that never acknowledges, `ackPolling` has issued 1001
probes, not 1000, when it returns `-1`. -/
theorem ackPolling_neverAck_probes :
    (ackPolling neverAck 0x02 []).1 = -1 ∧
    (ackPolling neverAck 0x02 []).2.length = 1001 ∧
    (ackPolling neverAck 0x02 []).2.length ≠ 1000 := by
  have h : ackPolling neverAck 0x02 [] = (-1, [] ++ List.replicate 1001 (ackProbe 0x02)) :=
    ackPollingLoop_nack neverAck 0x02 1000 [] (fun _ _ => rfl)
  rw [h]
  refine ⟨rfl, ?_, ?_⟩
  · simp only [List.nil_append, List.length_replicate]
  · simp only [List.nil_append, List.length_replicate]
    decide

/-- C9: for every `k` from 1 to the retry budget 1000, when the first `k - 1` probes of
`ackPolling` are not acknowledged and the `k`-th is, `ackPolling` returns `0` having issued
exactly `k` probes, all of them reads of length zero at the given address, and none behind
the acknowledged one. -/
theorem ackPolling_first_ack (bus : Bus) (a : Nat) (tr : List Txn) (k : Nat)
    (hk1 : 1 ≤ k) (hk : k ≤ 1000)
    (hnack : ∀ j, j < k - 1 →
      bus (tr ++ List.replicate j (Txn.read a 0 false)) (Txn.read a 0 false) = false)
    (hack : bus (tr ++ List.replicate (k - 1) (Txn.read a 0 false)) (Txn.read a 0 false) = true) :
    ackPolling bus a tr = (0, tr ++ List.replicate k (Txn.read a 0 false)) := by
  have h := ackPollingLoop_ack bus a (k - 1) 1000 tr (by omega) hnack hack
  have e : k - 1 + 1 = k := by omega
  rw [e] at h
  exact h

theorem ackPolling_first_ack_witness :
    ackPolling alwaysAck 0x02 [] = (0, [Txn.read 0x02 0 false]) ∧
    ackPolling (fun tr _ => decide (2 ≤ tr.length)) 0x02 []
      = (0, [Txn.read 0x02 0 false, Txn.read 0x02 0 false, Txn.read 0x02 0 false]) :=
  ⟨ackPolling_first_ack alwaysAck 0x02 [] 1 (by decide) (by decide)
      (fun j hj => absurd hj (by omega)) rfl,
    ackPolling_first_ack (fun tr _ => decide (2 ≤ tr.length)) 0x02 [] 3 (by decide) (by decide)
      (fun j hj => by
        have hj2 : j < 2 := hj
        simp
        omega) (by simp)⟩

/-! ## Reading the line buffer -/

theorem peek_eq (buffer : Nat → Nat) (p : Nat) (hp : p < 100) : peek buffer p = some (buffer p) := by
  simp [peek, Z_bufferNumber, hp]

theorem atoh2_eq (buffer : Nat → Nat) (p : Nat) (hp : p + 1 < 100) :
    atoh2 buffer p = some (atoh2Chars (buffer p) (buffer (p + 1))) := by
  simp [atoh2, peek_eq buffer p (by omega), peek_eq buffer (p + 1) hp]

theorem readData_range' (buffer : Nat → Nat) (address : Nat) :
    ∀ (n i p : Nat) (h : HexData), p + 2 * n ≤ 100 →
      readData buffer address (List.range' i n) p h
        = some (p + 2 * n, fun r c =>
            if r = address ∧ i ≤ c ∧ c < i + n
            then atoh2Chars (buffer (p + 2 * (c - i))) (buffer (p + 2 * (c - i) + 1))
            else h r c) := by
  intro n
  induction n with
  | zero =>
    intro i p h _
    simp only [List.range'_zero, readData, Nat.mul_zero, Nat.add_zero]
    congr 1
    refine Prod.ext rfl ?_
    funext r c
    have hc : ¬ (r = address ∧ i ≤ c ∧ c < i) := by omega
    simp only [hc, if_false]
  | succ n ih =>
    intro i p h hp
    rw [List.range'_succ, readData, atoh2_eq buffer p (by omega)]
    simp only
    rw [ih (i + 1) (p + 2) _ (by omega)]
    congr 1
    refine Prod.ext (by simp; omega) ?_
    funext r c
    simp only [setCell]
    by_cases hr : r = address
    · by_cases hc : c = i
      · subst hc
        simp [hr]
      · by_cases hc1 : i + 1 ≤ c ∧ c < i + 1 + n
        · have hc2 : i ≤ c ∧ c < i + (n + 1) := by omega
          have e : p + 2 + 2 * (c - (i + 1)) = p + 2 * (c - i) := by omega
          simp [hr, hc1, hc2, e]
        · have hc2 : ¬ (i ≤ c ∧ c < i + (n + 1)) := by omega
          simp [hr, hc, hc1, hc2]
    · simp [hr]

theorem colonCase_other (buffer : Nat → Nat) (p ans : Nat) (h : HexData) (hp : p + 7 < 100)
    (hb : atoh2Chars (buffer p) (buffer (p + 1)) ≠ 0x10) :
    colonCase buffer p ans h = some (p + 8, ans, h) := by
  simp [colonCase, atoh2_eq buffer p (by omega), atoh2_eq buffer (p + 4) (by omega),
    atoh2_eq buffer (p + 6) (by omega), hb]

theorem colonCase_data (buffer : Nat → Nat) (p ans : Nat) (h : HexData) (hp : p + 40 ≤ 100)
    (hb : atoh2Chars (buffer p) (buffer (p + 1)) = 0x10) :
    colonCase buffer p ans h
      = some (p + 40, (ans + 1) % 256, fun r c =>
          if r = rowOfByte (atoh2Chars (buffer (p + 4)) (buffer (p + 5))) ∧ c < 16
          then atoh2Chars (buffer (p + 8 + 2 * c)) (buffer (p + 8 + 2 * c + 1))
          else h r c) := by
  have hd := readData_range' buffer (rowOfByte (atoh2Chars (buffer (p + 4)) (buffer (p + 5))))
    16 0 (p + 8) h (by omega)
  rw [← List.range_eq_range'] at hd
  simp only [colonCase, atoh2_eq buffer p (by omega), atoh2_eq buffer (p + 4) (by omega),
    atoh2_eq buffer (p + 6) (by omega), hb]
  simp only [rowOfByte] at hd
  simp [hd, rowOfByte]

theorem scanBuffer_plain (buffer : Nat → Nat) (ans : Nat) (h : HexData) :
    ∀ (n fuel p : Nat), n < fuel → p + n < 100 →
      (∀ k, p ≤ k → k < p + n → buffer k ≠ 58 ∧ buffer k ≠ 0) → buffer (p + n) = 0 →
      scanBuffer buffer fuel p ans h = some (ans, h) := by
  intro n
  induction n with
  | zero =>
    intro fuel p hf hp _ h0
    obtain ⟨f, rfl⟩ : ∃ f, fuel = f + 1 := ⟨fuel - 1, by omega⟩
    have h0' : buffer p = 0 := by simpa using h0
    simp [scanBuffer, peek_eq buffer p (by omega), h0']
  | succ n ih =>
    intro fuel p hf hp hk h0
    obtain ⟨f, rfl⟩ : ∃ f, fuel = f + 1 := ⟨fuel - 1, by omega⟩
    have hp0 := hk p (by omega) (by omega)
    have h0' : buffer (p + 1 + n) = 0 := by
      have e : p + 1 + n = p + (n + 1) := by omega
      rw [e]; exact h0
    simp only [scanBuffer, peek_eq buffer p (by omega), hp0.1, hp0.2, if_false]
    exact ih f (p + 1) (by omega) (by omega) (fun k hk1 hk2 => hk k (by omega) (by omega)) h0'

theorem storeLine_lt (line : List Nat) (buffer : Nat → Nat) (k : Nat) (hk : k < line.length) :
    storeLine line buffer k = line.getD k 0 := by
  simp [storeLine, hk]

theorem storeLine_length (line : List Nat) (buffer : Nat → Nat) :
    storeLine line buffer line.length = 0 := by
  simp [storeLine]

/-- The scan of a line that holds one complete record. -/
theorem scanBuffer_recordLine (line : List Nat) (buffer : Nat → Nat) (ans : Nat) (h : HexData)
    (hl : RecordLine line) :
    scanBuffer (storeLine line buffer) Z_bufferNumber 0 ans h
      = some (lineCount line ans, lineEffect line h) := by
  obtain ⟨h58, hlen9, hlen99, hdata, hrest⟩ := hl
  have hs : ∀ k, k < line.length → storeLine line buffer k = line.getD k 0 :=
    fun k hk => storeLine_lt line buffer k hk
  have hrest' : ∀ k, 1 ≤ k → k < line.length →
      storeLine line buffer k ≠ 58 ∧ storeLine line buffer k ≠ 0 := by
    intro k hk1 hk2
    rw [hs k hk2]; exact hrest k hk1 hk2
  have hfirst : storeLine line buffer 0 = 58 := by rw [hs 0 (by omega)]; exact h58
  have hstep : scanBuffer (storeLine line buffer) (99 + 1) 0 ans h
      = match colonCase (storeLine line buffer) (0 + 1) ans h with
        | none => none
        | some (p1, ans1, h1) => scanBuffer (storeLine line buffer) 99 p1 ans1 h1 := by
    rw [scanBuffer]
    simp only [peek_eq _ 0 (by omega), hfirst]
    rfl
  have hz : Z_bufferNumber = 99 + 1 := rfl
  rw [hz, hstep]
  by_cases hb : lineByteCount line = 0x10
  · have hlen41 := hdata hb
    have hb' : atoh2Chars (storeLine line buffer (0 + 1)) (storeLine line buffer (0 + 1 + 1)) = 0x10 := by
      rw [hs (0 + 1) (by omega), hs (0 + 1 + 1) (by omega)]; exact hb
    rw [colonCase_data _ (0 + 1) ans h (by omega) hb']
    simp only
    rw [scanBuffer_plain _ _ _ (line.length - 41) 99 (0 + 1 + 40) (by omega) (by omega)
      (fun k hk1 hk2 => hrest' k (by omega) (by omega))
      (by
        have e : 0 + 1 + 40 + (line.length - 41) = line.length := by omega
        rw [e]; exact storeLine_length line buffer)]
    simp only [lineCount, lineEffect, hb, if_true]
    congr 1
    refine Prod.ext rfl ?_
    funext r c
    simp only [lineRow, lineByte]
    rw [hs (0 + 1 + 4) (by omega), hs (0 + 1 + 5) (by omega)]
    by_cases hc : c < 16
    · rw [hs (0 + 1 + 8 + 2 * c) (by omega), hs (0 + 1 + 8 + 2 * c + 1) (by omega)]
    · simp [hc]
  · have hb' : atoh2Chars (storeLine line buffer (0 + 1)) (storeLine line buffer (0 + 1 + 1)) ≠ 0x10 := by
      rw [hs (0 + 1) (by omega), hs (0 + 1 + 1) (by omega)]; exact hb
    rw [colonCase_other _ (0 + 1) ans h (by omega) hb']
    simp only
    rw [scanBuffer_plain _ _ _ (line.length - 9) 99 (0 + 1 + 8) (by omega) (by omega)
      (fun k hk1 hk2 => hrest' k (by omega) (by omega))
      (by
        have e : 0 + 1 + 8 + (line.length - 9) = line.length := by omega
        rw [e]; exact storeLine_length line buffer)]
    simp only [lineCount, lineEffect, hb, if_false]

/-! ## The strings `fgets` delivers -/

theorem fgetsAll_terminated (rest : List Nat) :
    ∀ (body cur : List Nat), 10 ∉ body → cur.length + body.length + 1 ≤ 99 →
      fgetsAll (body ++ 10 :: rest) cur = (cur ++ body ++ [10]) :: fgetsAll rest [] := by
  intro body
  induction body with
  | nil => intro cur _ _; simp [fgetsAll]
  | cons c b ih =>
    intro cur h10 hlen
    have hc : c ≠ 10 := fun e => h10 (by simp [e])
    have hb : 10 ∉ b := fun e => h10 (by simp [e])
    have hl : ¬ (cur.length + 1 = 99) := by simp at hlen; omega
    have := ih (cur ++ [c]) hb (by simp at hlen ⊢; omega)
    simp [fgetsAll, hc, hl, Z_bufferNumber, this]

theorem fgetsAll_last :
    ∀ (body cur : List Nat), 10 ∉ body → cur.length + body.length < 99 → cur ++ body ≠ [] →
      fgetsAll body cur = [cur ++ body] := by
  intro body
  induction body with
  | nil => intro cur _ _ hne; simp at hne; simp [fgetsAll, hne]
  | cons c b ih =>
    intro cur h10 hlen _
    have hc : c ≠ 10 := fun e => h10 (by simp [e])
    have hb : 10 ∉ b := fun e => h10 (by simp [e])
    have hl : ¬ (cur.length + 1 = 99) := by simp at hlen; omega
    have := ih (cur ++ [c]) hb (by simp at hlen ⊢; omega) (by simp)
    simp [fgetsAll, hc, hl, Z_bufferNumber, this]

theorem isHexDigit_lt (c : Nat) (h : isHexDigit c = true) : c < 103 := by
  simp [isHexDigit] at h
  omega

theorem hexDigit_table :
    ∀ c, c < 103 → isHexDigit c = true →
      atoh1 c = refDigit c ∧ refDigit c < 16 ∧ c ≠ 58 ∧ c ≠ 0 ∧ c ≠ 10 ∧ c ≠ 13 := by
  decide

theorem hexDigit_facts (c : Nat) (h : isHexDigit c = true) :
    atoh1 c = refDigit c ∧ refDigit c < 16 ∧ c ≠ 58 ∧ c ≠ 0 ∧ c ≠ 10 ∧ c ≠ 13 :=
  hexDigit_table c (isHexDigit_lt c h) h

theorem not_mem_hexLine (l : List Nat) (hhex : ∀ c ∈ l, isHexDigit c = true) :
    10 ∉ 58 :: l ∧ 10 ∉ 58 :: (l ++ [13]) := by
  have h : 10 ∉ l := fun hm => (hexDigit_facts 10 (hhex 10 hm)).2.2.2.2.1 rfl
  constructor
  · intro hm
    rcases List.mem_cons.mp hm with e | hm
    · omega
    · exact h hm
  · intro hm
    rcases List.mem_cons.mp hm with e | hm
    · omega
    · rcases List.mem_append.mp hm with hm | hm
      · exact h hm
      · simp at hm

theorem fgetsAll_pairText_cons (l : List Nat × List Nat) (rest : List Nat)
    (hhex : ∀ c ∈ l.1, isHexDigit c = true) (hlen : l.1.length ≤ 90)
    (he : l.2 = [10] ∨ l.2 = [13, 10]) :
    fgetsAll (pairText l ++ rest) [] = pairText l :: fgetsAll rest [] := by
  obtain ⟨h10, h10'⟩ := not_mem_hexLine l.1 hhex
  rcases he with e | e
  · have e1 : pairText l ++ rest = (58 :: l.1) ++ 10 :: rest := by simp [pairText, e]
    rw [e1, fgetsAll_terminated rest (58 :: l.1) [] h10 (by simp; omega)]
    simp [pairText, e]
  · have e1 : pairText l ++ rest = (58 :: (l.1 ++ [13])) ++ 10 :: rest := by simp [pairText, e]
    rw [e1, fgetsAll_terminated rest (58 :: (l.1 ++ [13])) [] h10' (by simp; omega)]
    simp [pairText, e]

theorem fgetsAll_pairText_last (l : List Nat × List Nat)
    (hhex : ∀ c ∈ l.1, isHexDigit c = true) (hlen : l.1.length ≤ 90) (he : l.2 = []) :
    fgetsAll (pairText l) [] = [pairText l] := by
  obtain ⟨h10, -⟩ := not_mem_hexLine l.1 hhex
  have e1 : pairText l = 58 :: l.1 := by simp [pairText, he]
  rw [e1]
  exact fgetsAll_last (58 :: l.1) [] h10 (by simp; omega) (by simp)

/-- The strings `fgets` delivers for a file made of lines with hex digits behind the colon
are these lines. -/
theorem fileLines_pairs :
    ∀ ls : List (List Nat × List Nat),
      (∀ l ∈ ls, (∀ c ∈ l.1, isHexDigit c = true) ∧ l.1.length ≤ 90) →
      eolOk (ls.map Prod.snd) = true →
      fileLines (ls.map pairText).flatten = ls.map pairText := by
  intro ls
  induction ls with
  | nil => intro _ _; simp [fileLines, fgetsAll]
  | cons l rest ih =>
    intro hall heol
    obtain ⟨hhex, hlen⟩ := hall l (by simp)
    have hrest : ∀ l1 ∈ rest, (∀ c ∈ l1.1, isHexDigit c = true) ∧ l1.1.length ≤ 90 :=
      fun l1 h1 => hall l1 (by simp [h1])
    cases rest with
    | nil =>
      simp only [List.map_cons, List.map_nil, eolOk, decide_eq_true_eq] at heol
      simp only [List.map_cons, List.map_nil, List.flatten_cons, List.flatten_nil,
        List.append_nil, fileLines]
      rcases heol with e | e | e
      · exact fgetsAll_pairText_last l hhex hlen e
      · have := fgetsAll_pairText_cons l [] hhex hlen (Or.inl e)
        simpa [fgetsAll] using this
      · have := fgetsAll_pairText_cons l [] hhex hlen (Or.inr e)
        simpa [fgetsAll] using this
    | cons l2 rest2 =>
      simp only [List.map_cons, eolOk, Bool.and_eq_true, decide_eq_true_eq] at heol
      have ih' := ih hrest (by simpa [eolOk] using heol.2)
      simp only [fileLines] at ih' ⊢
      rw [List.map_cons, List.flatten_cons, fgetsAll_pairText_cons l _ hhex hlen heol.1, ih']

/-! ## Lines that hold one record -/

theorem recordLine_pair (l : List Nat × List Nat)
    (hhex : ∀ c ∈ l.1, isHexDigit c = true) (hlen8 : 8 ≤ l.1.length) (hlen : l.1.length ≤ 90)
    (he : l.2 = [] ∨ l.2 = [10] ∨ l.2 = [13, 10])
    (hdata : lineByteCount (pairText l) = 0x10 → 40 ≤ l.1.length) :
    RecordLine (pairText l) := by
  have hl2 : l.2.length ≤ 2 := by
    rcases he with e | e | e <;> simp [e]
  have hmem : ∀ c ∈ l.1 ++ l.2, c ≠ 58 ∧ c ≠ 0 := by
    intro c hc
    rcases List.mem_append.mp hc with hc | hc
    · have := hexDigit_facts c (hhex c hc)
      exact ⟨this.2.2.1, this.2.2.2.1⟩
    · rcases he with e | e | e <;> rw [e] at hc <;> simp at hc
      · omega
      · omega
  refine ⟨by simp [pairText], by simp [pairText]; omega, by simp [pairText]; omega, ?_, ?_⟩
  · intro hb
    have := hdata hb
    simp [pairText]; omega
  · intro k hk1 hk2
    obtain ⟨m, rfl⟩ : ∃ m, k = m + 1 := ⟨k - 1, by omega⟩
    have hm : m < (l.1 ++ l.2).length := by simpa [pairText] using hk2
    have e : (pairText l).getD (m + 1) 0 = (l.1 ++ l.2)[m] := by
      simp only [pairText, List.getD_cons_succ]
      exact List.getD_eq_getElem _ _ hm
    rw [e]
    exact hmem _ (List.getElem_mem hm)

theorem readLines_recordLines :
    ∀ (ls : List (List Nat)) (buffer : Nat → Nat) (ans : Nat) (h : HexData),
      (∀ l ∈ ls, RecordLine l) →
      ∃ b, readLines ls buffer ans h
        = some (b, ls.foldl (fun a l => lineCount l a) ans,
            ls.foldl (fun x l => lineEffect l x) h) := by
  intro ls
  induction ls with
  | nil => intro buffer ans h _; exact ⟨buffer, rfl⟩
  | cons l rest ih =>
    intro buffer ans h hall
    obtain ⟨b, hb⟩ := ih (storeLine l buffer) (lineCount l ans) (lineEffect l h)
      (fun l1 h1 => hall l1 (by simp [h1]))
    refine ⟨b, ?_⟩
    rw [readLines, scanBuffer_recordLine l buffer ans h (hall l (by simp))]
    simpa using hb

/-- The result of `hexFileRead` for a file whose lines each hold one complete record. -/
theorem hexFileRead_pairs (files : LocalFiles) (ind : Indeterminate)
    (memoryType : greenPakMemory_t) (mem : Memory) (ls : List (List Nat × List Nat))
    (hfile : hexFileOf files memoryType = some (ls.map pairText).flatten)
    (hhex : ∀ l ∈ ls, (∀ c ∈ l.1, isHexDigit c = true) ∧ l.1.length ≤ 90)
    (heol : eolOk (ls.map Prod.snd) = true)
    (hrec : ∀ l ∈ ls, RecordLine (pairText l)) :
    ∃ mem1, hexFileRead files ind memoryType mem
        = some ((ls.map pairText).foldl (fun a l => lineCount l a) 0, mem1) ∧
      mem1.hexData = (ls.map pairText).foldl (fun x l => lineEffect l x)
        (clearHexData ind mem.hexData) := by
  obtain ⟨b, hb⟩ := readLines_recordLines (ls.map pairText) mem.buffer 0
    (clearHexData ind mem.hexData) (by
      intro l hl
      obtain ⟨p, hp, rfl⟩ := List.mem_map.mp hl
      exact hrec p hp)
  refine ⟨{ buffer := b, hexData := _ }, ?_, rfl⟩
  simp only [hexFileRead, hfile, fileLines_pairs ls hhex heol, hb]

/-! ## Count and image of a sequence of record lines -/

theorem foldl_lineCount_data :
    ∀ (ls : List (List Nat)) (a : Nat), (∀ l ∈ ls, lineByteCount l = 0x10) →
      ls.foldl (fun a l => lineCount l a) a = if ls = [] then a else (a + ls.length) % 256 := by
  intro ls
  induction ls with
  | nil => intro a _; simp
  | cons l rest ih =>
    intro a hall
    have hl : lineByteCount l = 0x10 := hall l (by simp)
    rw [List.foldl_cons, ih _ (fun l1 h1 => hall l1 (by simp [h1]))]
    by_cases hr : rest = []
    · simp [hr, lineCount, hl]
    · simp only [hr, if_false, lineCount, hl, if_true, List.length_cons]
      simp only [List.cons_ne_nil, if_false]
      omega

theorem foldl_lineEffect_other :
    ∀ (ls : List (List Nat)) (h : HexData) (r : Nat),
      (∀ l ∈ ls, lineByteCount l = 0x10 → lineRow l ≠ r) →
      ∀ c, ls.foldl (fun x l => lineEffect l x) h r c = h r c := by
  intro ls
  induction ls with
  | nil => intro h r _ c; rfl
  | cons l rest ih =>
    intro h r hall c
    rw [List.foldl_cons, ih _ r (fun l1 h1 => hall l1 (by simp [h1]))]
    by_cases hb : lineByteCount l = 0x10
    · have hne : r ≠ lineRow l := fun e => hall l (by simp) hb e.symm
      simp [lineEffect, hb, hne]
    · simp [lineEffect, hb]

/-- Among data lines with pairwise different rows, every line leaves its bytes in its row. -/
theorem foldl_lineEffect_nodup :
    ∀ (ls : List (List Nat)) (h : HexData), (∀ l ∈ ls, lineByteCount l = 0x10) →
      (ls.map lineRow).Nodup →
      ∀ l ∈ ls, ∀ c, c < 16 →
        ls.foldl (fun x l => lineEffect l x) h (lineRow l) c = lineByte l c := by
  intro ls
  induction ls with
  | nil => intro h _ _ l hl; simp at hl
  | cons l0 rest ih =>
    intro h hall hnd l hl c hc
    rw [List.map_cons, List.nodup_cons] at hnd
    rw [List.foldl_cons]
    rcases List.mem_cons.mp hl with e | hl'
    · subst e
      rw [foldl_lineEffect_other rest _ (lineRow l) (by
        intro l1 h1 _ e
        exact hnd.1 (List.mem_map.mpr ⟨l1, h1, e⟩))]
      simp [lineEffect, hall l (by simp), hc]
    · exact ih _ (fun l1 h1 => hall l1 (by simp [h1])) hnd.2 l hl' c hc

/-! ## Data records and end records -/

theorem nibbles_byte : ∀ v0, v0 < 16 → ∀ v1, v1 < 16 →
    ((v0 <<< 4) ||| v1) % 256 = 16 * v0 + v1 ∧ (16 * v0 + v1) >>> 4 = v0 := by
  decide

theorem atoh2Chars_hex (c0 c1 : Nat) (h0 : isHexDigit c0 = true) (h1 : isHexDigit c1 = true) :
    atoh2Chars c0 c1 = refByte c0 c1 := by
  obtain ⟨e0, l0, -⟩ := hexDigit_facts c0 h0
  obtain ⟨e1, l1, -⟩ := hexDigit_facts c1 h1
  have n0 : refDigit c0 ≠ 255 := by omega
  have n1 : refDigit c1 ≠ 255 := by omega
  simp only [atoh2Chars, e0, e1, refByte]
  simp [n0, n1, (nibbles_byte _ l0 _ l1).1]

theorem rowOfByte_hex (c : Nat) (h : isHexDigit c = true) :
    rowOfByte (atoh2Chars c 48) = refDigit c := by
  obtain ⟨-, l0, -⟩ := hexDigit_facts c h
  rw [atoh2Chars_hex c 48 h (by decide)]
  have e48 : refDigit 48 = 0 := by decide
  have := (nibbles_byte _ l0 0 (by decide)).2
  simp only [refByte, e48, rowOfByte, this]
  simp
  omega

theorem dataRecord_body_hex (r : DataRecord) (h : r.wellFormed = true) :
    (∀ c ∈ r.body, isHexDigit c = true) ∧ r.body.length = 42 := by
  simp only [DataRecord.wellFormed, Bool.and_eq_true, decide_eq_true_eq, List.all_eq_true] at h
  obtain ⟨⟨⟨⟨⟨⟨hr, ht0⟩, ht1⟩, hlen⟩, hd⟩, hs0⟩, hs1⟩ := h
  constructor
  · intro c hc
    simp only [DataRecord.body, List.mem_append, List.mem_cons, List.mem_singleton,
      List.not_mem_nil, or_false] at hc
    rcases hc with (hc | hc) | hc
    · rcases hc with e | e | e | e | e | e | e | e <;> subst e <;> first | rfl | assumption
    · exact hd c hc
    · rcases hc with e | e <;> subst e <;> assumption
  · simp [DataRecord.body, hlen]

theorem dataRecord_lineByteCount (r : DataRecord) : lineByteCount r.text = 0x10 := by
  simp only [lineByteCount, DataRecord.text, DataRecord.body, List.cons_append,
    List.getD_cons_succ, List.getD_cons_zero]
  decide

theorem dataRecord_lineRow (r : DataRecord) (h : r.wellFormed = true) :
    lineRow r.text = refDigit r.row := by
  simp only [DataRecord.wellFormed, Bool.and_eq_true] at h
  have hr : isHexDigit r.row = true := h.1.1.1.1.1.1
  have e : lineRow r.text = rowOfByte (atoh2Chars r.row 48) := by
    simp only [lineRow, DataRecord.text, DataRecord.body, List.cons_append,
      List.getD_cons_succ, List.getD_cons_zero]
  rw [e, rowOfByte_hex r.row hr]

theorem dataRecord_getD (r : DataRecord) (k : Nat) (hk : k < r.digits.length) :
    r.text.getD (9 + k) 0 = r.digits.getD k 0 := by
  have e : r.text = ([58, 49, 48, 48, 48, r.row, 48, r.type0, r.type1] ++ r.digits)
      ++ ([r.sum0, r.sum1] ++ r.eol) := by
    simp [DataRecord.text, DataRecord.body]
  rw [e, List.getD_append _ _ _ _ (by simp; omega),
    List.getD_append_right _ _ _ _ (by simp)]
  simp

theorem dataRecord_lineByte (r : DataRecord) (h : r.wellFormed = true) (j : Nat)
    (hj : j < 16) :
    lineByte r.text j = refByte (r.digits.getD (2 * j) 0) (r.digits.getD (2 * j + 1) 0) := by
  have h' := h
  simp only [DataRecord.wellFormed, Bool.and_eq_true, decide_eq_true_eq, List.all_eq_true] at h'
  obtain ⟨⟨⟨⟨-, hlen⟩, hd⟩, -⟩, -⟩ := h'
  have hm : ∀ k, k < 32 → isHexDigit (r.digits.getD k 0) = true := by
    intro k hk
    rw [List.getD_eq_getElem _ _ (by omega)]
    exact hd _ (List.getElem_mem _)
  have e1 : 9 + 2 * j + 1 = 9 + (2 * j + 1) := by omega
  rw [lineByte, e1, dataRecord_getD r (2 * j) (by omega),
    dataRecord_getD r (2 * j + 1) (by omega)]
  exact atoh2Chars_hex _ _ (hm _ (by omega)) (hm _ (by omega))

theorem dataRecord_recordLine (r : DataRecord) (h : r.wellFormed = true)
    (he : r.eol = [] ∨ r.eol = [10] ∨ r.eol = [13, 10]) : RecordLine r.text := by
  obtain ⟨hhex, hlen⟩ := dataRecord_body_hex r h
  exact recordLine_pair (r.body, r.eol) hhex (by simp only; omega) (by simp only; omega) he
    (fun _ => by simp only; omega)

theorem endRecord_body_hex (e : EndRecord) (h : e.wellFormed = true) :
    (∀ c ∈ e.body, isHexDigit c = true) ∧ e.body.length = 10 := by
  simp only [EndRecord.wellFormed, Bool.and_eq_true, decide_eq_true_eq, List.all_eq_true] at h
  obtain ⟨hlen, hd⟩ := h
  constructor
  · intro c hc
    simp only [EndRecord.body, List.mem_append, List.mem_cons, List.mem_singleton,
      List.not_mem_nil, or_false] at hc
    rcases hc with (e | e) | hc
    · subst e; rfl
    · subst e; rfl
    · exact hd c hc
  · simp [EndRecord.body, hlen]

theorem endRecord_lineByteCount (e : EndRecord) : lineByteCount e.text = 0x00 := by
  simp only [lineByteCount, EndRecord.text, EndRecord.body, List.cons_append,
    List.getD_cons_succ, List.getD_cons_zero]
  decide

theorem endRecord_recordLine (e : EndRecord) (h : e.wellFormed = true)
    (he : e.eol = [] ∨ e.eol = [10] ∨ e.eol = [13, 10]) : RecordLine e.text := by
  obtain ⟨hhex, hlen⟩ := endRecord_body_hex e h
  refine recordLine_pair (e.body, e.eol) hhex (by simp only; omega) (by simp only; omega) he ?_
  intro hb
  have := endRecord_lineByteCount e
  have e1 : pairText (e.body, e.eol) = e.text := rfl
  rw [e1, this] at hb
  exact absurd hb (by decide)

theorem eolOk_mem : ∀ (es : List (List Nat)), eolOk es = true →
    ∀ e ∈ es, e = [] ∨ e = [10] ∨ e = [13, 10] := by
  intro es
  induction es with
  | nil => intro _ e he; simp at he
  | cons e0 rest ih =>
    intro h e he
    cases rest with
    | nil =>
      simp only [eolOk, decide_eq_true_eq] at h
      simp only [List.mem_singleton] at he
      subst he; exact h
    | cons e1 rest1 =>
      simp only [eolOk, Bool.and_eq_true, decide_eq_true_eq] at h
      rcases List.mem_cons.mp he with e2 | he
      · subst e2
        rcases h.1 with h1 | h1
        · exact Or.inr (Or.inl h1)
        · exact Or.inr (Or.inr h1)
      · exact ih (by simpa [eolOk] using h.2) e he

theorem foldl_lineCount_other :
    ∀ (ls : List (List Nat)) (a : Nat), (∀ l ∈ ls, lineByteCount l ≠ 0x10) →
      ls.foldl (fun a l => lineCount l a) a = a := by
  intro ls
  induction ls with
  | nil => intro a _; rfl
  | cons l rest ih =>
    intro a hall
    rw [List.foldl_cons, ih _ (fun l1 h1 => hall l1 (by simp [h1]))]
    simp [lineCount, hall l (by simp)]

/-- The lines of a file of data records followed by end records: each of them holds one
complete record, and `hexFileRead` returns their count and effect. -/
theorem hexFileRead_records (files : LocalFiles) (ind : Indeterminate)
    (memoryType : greenPakMemory_t) (mem : Memory) (recs : List DataRecord)
    (trailer : List EndRecord)
    (hfile : hexFileOf files memoryType
      = some ((recs.map DataRecord.text).flatten ++ (trailer.map EndRecord.text).flatten))
    (hwf : ∀ r ∈ recs, r.wellFormed = true)
    (htrailer : ∀ e ∈ trailer, e.wellFormed = true)
    (heol : eolOk (recs.map DataRecord.eol ++ trailer.map EndRecord.eol) = true) :
    ∃ mem1, hexFileRead files ind memoryType mem
        = some (recs.length % 256, mem1) ∧
      ∀ r c, mem1.hexData r c = (recs.map DataRecord.text).foldl (fun x l => lineEffect l x)
        (clearHexData ind mem.hexData) r c := by
  let ls : List (List Nat × List Nat) :=
    recs.map (fun r => (r.body, r.eol)) ++ trailer.map (fun e => (e.body, e.eol))
  have hls : ls.map pairText = recs.map DataRecord.text ++ trailer.map EndRecord.text := by
    simp only [ls, List.map_append, List.map_map]
    rfl
  have hsnd : ls.map Prod.snd = recs.map DataRecord.eol ++ trailer.map EndRecord.eol := by
    simp only [ls, List.map_append, List.map_map]
    rfl
  have hfile' : hexFileOf files memoryType = some (ls.map pairText).flatten := by
    rw [hfile, hls, List.flatten_append]
  have heols := eolOk_mem _ heol
  obtain ⟨mem1, hres, himg⟩ := hexFileRead_pairs files ind memoryType mem ls hfile'
    (by
      intro l hl
      rcases List.mem_append.mp hl with hl | hl
      · obtain ⟨r, hr, rfl⟩ := List.mem_map.mp hl
        obtain ⟨h1, h2⟩ := dataRecord_body_hex r (hwf r hr)
        exact ⟨h1, by simp only; omega⟩
      · obtain ⟨e, he, rfl⟩ := List.mem_map.mp hl
        obtain ⟨h1, h2⟩ := endRecord_body_hex e (htrailer e he)
        exact ⟨h1, by simp only; omega⟩)
    (by rw [hsnd]; exact heol)
    (by
      intro l hl
      rcases List.mem_append.mp hl with hl | hl
      · obtain ⟨r, hr, rfl⟩ := List.mem_map.mp hl
        exact dataRecord_recordLine r (hwf r hr)
          (heols _ (List.mem_append.mpr (Or.inl (List.mem_map.mpr ⟨r, hr, rfl⟩))))
      · obtain ⟨e, he, rfl⟩ := List.mem_map.mp hl
        exact endRecord_recordLine e (htrailer e he)
          (heols _ (List.mem_append.mpr (Or.inr (List.mem_map.mpr ⟨e, he, rfl⟩)))))
  have hend : ∀ l ∈ trailer.map EndRecord.text, lineByteCount l ≠ 0x10 := by
    intro l hl
    obtain ⟨e, -, rfl⟩ := List.mem_map.mp hl
    rw [endRecord_lineByteCount]; decide
  have hdat : ∀ l ∈ recs.map DataRecord.text, lineByteCount l = 0x10 := by
    intro l hl
    obtain ⟨r, -, rfl⟩ := List.mem_map.mp hl
    exact dataRecord_lineByteCount r
  refine ⟨mem1, ?_, ?_⟩
  · rw [hres, hls, List.foldl_append, foldl_lineCount_other _ _ hend,
      foldl_lineCount_data _ _ hdat]
    cases recs <;> simp
  · intro r c
    rw [himg, hls, List.foldl_append]
    exact foldl_lineEffect_other _ _ r (fun l hl hb => absurd hb (hend l hl)) c

end GreenPak

namespace GreenPak

/-- C1: for every well-formed HEX input of 16 records (16 lines, each a colon, the byte
count `10`, an address `00r0`, a record type of two hex digits, 32 hex digits of data and a
checksum, every row `r` of `0 .. 15` occurring exactly once, upper- or lower-case digits,
optionally followed by an end record with byte count `00`), `hexFileRead` returns 16 and
leaves an image in which `hexData[r][j]` is the reference value of the `j`-th pair of data
digits of the record with address `00r0`. -/
theorem hexFileRead_wellFormed (files : LocalFiles) (ind : Indeterminate)
    (memoryType : greenPakMemory_t) (mem : Memory) (recs : List DataRecord)
    (trailer : List EndRecord)
    (hfile : hexFileOf files memoryType
      = some ((recs.map DataRecord.text).flatten ++ (trailer.map EndRecord.text).flatten))
    (hwf : ∀ r ∈ recs, r.wellFormed = true)
    (hrows : (recs.map (fun r => refDigit r.row)).Perm (List.range 16))
    (htrailer : trailer.length ≤ 1 ∧ ∀ e ∈ trailer, e.wellFormed = true)
    (heol : eolOk (recs.map DataRecord.eol ++ trailer.map EndRecord.eol) = true) :
    ∃ mem1, hexFileRead files ind memoryType mem = some (16, mem1) ∧
      ∀ r ∈ recs, ∀ j, j < 16 →
        mem1.hexData (refDigit r.row) j
          = refByte (r.digits.getD (2 * j) 0) (r.digits.getD (2 * j + 1) 0) := by
  obtain ⟨mem1, hres, himg⟩ :=
    hexFileRead_records files ind memoryType mem recs trailer hfile hwf htrailer.2 heol
  have hlen : recs.length = 16 := by
    have := hrows.length_eq
    simpa using this
  refine ⟨mem1, by rw [hres, hlen], ?_⟩
  intro r hr j hj
  have hnd : ((recs.map DataRecord.text).map lineRow).Nodup := by
    have e : (recs.map DataRecord.text).map lineRow = recs.map (fun r => refDigit r.row) := by
      rw [List.map_map]
      apply List.map_congr_left
      intro r1 hr1
      exact dataRecord_lineRow r1 (hwf r1 hr1)
    rw [e]
    exact hrows.nodup_iff.mpr (List.nodup_range 16)
  have hdat : ∀ l ∈ recs.map DataRecord.text, lineByteCount l = 0x10 := by
    intro l hl
    obtain ⟨r1, -, rfl⟩ := List.mem_map.mp hl
    exact dataRecord_lineByteCount r1
  have := foldl_lineEffect_nodup (recs.map DataRecord.text) (clearHexData ind mem.hexData)
    hdat hnd r.text (List.mem_map.mpr ⟨r, hr, rfl⟩) j hj
  rw [dataRecord_lineRow r (hwf r hr), dataRecord_lineByte r (hwf r hr) j hj] at this
  rw [himg]
  exact this

set_option maxRecDepth 100000 in
theorem hexFileRead_wellFormed_witness :
    exampleFile = (exampleRecords.map DataRecord.text).flatten
      ++ ([exampleEnd].map EndRecord.text).flatten ∧
    ∃ mem1, hexFileRead exampleFiles zeroIndeterminate greenPakMemory_t.NVM zeroMemory
        = some (16, mem1) ∧
      ∀ r ∈ exampleRecords, ∀ j, j < 16 →
        mem1.hexData (refDigit r.row) j
          = refByte (r.digits.getD (2 * j) 0) (r.digits.getD (2 * j + 1) 0) :=
  ⟨by decide,
    hexFileRead_wellFormed exampleFiles zeroIndeterminate greenPakMemory_t.NVM zeroMemory
      exampleRecords [exampleEnd] (by decide) (by decide) (List.Perm.of_eq (by decide))
      ⟨by decide, by decide⟩ (by decide)⟩

end GreenPak

namespace GreenPak

/-! ## Lines with several records -/

end GreenPak

namespace GreenPak

end GreenPak

namespace GreenPak

/-! ## Traces of the bus operations -/

theorem isRowWrite_probe (i : Nat) : isRowWrite (probe i) = false := rfl

theorem isRowWrite_ackProbe (a : Nat) : isRowWrite (ackProbe a) = false := rfl

theorem isRowWrite_rowWrite (cc : Nat) (h : HexData) (i : Nat) :
    isRowWrite (rowWrite cc h i) = true := by
  simp [isRowWrite, rowWrite, rowBytes]

theorem noRow_probes (n : Nat) : ∀ t ∈ probes n, isRowWrite t = false := by
  intro t ht
  obtain ⟨i, -, rfl⟩ := List.mem_map.mp ht
  rfl

theorem noRow_replicate (a k : Nat) : ∀ t ∈ List.replicate k (ackProbe a), isRowWrite t = false := by
  intro t ht
  rw [(List.mem_replicate.mp ht).2]
  rfl

theorem checkSlaveAddres_new (bus : Bus) (tr : List Txn) :
    ∃ new, (checkSlaveAddres bus tr).2 = tr ++ new ∧ ∀ t ∈ new, isRowWrite t = false := by
  rcases checkSlaveAddres_cases bus tr with ⟨i, -, hres, -, -⟩ | ⟨hres, -⟩
  · exact ⟨probes (i + 1), by rw [hres], noRow_probes _⟩
  · exact ⟨probes 16, by rw [hres], noRow_probes _⟩

theorem resister_unprotect_cases (bus : Bus) (tr : List Txn) :
    (∃ d, d < 16 ∧ (checkSlaveAddres bus tr).1 = d ∧
        resister_unprotect bus tr = tr ++ probes (d + 1) ++ unprotectTxns d) ∨
    ((checkSlaveAddres bus tr).1 = 0xff ∧ resister_unprotect bus tr = tr ++ probes 16) := by
  rcases checkSlaveAddres_cases bus tr with ⟨i, hi, hres, -, -⟩ | ⟨hres, -⟩
  · left
    have hne : i ≠ 255 := by omega
    exact ⟨i, hi, by rw [hres], by simp [resister_unprotect, hres, hne, wireWrite, wireRead,
      unprotectTxns]⟩
  · right
    exact ⟨by rw [hres], by simp [resister_unprotect, hres]⟩

theorem resister_unprotect_new (bus : Bus) (tr : List Txn) :
    ∃ new, resister_unprotect bus tr = tr ++ new ∧ ∀ t ∈ new, isRowWrite t = false := by
  rcases resister_unprotect_cases bus tr with ⟨d, -, -, hres⟩ | ⟨-, hres⟩
  · refine ⟨probes (d + 1) ++ unprotectTxns d, by rw [hres, List.append_assoc], ?_⟩
    intro t ht
    rcases List.mem_append.mp ht with ht | ht
    · exact noRow_probes _ t ht
    · simp only [unprotectTxns, List.mem_cons, List.mem_singleton, List.not_mem_nil,
        or_false] at ht
      rcases ht with e | e | e <;> subst e <;> rfl
  · exact ⟨probes 16, hres, noRow_probes _⟩

theorem powercycle_cases (bus : Bus) (tr : List Txn) :
    (∃ d, d < 16 ∧ (checkSlaveAddres bus tr).1 = d ∧
        powercycle bus tr = tr ++ probes (d + 1)
          ++ [Txn.write ((d <<< 4) ||| RESISTER_CONFIG) [0xC8, 0x02] false]) ∨
    ((checkSlaveAddres bus tr).1 = 0xff ∧ powercycle bus tr = tr ++ probes 16) := by
  rcases checkSlaveAddres_cases bus tr with ⟨i, hi, hres, -, -⟩ | ⟨hres, -⟩
  · left
    have hne : i ≠ 255 := by omega
    exact ⟨i, hi, by rw [hres], by simp [powercycle, hres, hne, wireWrite]⟩
  · right
    exact ⟨by rw [hres], by simp [powercycle, hres]⟩

theorem powercycle_new (bus : Bus) (tr : List Txn) :
    ∃ new, powercycle bus tr = tr ++ new ∧ ∀ t ∈ new, isRowWrite t = false := by
  rcases powercycle_cases bus tr with ⟨d, -, -, hres⟩ | ⟨-, hres⟩
  · refine ⟨probes (d + 1) ++ [Txn.write ((d <<< 4) ||| RESISTER_CONFIG) [0xC8, 0x02] false],
      by rw [hres, List.append_assoc], ?_⟩
    intro t ht
    rcases List.mem_append.mp ht with ht | ht
    · exact noRow_probes _ t ht
    · simp only [List.mem_singleton] at ht
      subst ht; rfl
  · exact ⟨probes 16, hres, noRow_probes _⟩

theorem ackPolling_new (bus : Bus) (a : Nat) (tr : List Txn) :
    ∃ k, (ackPolling bus a tr).2 = tr ++ List.replicate k (ackProbe a) ∧
      ((ackPolling bus a tr).1 = 0 ∨ (ackPolling bus a tr).1 = -1) := by
  obtain ⟨k, -, -, htr, hres⟩ := ackPollingLoop_shape bus a 1000 tr
  exact ⟨k, htr, hres⟩

theorem erasePages_new (bus : Bus) (memoryType : greenPakMemory_t) (cc a : Nat) :
    ∀ (is : List Nat) (tr : List Txn),
      ∃ new, (erasePages bus memoryType cc a is tr).2 = tr ++ new ∧
        ∀ t ∈ new, isRowWrite t = false := by
  intro is
  induction is with
  | nil => intro tr; exact ⟨[], by simp [erasePages], by simp⟩
  | cons i rest ih =>
    intro tr
    obtain ⟨k, hk, -⟩ := ackPolling_new bus a
      (tr ++ [Txn.write cc [0xE3, eraseByte memoryType i] false])
    by_cases hfail : (ackPolling bus a
        (tr ++ [Txn.write cc [0xE3, eraseByte memoryType i] false])).1 = -1
    · refine ⟨Txn.write cc [0xE3, eraseByte memoryType i] false :: List.replicate k (ackProbe a),
        by simp [erasePages, wireWrite, hfail, hk], ?_⟩
      intro t ht
      rcases List.mem_cons.mp ht with e | ht
      · subst e; rfl
      · exact noRow_replicate a k t ht
    · obtain ⟨new, hnew, hno⟩ := ih (ackPolling bus a
        (tr ++ [Txn.write cc [0xE3, eraseByte memoryType i] false])).2
      refine ⟨Txn.write cc [0xE3, eraseByte memoryType i] false
        :: (List.replicate k (ackProbe a) ++ new), ?_, ?_⟩
      · simp only [erasePages, wireWrite, hfail, if_false]
        rw [hnew, hk]
        simp
      · intro t ht
        rcases List.mem_cons.mp ht with e | ht
        · subst e; rfl
        · rcases List.mem_append.mp ht with ht | ht
          · exact noRow_replicate a k t ht
          · exact hno t ht

theorem eraseChip_new (bus : Bus) (memoryType : greenPakMemory_t) (tr : List Txn) :
    ∃ new, (eraseChip bus memoryType tr).2 = tr ++ new ∧ ∀ t ∈ new, isRowWrite t = false := by
  obtain ⟨n1, h1, r1⟩ := checkSlaveAddres_new bus tr
  by_cases hff : (checkSlaveAddres bus tr).1 = 0xff
  · exact ⟨n1, by simp [eraseChip, hff, h1], r1⟩
  · by_cases hr : memoryType = greenPakMemory_t.RESISTER
    · exact ⟨n1, by simp [eraseChip, hff, hr, h1], r1⟩
    · obtain ⟨n2, h2, r2⟩ := resister_unprotect_new bus (checkSlaveAddres bus tr).2
      obtain ⟨n3, h3, r3⟩ := erasePages_new bus memoryType
        (((checkSlaveAddres bus tr).1 <<< 4) ||| RESISTER_CONFIG)
        (((checkSlaveAddres bus tr).1 <<< 4) ||| RESISTER_CONFIG) (List.range 16)
        (resister_unprotect bus (checkSlaveAddres bus tr).2)
      by_cases he : (erasePages bus memoryType
          (((checkSlaveAddres bus tr).1 <<< 4) ||| RESISTER_CONFIG)
          (((checkSlaveAddres bus tr).1 <<< 4) ||| RESISTER_CONFIG) (List.range 16)
          (resister_unprotect bus (checkSlaveAddres bus tr).2)).1 = -1
      · refine ⟨n1 ++ n2 ++ n3, ?_, ?_⟩
        · simp only [eraseChip, hff, hr, he, if_false, if_true]
          rw [h3, h2, h1]
          simp
        · intro t ht
          rcases List.mem_append.mp ht with ht | ht
          · rcases List.mem_append.mp ht with ht | ht
            · exact r1 t ht
            · exact r2 t ht
          · exact r3 t ht
      · obtain ⟨n4, h4, r4⟩ := powercycle_new bus (erasePages bus memoryType
          (((checkSlaveAddres bus tr).1 <<< 4) ||| RESISTER_CONFIG)
          (((checkSlaveAddres bus tr).1 <<< 4) ||| RESISTER_CONFIG) (List.range 16)
          (resister_unprotect bus (checkSlaveAddres bus tr).2)).2
        refine ⟨n1 ++ n2 ++ n3 ++ n4, ?_, ?_⟩
        · simp only [eraseChip, hff, hr, he, if_false]
          rw [h4, h3, h2, h1]
          simp
        · intro t ht
          rcases List.mem_append.mp ht with ht | ht
          · rcases List.mem_append.mp ht with ht | ht
            · rcases List.mem_append.mp ht with ht | ht
              · exact r1 t ht
              · exact r2 t ht
            · exact r3 t ht
          · exact r4 t ht

end GreenPak

namespace GreenPak

/-! ## The row loop of `writeChip` -/

theorem shiftLeft_inj : ∀ k, k < 16 → ∀ s, s < 16 → (k <<< 4) % 256 = (s <<< 4) % 256 → k = s := by
  decide

theorem rowWrite_inj (cc : Nat) (h : HexData) (k s : Nat) (hk : k < 16) (hs : s < 16)
    (e : rowWrite cc h k = rowWrite cc h s) : k = s := by
  simp only [rowWrite, rowBytes, Txn.write.injEq, List.cons.injEq] at e
  exact shiftLeft_inj k hk s hs e.2.1.1

theorem writeRows_step (bus : Bus) (cc a : Nat) (h : HexData) (i : Nat) (rest : List Nat)
    (tr : List Txn) :
    writeRows bus cc a h (i :: rest) tr
      = if bus tr (rowWrite cc h i) = false then (-1, tr ++ [rowWrite cc h i, Txn.stop])
        else if (ackPolling bus a (tr ++ [rowWrite cc h i])).1 = -1
          then (-1, (ackPolling bus a (tr ++ [rowWrite cc h i])).2)
          else writeRows bus cc a h rest (ackPolling bus a (tr ++ [rowWrite cc h i])).2 := by
  simp only [writeRows, wireWrite, rowWrite]
  by_cases hb : bus tr (Txn.write cc (rowBytes h i) false) = false
  · simp [hb]
  · simp [hb]

theorem writeRows_new (bus : Bus) (cc a : Nat) (h : HexData) :
    ∀ (is : List Nat) (tr : List Txn),
      ∃ new, (writeRows bus cc a h is tr).2 = tr ++ new ∧
        ((writeRows bus cc a h is tr).1 = 0 ∨ (writeRows bus cc a h is tr).1 = -1) ∧
        (∀ t ∈ new, (∃ i ∈ is, t = rowWrite cc h i) ∨ t = ackProbe a ∨ t = Txn.stop) ∧
        ((writeRows bus cc a h is tr).1 = 0 → ∀ i ∈ is, rowWrite cc h i ∈ new) := by
  intro is
  induction is with
  | nil => intro tr; exact ⟨[], by simp [writeRows], by simp [writeRows], by simp, by simp⟩
  | cons i rest ih =>
    intro tr
    rw [writeRows_step]
    by_cases hb : bus tr (rowWrite cc h i) = false
    · rw [if_pos hb]
      refine ⟨[rowWrite cc h i, Txn.stop], rfl, Or.inr rfl, ?_, by intro h0; simp at h0⟩
      intro t ht
      simp only [List.mem_cons, List.mem_singleton, List.not_mem_nil, or_false] at ht
      rcases ht with e | e
      · exact Or.inl ⟨i, by simp, e⟩
      · exact Or.inr (Or.inr e)
    · rw [if_neg hb]
      obtain ⟨k, hk, -⟩ := ackPolling_new bus a (tr ++ [rowWrite cc h i])
      by_cases hp : (ackPolling bus a (tr ++ [rowWrite cc h i])).1 = -1
      · rw [if_pos hp]
        refine ⟨rowWrite cc h i :: List.replicate k (ackProbe a), by rw [hk]; simp,
          Or.inr rfl, ?_, by intro h0; simp at h0⟩
        intro t ht
        rcases List.mem_cons.mp ht with e | ht
        · exact Or.inl ⟨i, by simp, e⟩
        · exact Or.inr (Or.inl (List.mem_replicate.mp ht).2)
      · rw [if_neg hp]
        obtain ⟨new, hnew, hres, hall, hok⟩ := ih (ackPolling bus a (tr ++ [rowWrite cc h i])).2
        refine ⟨rowWrite cc h i :: (List.replicate k (ackProbe a) ++ new), ?_, hres, ?_, ?_⟩
        · rw [hnew, hk]; simp
        · intro t ht
          rcases List.mem_cons.mp ht with e | ht
          · exact Or.inl ⟨i, by simp, e⟩
          · rcases List.mem_append.mp ht with ht | ht
            · exact Or.inr (Or.inl (List.mem_replicate.mp ht).2)
            · rcases hall t ht with ⟨j, hj, e⟩ | e
              · exact Or.inl ⟨j, by simp [hj], e⟩
              · exact Or.inr e
        · intro h0 j hj
          rcases List.mem_cons.mp hj with e | hj
          · subst e; simp
          · have := hok h0 j hj
            simp [this]

theorem split_not_mem {α : Type} (A B pre post : List α) (x : α) (hx : x ∉ A)
    (e : pre ++ x :: post = A ++ B) : ∃ pre1, pre = A ++ pre1 ∧ B = pre1 ++ x :: post := by
  rcases List.append_eq_append_iff.mp e with ⟨a1, ha, hb⟩ | ⟨c1, hc, hd⟩
  · cases a1 with
    | nil => exact ⟨[], by simpa using ha.symm, by simpa using hb.symm⟩
    | cons y ys =>
      simp only [List.cons_append, List.cons.injEq] at hb
      exact absurd (by rw [ha, hb.1]; simp) hx
  · exact ⟨c1, hc, hd⟩

/-- A row write that is not acknowledged ends the row loop: the loop returns `-1`, only
`Wire.stop()` follows, and the row writes issued are those of the rows up to this one. -/
theorem writeRows_nack (bus : Bus) (cc a : Nat) (h : HexData) :
    ∀ (n s : Nat) (tr pre post : List Txn) (k : Nat), s + n ≤ 16 → k < 16 →
      (writeRows bus cc a h (List.range' s n) tr).2 = tr ++ (pre ++ rowWrite cc h k :: post) →
      bus (tr ++ pre) (rowWrite cc h k) = false →
      (writeRows bus cc a h (List.range' s n) tr).1 = -1 ∧ post = [Txn.stop] ∧ s ≤ k ∧
        (pre ++ [rowWrite cc h k]).filter isRowWrite
          = (List.range' s (k - s + 1)).map (rowWrite cc h) := by
  intro n
  induction n with
  | zero =>
    intro s tr pre post k _ _ htr _
    simp [writeRows] at htr
  | succ n ih =>
    intro s tr pre post k hs hk htr hnack
    rw [List.range'_succ, writeRows_step] at htr ⊢
    have hprobe : rowWrite cc h k ≠ ackProbe a := by simp [rowWrite, ackProbe]
    by_cases hb : bus tr (rowWrite cc h s) = false
    · rw [if_pos hb] at htr ⊢
      have e := List.append_cancel_left htr
      cases pre with
      | nil =>
        simp only [List.nil_append, List.cons.injEq] at e
        have hks : k = s := (rowWrite_inj cc h s k (by omega) hk e.1).symm
        subst hks
        refine ⟨rfl, e.2.symm, Nat.le_refl _, ?_⟩
        simp [isRowWrite_rowWrite]
      | cons y ys =>
        simp only [List.cons_append, List.cons.injEq] at e
        cases ys with
        | nil =>
          simp only [List.nil_append, List.cons.injEq] at e
          exact absurd e.2.1 (by simp [rowWrite])
        | cons z zs =>
          simp at e
    · rw [if_neg hb] at htr ⊢
      obtain ⟨j, hj, -⟩ := ackPolling_new bus a (tr ++ [rowWrite cc h s])
      have hfirst : ∀ (new : List Txn),
          rowWrite cc h s :: new = pre ++ rowWrite cc h k :: post →
          ∃ pre1, pre = rowWrite cc h s :: pre1 ∧ new = pre1 ++ rowWrite cc h k :: post := by
        intro new e
        cases pre with
        | nil =>
          simp only [List.nil_append, List.cons.injEq] at e
          have hks : k = s := (rowWrite_inj cc h s k (by omega) hk e.1).symm
          subst hks
          simp only [List.append_nil] at hnack
          exact absurd hnack hb
        | cons y ys =>
          simp only [List.cons_append, List.cons.injEq] at e
          exact ⟨ys, by rw [e.1], e.2⟩
      by_cases hp : (ackPolling bus a (tr ++ [rowWrite cc h s])).1 = -1
      · rw [if_pos hp] at htr ⊢
        rw [hj, List.append_assoc] at htr
        have e := List.append_cancel_left htr
        obtain ⟨pre1, -, e1⟩ := hfirst _ e
        have e1' : List.replicate j (ackProbe a) = pre1 ++ rowWrite cc h k :: post := e1
        have : rowWrite cc h k ∈ List.replicate j (ackProbe a) := by rw [e1']; simp
        exact absurd (List.mem_replicate.mp this).2 hprobe
      · rw [if_neg hp] at htr ⊢
        obtain ⟨new, hnew, -, -, -⟩ := writeRows_new bus cc a h (List.range' (s + 1) n)
          (ackPolling bus a (tr ++ [rowWrite cc h s])).2
        have htr' := htr
        rw [hnew, hj, List.append_assoc, List.append_assoc] at htr'
        have e := List.append_cancel_left htr'
        obtain ⟨pre1, hpre, e1⟩ := hfirst _ e
        have e1 : List.replicate j (ackProbe a) ++ new = pre1 ++ rowWrite cc h k :: post := e1
        obtain ⟨pre2, hpre2, e2⟩ := split_not_mem (List.replicate j (ackProbe a)) new pre1 post
          (rowWrite cc h k) (fun hm => hprobe (List.mem_replicate.mp hm).2) e1.symm
        have hprefix : tr ++ pre = (ackPolling bus a (tr ++ [rowWrite cc h s])).2 ++ pre2 := by
          rw [hj, hpre, hpre2]; simp
        obtain ⟨hres, hpost, hsk, hfilter⟩ := ih (s + 1)
          (ackPolling bus a (tr ++ [rowWrite cc h s])).2 pre2 post k (by omega) hk
          (by rw [hnew, e2]) (by rw [← hprefix]; exact hnack)
        refine ⟨hres, hpost, by omega, ?_⟩
        have hfrep : (List.replicate j (ackProbe a)).filter isRowWrite = [] :=
          List.filter_eq_nil_iff.mpr (fun t ht => by rw [noRow_replicate a j t ht]; simp)
        have hsplit : k - s + 1 = (k - (s + 1) + 1) + 1 := by omega
        rw [hpre, hpre2, hsplit, List.range'_succ, List.map_cons, List.cons_append,
          List.filter_cons_of_pos (isRowWrite_rowWrite cc h s), List.append_assoc,
          List.filter_append, hfrep, List.nil_append, hfilter]

end GreenPak

namespace GreenPak

/-! ## `writeChip` from the erase step on -/

theorem split_noRow (tr new pre post : List Txn) (w : Txn) (hw : isRowWrite w = true)
    (hno : ∀ t ∈ tr, isRowWrite t = false) (e : tr ++ new = pre ++ w :: post) :
    ∃ pre1, pre = tr ++ pre1 ∧ new = pre1 ++ w :: post :=
  split_not_mem tr new pre post w (fun hm => by rw [hno w hm] at hw; cases hw) e.symm

theorem eraseStep_new (bus : Bus) (memoryType : greenPakMemory_t) (tr : List Txn) :
    ∃ new, (if memoryType ≠ greenPakMemory_t.RESISTER then eraseChip bus memoryType tr
        else (0, tr)).2 = tr ++ new ∧ ∀ t ∈ new, isRowWrite t = false := by
  by_cases hr : memoryType ≠ greenPakMemory_t.RESISTER
  · rw [if_pos hr]; exact eraseChip_new bus memoryType tr
  · rw [if_neg hr]; exact ⟨[], by simp, by simp⟩

theorem tail_new (bus : Bus) (memoryType : greenPakMemory_t) (tr : List Txn) :
    ∃ new, (if memoryType = greenPakMemory_t.NVM then powercycle bus (tr ++ [Txn.stop])
        else tr ++ [Txn.stop]) = tr ++ new ∧ ∀ t ∈ new, isRowWrite t = false := by
  by_cases hn : memoryType = greenPakMemory_t.NVM
  · rw [if_pos hn]
    obtain ⟨new, hnew, hno⟩ := powercycle_new bus (tr ++ [Txn.stop])
    refine ⟨Txn.stop :: new, by rw [hnew]; simp, ?_⟩
    intro t ht
    rcases List.mem_cons.mp ht with e | ht
    · subst e; rfl
    · exact hno t ht
  · rw [if_neg hn]
    refine ⟨[Txn.stop], rfl, ?_⟩
    intro t ht
    simp only [List.mem_singleton] at ht
    subst ht; rfl

/-- The shape of the trace of `writeChipRows`: the erase step, the row loop, the end. -/
theorem writeChipRows_shape (bus : Bus) (memoryType : greenPakMemory_t) (d : Nat)
    (h : HexData) (tr : List Txn) :
    ∃ newE newW newT,
      (writeChipRows bus memoryType d h tr).2 = tr ++ newE ++ newW ++ newT ∧
      ((writeChipRows bus memoryType d h tr).1 = 0 ∨
        (writeChipRows bus memoryType d h tr).1 = -1) ∧
      (∀ t ∈ newE, isRowWrite t = false) ∧ (∀ t ∈ newT, isRowWrite t = false) ∧
      (∀ t ∈ newW, (∃ i, i < 16 ∧ t = rowWrite ((d <<< 4) ||| blockAddress memoryType) h i) ∨
        t = ackProbe (d <<< 4) ∨ t = Txn.stop) ∧
      ((writeChipRows bus memoryType d h tr).1 = 0 →
        ∀ i, i < 16 → rowWrite ((d <<< 4) ||| blockAddress memoryType) h i ∈ newW) := by
  obtain ⟨newE, hE, hnoE⟩ := eraseStep_new bus memoryType tr
  simp only [writeChipRows]
  by_cases he : (if memoryType ≠ greenPakMemory_t.RESISTER then eraseChip bus memoryType tr
      else (0, tr)).1 ≠ 0
  · rw [if_pos he]
    exact ⟨newE, [], [], by rw [hE]; simp, Or.inr rfl, hnoE, by simp, by simp,
      by intro h0; simp at h0⟩
  · rw [if_neg he]
    obtain ⟨newW, hW, hres, hall, hok⟩ := writeRows_new bus
      ((d <<< 4) ||| blockAddress memoryType) (d <<< 4) h (List.range 16)
      (if memoryType ≠ greenPakMemory_t.RESISTER then eraseChip bus memoryType tr
        else (0, tr)).2
    have hall' : ∀ t ∈ newW,
        (∃ i, i < 16 ∧ t = rowWrite ((d <<< 4) ||| blockAddress memoryType) h i) ∨
          t = ackProbe (d <<< 4) ∨ t = Txn.stop := by
      intro t ht
      rcases hall t ht with ⟨i, hi, e⟩ | e
      · exact Or.inl ⟨i, List.mem_range.mp hi, e⟩
      · exact Or.inr e
    by_cases hw : (writeRows bus ((d <<< 4) ||| blockAddress memoryType) (d <<< 4) h
        (List.range 16) (if memoryType ≠ greenPakMemory_t.RESISTER
          then eraseChip bus memoryType tr else (0, tr)).2).1 ≠ 0
    · rw [if_pos hw]
      exact ⟨newE, newW, [], by rw [hW, hE]; simp, Or.inr rfl, hnoE, by simp, hall',
        by intro h0; simp at h0⟩
    · rw [if_neg hw]
      obtain ⟨newT, hT, hnoT⟩ := tail_new bus memoryType
        (writeRows bus ((d <<< 4) ||| blockAddress memoryType) (d <<< 4) h
          (List.range 16) (if memoryType ≠ greenPakMemory_t.RESISTER
            then eraseChip bus memoryType tr else (0, tr)).2).2
      refine ⟨newE, newW, newT, ?_, Or.inl rfl, hnoE, hnoT, hall', ?_⟩
      · simp only []
        rw [hT, hW, hE]
      · intro _ i hi
        exact hok (by simpa using hw) i (List.mem_range.mpr hi)

/-- A row write of `writeChipRows` that is not acknowledged: the result is `-1`, only
`Wire.stop()` follows it, and the row writes up to it are those of the rows `0 .. k`. -/
theorem writeChipRows_nack (bus : Bus) (memoryType : greenPakMemory_t) (d : Nat)
    (h : HexData) (tr pre post : List Txn) (k : Nat) (hk : k < 16)
    (hno : ∀ t ∈ tr, isRowWrite t = false)
    (htr : (writeChipRows bus memoryType d h tr).2
      = pre ++ rowWrite ((d <<< 4) ||| blockAddress memoryType) h k :: post)
    (hnack : bus pre (rowWrite ((d <<< 4) ||| blockAddress memoryType) h k) = false) :
    (writeChipRows bus memoryType d h tr).1 = -1 ∧ post = [Txn.stop] ∧
      (pre ++ [rowWrite ((d <<< 4) ||| blockAddress memoryType) h k]).filter isRowWrite
        = (List.range (k + 1)).map (rowWrite ((d <<< 4) ||| blockAddress memoryType) h) := by
  obtain ⟨newE, hE, hnoE⟩ := eraseStep_new bus memoryType tr
  have hnoE2 : ∀ t ∈ (if memoryType ≠ greenPakMemory_t.RESISTER
      then eraseChip bus memoryType tr else (0, tr)).2, isRowWrite t = false := by
    intro t ht
    rw [hE] at ht
    rcases List.mem_append.mp ht with ht | ht
    · exact hno t ht
    · exact hnoE t ht
  have hisW := isRowWrite_rowWrite ((d <<< 4) ||| blockAddress memoryType) h k
  simp only [writeChipRows] at htr ⊢
  by_cases he : (if memoryType ≠ greenPakMemory_t.RESISTER then eraseChip bus memoryType tr
      else (0, tr)).1 ≠ 0
  · rw [if_pos he] at htr
    have hm : rowWrite ((d <<< 4) ||| blockAddress memoryType) h k
        ∈ (if memoryType ≠ greenPakMemory_t.RESISTER then eraseChip bus memoryType tr
          else (0, tr)).2 := by
      simp only [] at htr
      rw [htr]; simp
    rw [hnoE2 _ hm] at hisW
    cases hisW
  · rw [if_neg he] at htr ⊢
    obtain ⟨newW, hW, hres, -, -⟩ := writeRows_new bus
      ((d <<< 4) ||| blockAddress memoryType) (d <<< 4) h (List.range 16)
      (if memoryType ≠ greenPakMemory_t.RESISTER then eraseChip bus memoryType tr
        else (0, tr)).2
    have hfE : (if memoryType ≠ greenPakMemory_t.RESISTER then eraseChip bus memoryType tr
        else (0, tr)).2.filter isRowWrite = [] :=
      List.filter_eq_nil_iff.mpr (fun t ht => by rw [hnoE2 t ht]; simp)
    have key : ∀ (pre1 post1 : List Txn),
        pre = (if memoryType ≠ greenPakMemory_t.RESISTER then eraseChip bus memoryType tr
          else (0, tr)).2 ++ pre1 →
        newW = pre1 ++ rowWrite ((d <<< 4) ||| blockAddress memoryType) h k :: post1 →
        (writeRows bus ((d <<< 4) ||| blockAddress memoryType) (d <<< 4) h
          (List.range 16) (if memoryType ≠ greenPakMemory_t.RESISTER
            then eraseChip bus memoryType tr else (0, tr)).2).1 = -1 ∧ post1 = [Txn.stop] ∧
        (pre ++ [rowWrite ((d <<< 4) ||| blockAddress memoryType) h k]).filter isRowWrite
          = (List.range (k + 1)).map
              (rowWrite ((d <<< 4) ||| blockAddress memoryType) h) := by
      intro pre1 post1 hpre hnew
      have hW' := hW
      rw [List.range_eq_range', hnew] at hW'
      obtain ⟨h1, h2, -, h4⟩ := writeRows_nack bus ((d <<< 4) ||| blockAddress memoryType)
        (d <<< 4) h 16 0 _ pre1 post1 k (by omega) hk hW' (by rw [← hpre]; exact hnack)
      refine ⟨by rw [List.range_eq_range']; exact h1, h2, ?_⟩
      rw [hpre, List.append_assoc, List.filter_append, hfE, List.nil_append, h4,
        List.range_eq_range']
      simp
    by_cases hw : (writeRows bus ((d <<< 4) ||| blockAddress memoryType) (d <<< 4) h
        (List.range 16) (if memoryType ≠ greenPakMemory_t.RESISTER
          then eraseChip bus memoryType tr else (0, tr)).2).1 ≠ 0
    · rw [if_pos hw] at htr ⊢
      simp only [] at htr
      rw [hW] at htr
      obtain ⟨pre1, hpre, hnew⟩ := split_noRow _ newW pre post _ hisW hnoE2 htr
      obtain ⟨-, h2, h3⟩ := key pre1 post hpre hnew
      exact ⟨rfl, h2, h3⟩
    · rw [if_neg hw] at htr
      exfalso
      obtain ⟨newT, hT, hnoT⟩ := tail_new bus memoryType
        (writeRows bus ((d <<< 4) ||| blockAddress memoryType) (d <<< 4) h
          (List.range 16) (if memoryType ≠ greenPakMemory_t.RESISTER
            then eraseChip bus memoryType tr else (0, tr)).2).2
      simp only [] at htr
      rw [hT, hW, List.append_assoc] at htr
      obtain ⟨pre1, hpre, hnew⟩ := split_noRow _ (newW ++ newT) pre post _ hisW hnoE2 htr
      have hnotT : rowWrite ((d <<< 4) ||| blockAddress memoryType) h k ∉ newT := by
        intro hm
        rw [hnoT _ hm] at hisW
        cases hisW
      rcases List.append_eq_append_iff.mp hnew with ⟨a1, ha, hb⟩ | ⟨c1, hc, hd⟩
      · rw [hb] at hnotT
        exact hnotT (by simp)
      · cases c1 with
        | nil =>
          simp only [List.nil_append] at hd
          rw [← hd] at hnotT
          exact hnotT (by simp)
        | cons y ys =>
          simp only [List.cons_append, List.cons.injEq] at hd
          obtain ⟨h1, -, -⟩ := key pre1 ys hpre (by rw [hc, ← hd.1])
          rw [h1] at hw
          exact hw (by decide)

end GreenPak

namespace GreenPak

/-! ## `writeChip` -/

theorem writeChip_missing (bus : Bus) (files : LocalFiles) (ind : Indeterminate)
    (memoryType : greenPakMemory_t) (next : Int) (mem : Memory) (tr : List Txn)
    (h : (checkSlaveAddres bus tr).1 = 0xff) :
    writeChip bus files ind memoryType next mem tr = some (-1, mem, tr ++ probes 16) := by
  have h2 := checkSlaveAddres_missing bus tr h
  simp [writeChip, h, h2]

/-- The trace of `writeChip` when it calls `hexFileRead`: the discovery and, for NVM,
`resister_unprotect`. -/
theorem setup_cases (bus : Bus) (memoryType : greenPakMemory_t) (d : Nat) :
    ((memoryType ≠ greenPakMemory_t.NVM ∧
        (if memoryType = greenPakMemory_t.NVM then resister_unprotect bus (probes (d + 1))
          else probes (d + 1)) = probes (d + 1)) ∨
      (memoryType = greenPakMemory_t.NVM ∧
        ((if memoryType = greenPakMemory_t.NVM then resister_unprotect bus (probes (d + 1))
            else probes (d + 1)) = probes (d + 1) ++ probes 16 ∨
          ∃ d2, d2 < 16 ∧
            (if memoryType = greenPakMemory_t.NVM then resister_unprotect bus (probes (d + 1))
              else probes (d + 1)) = probes (d + 1) ++ probes (d2 + 1) ++ unprotectTxns d2))) ∧
    ∀ t ∈ (if memoryType = greenPakMemory_t.NVM then resister_unprotect bus (probes (d + 1))
        else probes (d + 1)), isRowWrite t = false := by
  by_cases hn : memoryType = greenPakMemory_t.NVM
  · rw [if_pos hn]
    constructor
    · right
      refine ⟨hn, ?_⟩
      rcases resister_unprotect_cases bus (probes (d + 1)) with ⟨d2, hd2, -, hres⟩ | ⟨-, hres⟩
      · exact Or.inr ⟨d2, hd2, hres⟩
      · exact Or.inl hres
    · obtain ⟨new, hnew, hno⟩ := resister_unprotect_new bus (probes (d + 1))
      intro t ht
      rw [hnew] at ht
      rcases List.mem_append.mp ht with ht | ht
      · exact noRow_probes _ t ht
      · exact hno t ht
  · rw [if_neg hn]
    exact ⟨Or.inl ⟨hn, rfl⟩, noRow_probes _⟩

theorem writeChip_found (bus : Bus) (files : LocalFiles) (ind : Indeterminate)
    (memoryType : greenPakMemory_t) (next : Int) (mem : Memory) (d : Nat)
    (hd : (checkSlaveAddres bus []).1 = d) (hne : d ≠ 0xff) :
    d < 16 ∧
    writeChip bus files ind memoryType next mem []
      = match hexFileRead files ind memoryType mem with
        | none => none
        | some (count, mem1) =>
          if count ≠ 16 then
            some (-1, mem1, if memoryType = greenPakMemory_t.NVM
              then resister_unprotect bus (probes (d + 1)) else probes (d + 1))
          else
            some ((writeChipRows bus memoryType d
                (patchAddress memoryType next d mem1.hexData)
                (if memoryType = greenPakMemory_t.NVM
                  then resister_unprotect bus (probes (d + 1)) else probes (d + 1))).1,
              { buffer := mem1.buffer,
                hexData := patchAddress memoryType next d mem1.hexData },
              (writeChipRows bus memoryType d
                (patchAddress memoryType next d mem1.hexData)
                (if memoryType = greenPakMemory_t.NVM
                  then resister_unprotect bus (probes (d + 1)) else probes (d + 1))).2) := by
  subst hd
  obtain ⟨hlt, htr⟩ := checkSlaveAddres_found bus [] hne
  have hmod : (checkSlaveAddres bus []).1 % 256 = (checkSlaveAddres bus []).1 := by omega
  have hne' : ¬ ((checkSlaveAddres bus []).1 = 255) := hne
  refine ⟨hlt, ?_⟩
  simp only [writeChip, hmod, hne', if_false, htr, List.nil_append]

/-- With a count other than 16, `writeChip` fails behind its setup and has issued no row
write. -/
theorem writeChip_count_ne (bus : Bus) (files : LocalFiles) (ind : Indeterminate)
    (memoryType : greenPakMemory_t) (next : Int) (mem : Memory) (count : Nat) (mem1 : Memory)
    (hload : hexFileRead files ind memoryType mem = some (count, mem1)) (hcount : count ≠ 16) :
    ∃ mem2 tr, writeChip bus files ind memoryType next mem [] = some (-1, mem2, tr) ∧
      (tr = probes 16 ∨ ∃ d, d < 16 ∧ (checkSlaveAddres bus []).1 = d ∧
        ((memoryType ≠ greenPakMemory_t.NVM ∧ tr = probes (d + 1)) ∨
          (memoryType = greenPakMemory_t.NVM ∧
            (tr = probes (d + 1) ++ probes 16 ∨
              ∃ d2, d2 < 16 ∧ tr = probes (d + 1) ++ probes (d2 + 1) ++ unprotectTxns d2)))) ∧
      ∀ t ∈ tr, isRowWrite t = false := by
  by_cases hff : (checkSlaveAddres bus []).1 = 0xff
  · refine ⟨mem, probes 16, ?_, Or.inl rfl, noRow_probes _⟩
    simpa using writeChip_missing bus files ind memoryType next mem [] hff
  · obtain ⟨hlt, hrun⟩ := writeChip_found bus files ind memoryType next mem _ rfl hff
    obtain ⟨hshape, hno⟩ := setup_cases bus memoryType (checkSlaveAddres bus []).1
    refine ⟨mem1, _, ?_, Or.inr ⟨_, hlt, rfl, hshape⟩, hno⟩
    rw [hrun, hload]
    simp only [hcount, ne_eq, not_false_eq_true, if_true]

end GreenPak

namespace GreenPak

/-! ## Claims on `writeChip` -/

/-- C2, as the code has it: for every region and every HEX input whose count from
`hexFileRead` is not 16, `writeChip` returns `-1` and has issued no row write and no page
erase, but the bus has been used: the trace holds the discovery probes (16 when no device
answers, else those of the addresses `0 .. d`) and, for NVM, the transactions of
`resister_unprotect` behind them (its own discovery and, when it finds the device `d2`, two
writes to register `0xE1` and a read of one byte). -/
theorem writeChip_incomplete_image (bus : Bus) (files : LocalFiles) (ind : Indeterminate)
    (memoryType : greenPakMemory_t) (next : Int) (mem : Memory) (count : Nat) (mem1 : Memory)
    (hload : hexFileRead files ind memoryType mem = some (count, mem1)) (hcount : count ≠ 16) :
    ∃ mem2 tr, writeChip bus files ind memoryType next mem [] = some (-1, mem2, tr) ∧
      (tr = probes 16 ∨ ∃ d, d < 16 ∧ (checkSlaveAddres bus []).1 = d ∧
        ((memoryType ≠ greenPakMemory_t.NVM ∧ tr = probes (d + 1)) ∨
          (memoryType = greenPakMemory_t.NVM ∧
            (tr = probes (d + 1) ++ probes 16 ∨
              ∃ d2, d2 < 16 ∧ tr = probes (d + 1) ++ probes (d2 + 1) ++
                [Txn.write ((d2 <<< 4) ||| 0x02) [0xE1, 0x00] false,
                 Txn.write ((d2 <<< 4) ||| 0x02) [0xE1] false,
                 Txn.read ((d2 <<< 4) ||| 0x02) 1 false])))) ∧
      ∀ t ∈ tr, isRowWrite t = false :=
  writeChip_count_ne bus files ind memoryType next mem count mem1 hload hcount

set_option maxRecDepth 100000 in
theorem writeChip_incomplete_image_witness :
    ∃ count mem1,
      hexFileRead { nvm := some shortFile, eeprom := none } zeroIndeterminate
        greenPakMemory_t.NVM zeroMemory = some (count, mem1) ∧ count = 15 ∧
      ∃ mem2 tr, writeChip alwaysAck { nvm := some shortFile, eeprom := none }
          zeroIndeterminate greenPakMemory_t.NVM 5 zeroMemory [] = some (-1, mem2, tr) ∧
        ∀ t ∈ tr, isRowWrite t = false := by
  obtain ⟨mem1, hload, -⟩ := hexFileRead_records { nvm := some shortFile, eeprom := none }
    zeroIndeterminate greenPakMemory_t.NVM zeroMemory (exampleRecords.take 15) [exampleEnd]
    (by decide) (by decide) (by decide) (by decide)
  have hlen : (exampleRecords.take 15).length % 256 = 15 := by decide
  rw [hlen] at hload
  obtain ⟨mem2, tr, hrun, -, hno⟩ := writeChip_incomplete_image alwaysAck
    { nvm := some shortFile, eeprom := none } zeroIndeterminate greenPakMemory_t.NVM 5
    zeroMemory 15 mem1 hload (by decide)
  exact ⟨15, mem1, hload, rfl, mem2, tr, hrun, hno⟩

/-- C2 fails as stated: with no HEX file (count 0) and a bus on which everything is
acknowledged, `writeChip(EEPROM)` returns `-1` with one transaction in the trace, and
`writeChip(NVM)` with five, two of them writes. -/
theorem writeChip_incomplete_touches_bus :
    (hexFileRead noFiles zeroIndeterminate greenPakMemory_t.EEPROM zeroMemory).map Prod.fst
      = some 0 ∧
    (writeChip alwaysAck noFiles zeroIndeterminate greenPakMemory_t.EEPROM
        defaultNextSlaveAddress zeroMemory []).map (fun r => (r.1, r.2.2))
      = some (-1, [Txn.read 0x02 0 false]) ∧
    (writeChip alwaysAck noFiles zeroIndeterminate greenPakMemory_t.NVM
        defaultNextSlaveAddress zeroMemory []).map (fun r => (r.1, r.2.2))
      = some (-1, [Txn.read 0x02 0 false, Txn.read 0x02 0 false,
          Txn.write 0x02 [0xE1, 0x00] false, Txn.write 0x02 [0xE1] false,
          Txn.read 0x02 1 false]) := by
  refine ⟨by decide, by decide, by decide⟩

/-- C3, as the code has it: whenever `writeChip` issues a row write, `hexFileRead` has
returned the count 16 for the present input (the count counts the records with byte count
`0x10`, whatever rows they name); an input whose count is not 16 never causes a row
write. -/
theorem writeChip_rowWrite_needs_count_16 (bus : Bus) (files : LocalFiles)
    (ind : Indeterminate) (memoryType : greenPakMemory_t) (next : Int) (mem : Memory)
    (res : Int) (mem2 : Memory) (tr : List Txn)
    (hrun : writeChip bus files ind memoryType next mem [] = some (res, mem2, tr))
    (t : Txn) (ht : t ∈ tr) (hrow : isRowWrite t = true) :
    ∃ mem1, hexFileRead files ind memoryType mem = some (16, mem1) := by
  cases hload : hexFileRead files ind memoryType mem with
  | none =>
    exfalso
    by_cases hff : (checkSlaveAddres bus []).1 = 0xff
    · rw [writeChip_missing bus files ind memoryType next mem [] hff] at hrun
      simp only [Option.some.injEq, Prod.mk.injEq, List.nil_append] at hrun
      rw [← hrun.2.2] at ht
      rw [noRow_probes _ t ht] at hrow
      cases hrow
    · obtain ⟨-, hrun'⟩ := writeChip_found bus files ind memoryType next mem _ rfl hff
      rw [hrun', hload] at hrun
      cases hrun
  | some v =>
    obtain ⟨count, mem1⟩ := v
    by_cases hcount : count = 16
    · exact ⟨mem1, by rw [hcount]⟩
    · exfalso
      obtain ⟨m, tr', hrun', -, hno⟩ :=
        writeChip_count_ne bus files ind memoryType next mem count mem1 hload hcount
      rw [hrun'] at hrun
      simp only [Option.some.injEq, Prod.mk.injEq] at hrun
      rw [← hrun.2.2] at ht
      rw [hno t ht] at hrow
      cases hrow

set_option maxRecDepth 100000 in
theorem writeChip_rowWrite_needs_count_16_witness :
    (∃ t, t ∈ ((writeChip alwaysAck exampleFiles zeroIndeterminate greenPakMemory_t.RESISTER
        defaultNextSlaveAddress zeroMemory []).map (fun r => r.2.2)).getD [] ∧
      isRowWrite t = true) ∧
    ∃ mem1, hexFileRead exampleFiles zeroIndeterminate greenPakMemory_t.RESISTER zeroMemory
      = some (16, mem1) := by
  obtain ⟨⟨res, mem2, tr⟩, hrun⟩ := Option.isSome_iff_exists.mp
    (by decide : (writeChip alwaysAck exampleFiles zeroIndeterminate
      greenPakMemory_t.RESISTER defaultNextSlaveAddress zeroMemory []).isSome = true)
  have hmem : Txn.write 0x02 [0, 159, 7, 0, 61, 15, 0, 0, 0, 0, 0, 0, 0, 0, 0, 0, 0] false
      ∈ ((writeChip alwaysAck exampleFiles zeroIndeterminate greenPakMemory_t.RESISTER
        defaultNextSlaveAddress zeroMemory []).map (fun r => r.2.2)).getD [] := by decide
  refine ⟨⟨_, hmem, by decide⟩, ?_⟩
  rw [hrun] at hmem
  exact writeChip_rowWrite_needs_count_16 alwaysAck exampleFiles zeroIndeterminate
    greenPakMemory_t.RESISTER defaultNextSlaveAddress zeroMemory res mem2 tr hrun _ hmem
    (by decide)

set_option maxRecDepth 100000 in
/-- C3 fails as stated: the 16 records of this file all carry the address `0000`, so the
loader fills row 0 only, yet `hexFileRead` returns 16 and `writeChip` issues all 16 row
writes. -/
theorem writeChip_sameRowFile_writes :
    (fileLines sameRowFile).map lineRow = List.replicate 16 0 ∧
    (hexFileRead { nvm := some sameRowFile, eeprom := none } zeroIndeterminate
        greenPakMemory_t.RESISTER zeroMemory).map Prod.fst = some 16 ∧
    (writeChip alwaysAck { nvm := some sameRowFile, eeprom := none } zeroIndeterminate
        greenPakMemory_t.RESISTER defaultNextSlaveAddress zeroMemory []).map
      (fun r => (r.1, (r.2.2.filter isRowWrite).length)) = some (0, 16) := by
  refine ⟨by decide, by decide, by decide⟩

end GreenPak

namespace GreenPak

set_option maxRecDepth 1000000 in
theorem nibble_patch : ∀ x, x < 241 → x &&& 0xF0 = x → ∀ a, a < 16 →
    ((x ||| a) % 256 = x ||| a ∧ (x ||| a) &&& 0xF0 = x ∧ (x ||| a) &&& 0x0F = a) := by
  decide

theorem patch_byte (b a : Nat) (ha : a < 16) :
    ((b &&& 0xF0) ||| a) % 256 = (b &&& 0xF0) ||| a ∧
    ((b &&& 0xF0) ||| a) &&& 0xF0 = b &&& 0xF0 ∧ ((b &&& 0xF0) ||| a) &&& 0x0F = a := by
  have h1 : b &&& 0xF0 < 241 := Nat.lt_succ_of_le Nat.and_le_right
  have h2 : (b &&& 0xF0) &&& 0xF0 = b &&& 0xF0 := by rw [Nat.and_assoc, Nat.and_self]
  exact nibble_patch _ h1 h2 a ha

theorem nextAddress_eq (next : Int) (d : Nat) :
    nextAddress next d = if 0 ≤ next ∧ next ≤ 15 then next.toNat else d := by
  unfold nextAddress
  by_cases h : next < 0x00 ∨ 0x0f < next
  · have h' : ¬ (0 ≤ next ∧ next ≤ 15) := by omega
    rw [if_pos h, if_neg h']
  · have h' : 0 ≤ next ∧ next ≤ 15 := by omega
    rw [if_neg h, if_pos h']

theorem nextAddress_lt (next : Int) (d : Nat) (hd : d < 16) : nextAddress next d < 16 := by
  rw [nextAddress_eq]
  by_cases h : 0 ≤ next ∧ next ≤ 15
  · rw [if_pos h]; omega
  · rw [if_neg h]; exact hd

theorem atoh1_not_hex (c : Nat) (h : isHexDigit c = false) : atoh1 c = 0xff := by
  simp only [isHexDigit, Bool.or_eq_false_iff, Bool.and_eq_false_iff, decide_eq_false_iff_not]
    at h
  unfold atoh1
  have h1 : ¬ (48 ≤ c ∧ c ≤ 57) := by omega
  have h2 : ¬ (97 ≤ c ∧ c ≤ 102) := by omega
  have h3 : ¬ (65 ≤ c ∧ c ≤ 70) := by omega
  rw [if_neg h1, if_neg h2, if_neg h3]

/-- C6: for `writeChip(NVM, a)` on a device discovered at address `d` with a count of 16:
the byte at row `0xC`, column `0xA` becomes `(b & 0xF0) | a1`, where `b` is the loaded byte
and `a1` is `a` when `a` is in `0 .. 15` and `d` otherwise (so also for the default value
`0xff` and for what `atoh1` gives for a character that is no hex digit); its high four bits
and all other bytes stay as loaded; every row write of the trace carries the bytes of this
image, and all 16 rows are in the trace when `writeChip` returns `0`. -/
theorem writeChip_nvm_address (bus : Bus) (files : LocalFiles) (ind : Indeterminate)
    (next : Int) (mem mem1 : Memory) (d : Nat)
    (hd : (checkSlaveAddres bus []).1 = d) (hfound : d ≠ 0xff)
    (hload : hexFileRead files ind greenPakMemory_t.NVM mem = some (16, mem1)) :
    (∃ res mem2 tr,
      writeChip bus files ind greenPakMemory_t.NVM next mem [] = some (res, mem2, tr) ∧
      mem2.hexData 0xC 0xA
        = (mem1.hexData 0xC 0xA &&& 0xF0) ||| (if 0 ≤ next ∧ next ≤ 15 then next.toNat else d) ∧
      mem2.hexData 0xC 0xA &&& 0xF0 = mem1.hexData 0xC 0xA &&& 0xF0 ∧
      mem2.hexData 0xC 0xA &&& 0x0F = (if 0 ≤ next ∧ next ≤ 15 then next.toNat else d) ∧
      (∀ r c, ¬ (r = 0xC ∧ c = 0xA) → mem2.hexData r c = mem1.hexData r c) ∧
      (∀ t ∈ tr, isRowWrite t = true → ∃ i, i < 16 ∧
        t = Txn.write ((d <<< 4) ||| 0x04)
          (((i <<< 4) % 256) :: (List.range 16).map (fun j => mem2.hexData i j)) false) ∧
      (res = 0 → ∀ i, i < 16 →
        Txn.write ((d <<< 4) ||| 0x04)
          (((i <<< 4) % 256) :: (List.range 16).map (fun j => mem2.hexData i j)) false ∈ tr)) ∧
    nextAddress defaultNextSlaveAddress d = d ∧
    (∀ c, isHexDigit c = false → nextAddress (atoh1 c) d = d) := by
  obtain ⟨hlt, hrun⟩ := writeChip_found bus files ind greenPakMemory_t.NVM next mem d hd hfound
  rw [hload] at hrun
  simp only [ne_eq, not_true_eq_false, if_false, if_true] at hrun
  have ha := nextAddress_lt next d hlt
  obtain ⟨p1, p2, p3⟩ := patch_byte (mem1.hexData 0xC 0xA) (nextAddress next d) ha
  have hcell : patchAddress greenPakMemory_t.NVM next d mem1.hexData 0xC 0xA
      = (mem1.hexData 0xC 0xA &&& 0xF0) ||| nextAddress next d := by
    simp only [patchAddress, setCell, and_self, if_true]
    exact p1
  have hno : ∀ t ∈ resister_unprotect bus (probes (d + 1)), isRowWrite t = false := by
    obtain ⟨new, hnew, hno⟩ := resister_unprotect_new bus (probes (d + 1))
    intro t ht
    rw [hnew] at ht
    rcases List.mem_append.mp ht with ht | ht
    · exact noRow_probes _ t ht
    · exact hno t ht
  obtain ⟨newE, newW, newT, htr, -, hnoE, hnoT, hW, hok⟩ := writeChipRows_shape bus
    greenPakMemory_t.NVM d (patchAddress greenPakMemory_t.NVM next d mem1.hexData)
    (resister_unprotect bus (probes (d + 1)))
  refine ⟨⟨_, _, _, hrun, ?_, ?_, ?_, ?_, ?_, ?_⟩, ?_, ?_⟩
  · show patchAddress greenPakMemory_t.NVM next d mem1.hexData 0xC 0xA = _
    rw [hcell, nextAddress_eq]
  · show patchAddress greenPakMemory_t.NVM next d mem1.hexData 0xC 0xA &&& 0xF0 = _
    rw [hcell]; exact p2
  · show patchAddress greenPakMemory_t.NVM next d mem1.hexData 0xC 0xA &&& 0x0F = _
    rw [hcell, ← nextAddress_eq]; exact p3
  · intro r c hrc
    show patchAddress greenPakMemory_t.NVM next d mem1.hexData r c = _
    simp only [patchAddress, setCell, hrc, if_false]
  · intro t ht hrow
    rw [htr] at ht
    have hcontra : ∀ {P : Prop}, isRowWrite t = false → P := by
      intro P hf
      rw [hf] at hrow
      cases hrow
    rcases List.mem_append.mp ht with ht | ht
    · rcases List.mem_append.mp ht with ht | ht
      · rcases List.mem_append.mp ht with ht | ht
        · exact hcontra (hno t ht)
        · exact hcontra (hnoE t ht)
      · rcases hW t ht with ⟨i, hi, e⟩ | e | e
        · exact ⟨i, hi, e⟩
        · exact hcontra (by rw [e]; rfl)
        · exact hcontra (by rw [e]; rfl)
    · exact hcontra (hnoT t ht)
  · intro h0 i hi
    have := hok h0 i hi
    rw [htr]
    simp only [List.mem_append]
    exact Or.inl (Or.inr this)
  · rw [nextAddress_eq]
    simp [defaultNextSlaveAddress]
  · intro c hc
    rw [atoh1_not_hex c hc, nextAddress_eq]
    simp

set_option maxRecDepth 100000 in
theorem writeChip_nvm_address_witness :
    ∃ mem1 res mem2 tr,
      hexFileRead exampleFiles zeroIndeterminate greenPakMemory_t.NVM zeroMemory
        = some (16, mem1) ∧
      writeChip alwaysAck exampleFiles zeroIndeterminate greenPakMemory_t.NVM 0x5 zeroMemory []
        = some (res, mem2, tr) ∧
      mem1.hexData 0xC 0xA = 0x01 ∧ mem2.hexData 0xC 0xA = 0x05 ∧
      mem2.hexData 0xC 0xA &&& 0x0F = 0x5 ∧
      mem2.hexData 0xC 0xA &&& 0xF0 = mem1.hexData 0xC 0xA &&& 0xF0 := by
  obtain ⟨mem1, hload, himg⟩ := hexFileRead_records exampleFiles zeroIndeterminate
    greenPakMemory_t.NVM zeroMemory exampleRecords [exampleEnd]
    (by decide) (by decide) (by decide) (by decide)
  have hlen : exampleRecords.length % 256 = 16 := by decide
  rw [hlen] at hload
  have hb : mem1.hexData 0xC 0xA = 0x01 := by
    rw [himg]
    decide
  obtain ⟨⟨res, mem2, tr, hrun, h1, h2, h3, -⟩, -⟩ := writeChip_nvm_address alwaysAck
    exampleFiles zeroIndeterminate 0x5 zeroMemory mem1 0 (by decide) (by decide) hload
  refine ⟨mem1, res, mem2, tr, hload, hrun, hb, ?_, ?_, h2⟩
  · rw [h1, hb]; decide
  · rw [h3]; decide

/-- C10: for every region and every row `k` of `0 .. 15`: when `writeChip` issues the row
write of row `k` (so the writes of the rows before it were acknowledged and their polls
succeeded) and this write is not acknowledged, `writeChip` returns `-1`, only `Wire.stop()`
follows in the trace, and the row writes of the trace are exactly those of the rows
`0 .. k` in ascending order, each a write of 17 bytes (the byte `i << 4` and the 16 bytes of
row `i`) to the control byte of the region: no row behind `k` is written. -/
theorem writeChip_row_nack (bus : Bus) (files : LocalFiles) (ind : Indeterminate)
    (memoryType : greenPakMemory_t) (next : Int) (mem : Memory)
    (res : Int) (mem2 : Memory) (tr : List Txn)
    (hrun : writeChip bus files ind memoryType next mem [] = some (res, mem2, tr))
    (d : Nat) (hd : (checkSlaveAddres bus []).1 = d) (k : Nat) (hk : k < 16)
    (pre post : List Txn)
    (htr : tr = pre ++ Txn.write ((d <<< 4) ||| blockAddress memoryType)
      (((k <<< 4) % 256) :: (List.range 16).map (fun j => mem2.hexData k j)) false :: post)
    (hnack : bus pre (Txn.write ((d <<< 4) ||| blockAddress memoryType)
      (((k <<< 4) % 256) :: (List.range 16).map (fun j => mem2.hexData k j)) false) = false) :
    res = -1 ∧ post = [Txn.stop] ∧
      tr.filter isRowWrite = (List.range (k + 1)).map (fun i =>
        Txn.write ((d <<< 4) ||| blockAddress memoryType)
          (((i <<< 4) % 256) :: (List.range 16).map (fun j => mem2.hexData i j)) false) := by
  have hW : isRowWrite (Txn.write ((d <<< 4) ||| blockAddress memoryType)
      (((k <<< 4) % 256) :: (List.range 16).map (fun j => mem2.hexData k j)) false) = true :=
    isRowWrite_rowWrite _ mem2.hexData k
  have hmemW : Txn.write ((d <<< 4) ||| blockAddress memoryType)
      (((k <<< 4) % 256) :: (List.range 16).map (fun j => mem2.hexData k j)) false ∈ tr := by
    rw [htr]; simp
  have hcontra : (∀ t ∈ tr, isRowWrite t = false) → False := by
    intro hno
    rw [hno _ hmemW] at hW
    cases hW
  by_cases hff : (checkSlaveAddres bus []).1 = 0xff
  · exfalso
    rw [writeChip_missing bus files ind memoryType next mem [] hff] at hrun
    simp only [Option.some.injEq, Prod.mk.injEq, List.nil_append] at hrun
    exact hcontra (by rw [← hrun.2.2]; exact noRow_probes _)
  · obtain ⟨hlt, hrun'⟩ := writeChip_found bus files ind memoryType next mem d hd (hd ▸ hff)
    rw [hrun'] at hrun
    cases hload : hexFileRead files ind memoryType mem with
    | none =>
      rw [hload] at hrun
      cases hrun
    | some v =>
      obtain ⟨count, mem1⟩ := v
      rw [hload] at hrun
      dsimp only at hrun
      obtain ⟨-, hno⟩ := setup_cases bus memoryType d
      by_cases hcount : count ≠ 16
      · exfalso
        rw [if_pos hcount] at hrun
        simp only [Option.some.injEq, Prod.mk.injEq] at hrun
        exact hcontra (by rw [← hrun.2.2]; exact hno)
      · rw [if_neg hcount] at hrun
        simp only [Option.some.injEq, Prod.mk.injEq] at hrun
        obtain ⟨hres, hmem2, htr2⟩ := hrun
        have hdata : mem2.hexData = patchAddress memoryType next d mem1.hexData := by
          rw [← hmem2]
        have hnack' := hnack
        rw [hdata] at htr hnack'
        obtain ⟨h1, h2, h3⟩ := writeChipRows_nack bus memoryType d
          (patchAddress memoryType next d mem1.hexData) _ pre post k hk hno
          (by rw [htr2]; exact htr) hnack'
        refine ⟨by rw [← hres]; exact h1, h2, ?_⟩
        rw [htr, h2]
        have e : pre ++ Txn.write ((d <<< 4) ||| blockAddress memoryType)
            (((k <<< 4) % 256) :: (List.range 16).map
              (fun j => patchAddress memoryType next d mem1.hexData k j)) false :: [Txn.stop]
            = (pre ++ [rowWrite ((d <<< 4) ||| blockAddress memoryType)
                (patchAddress memoryType next d mem1.hexData) k]) ++ [Txn.stop] := by
          simp [rowWrite, rowBytes]
        rw [e, List.filter_append, h3, hdata]
        simp [isRowWrite, rowWrite, rowBytes]

set_option maxRecDepth 100000 in
theorem writeChip_row_nack_witness :
    ∃ res mem2 tr,
      writeChip nackRow7 exampleFiles zeroIndeterminate greenPakMemory_t.EEPROM
        defaultNextSlaveAddress zeroMemory [] = some (res, mem2, tr) ∧
      res = -1 ∧ tr.getLast? = some Txn.stop ∧
      tr.filter isRowWrite = (List.range (7 + 1)).map (fun i =>
        Txn.write ((0 <<< 4) ||| blockAddress greenPakMemory_t.EEPROM)
          (((i <<< 4) % 256) :: (List.range 16).map (fun j => mem2.hexData i j)) false) := by
  obtain ⟨⟨res, mem2, tr⟩, hrun⟩ := Option.isSome_iff_exists.mp
    (by decide : (writeChip nackRow7 exampleFiles zeroIndeterminate
      greenPakMemory_t.EEPROM defaultNextSlaveAddress zeroMemory []).isSome = true)
  have hA : ((writeChip nackRow7 exampleFiles zeroIndeterminate greenPakMemory_t.EEPROM
      defaultNextSlaveAddress zeroMemory []).map (fun r =>
        decide (r.2.2 = r.2.2.take (r.2.2.length - 2) ++
          Txn.write ((0 <<< 4) ||| blockAddress greenPakMemory_t.EEPROM)
            (((7 <<< 4) % 256) :: (List.range 16).map (fun j => r.2.1.hexData 7 j)) false
            :: [Txn.stop]))).getD false = true := by decide
  rw [hrun] at hA
  simp only [Option.map_some', Option.getD_some, decide_eq_true_eq] at hA
  obtain ⟨h1, h2, h3⟩ := writeChip_row_nack nackRow7 exampleFiles zeroIndeterminate
    greenPakMemory_t.EEPROM defaultNextSlaveAddress zeroMemory res mem2 tr hrun 0 (by decide)
    7 (by decide) (tr.take (tr.length - 2)) [Txn.stop] hA (by simp [nackRow7])
  refine ⟨res, mem2, tr, hrun, h1, ?_, h3⟩
  rw [hA]
  simp

/-! ## `readChip` and the case that no device answers -/

theorem checkSlaveAddres_silent (bus : Bus) (tr : List Txn)
    (h : ∀ k, k < 16 → bus (tr ++ probes k) (probe k) = false) :
    checkSlaveAddres bus tr = (0xff, tr ++ probes 16) := by
  rcases checkSlaveAddres_cases bus tr with ⟨i, hi, -, hack, -⟩ | ⟨hres, -⟩
  · rw [h i hi] at hack
    cases hack
  · exact hres

theorem readRows_eq (bus : Bus) (cc : Nat) :
    ∀ (is : List Nat) (tr : List Txn),
      readRows bus cc is tr = tr ++ (is.map (rowAccess cc)).flatten := by
  intro is
  induction is with
  | nil => intro tr; simp [readRows]
  | cons i rest ih =>
    intro tr
    rw [readRows, ih]
    simp [wireWrite, wireRead, rowAccess]

theorem controlCode_table : ∀ d, d < 16 → ∀ sel, sel < 8 →
    (d <<< 4) ||| sel = 16 * d + sel ∧ ((d <<< 4) % 256) ||| sel = 16 * d + sel ∧
    16 * d + sel < 256 ∧ (16 * d + sel) >>> 4 = d ∧ (16 * d + sel) &&& 0x0F = sel := by
  decide

theorem blockAddress_lt (memoryType : greenPakMemory_t) : blockAddress memoryType < 8 := by
  cases memoryType <;> decide

/-- C14: for every slave address `d` of `0 .. 15` and every block address of Register
(`0x02`), NVM (`0x04`) and EEPROM (`0x06`), the control byte the code computes,
`(d << 4) | block`, is `16 * d + block`, fits in 8 bits and has the high four bits `d` and
the low four bits `block`, so different pairs give different control bytes; `writeChip`
addresses its row writes and `readChip` its row accesses to the control byte with block
`0x04` for NVM, `0x06` for EEPROM and `0x02` for Register. -/
theorem controlCode_value (d : Nat) (hd : d < 16) (memoryType : greenPakMemory_t) :
    ((d <<< 4) ||| blockAddress memoryType = 16 * d + blockAddress memoryType ∧
      16 * d + blockAddress memoryType < 256 ∧
      (16 * d + blockAddress memoryType) >>> 4 = d ∧
      (16 * d + blockAddress memoryType) &&& 0x0F = blockAddress memoryType) ∧
    (blockAddress greenPakMemory_t.NVM = 0x04 ∧ blockAddress greenPakMemory_t.EEPROM = 0x06 ∧
      blockAddress greenPakMemory_t.RESISTER = 0x02 ∧
      RESISTER_CONFIG = 0x02 ∧ NVM_CONFIG = 0x04 ∧ EEPROM_CONFIG = 0x06) ∧
    (∀ d2 m2, d2 < 16 →
      (d <<< 4) ||| blockAddress memoryType = (d2 <<< 4) ||| blockAddress m2 →
      d = d2 ∧ memoryType = m2) ∧
    (∀ (bus : Bus) (tr : List Txn), (checkSlaveAddres bus tr).1 = d →
      readChip bus memoryType tr
        = ((0 : Int), (checkSlaveAddres bus tr).2
            ++ ((List.range 16).map (rowAccess (16 * d + blockAddress memoryType))).flatten
            ++ [Txn.stop])) ∧
    (∀ (bus : Bus) (h : HexData) (tr : List Txn),
      ∀ t ∈ (writeChipRows bus memoryType d h tr).2, isRowWrite t = true →
        t ∈ tr ∨ ∃ i, i < 16 ∧ t = Txn.write (16 * d + blockAddress memoryType)
          (rowBytes h i) false) := by
  have hb := blockAddress_lt memoryType
  obtain ⟨e1, e2, e3, e4, e5⟩ := controlCode_table d hd _ hb
  refine ⟨⟨e1, e3, e4, e5⟩, by decide, ?_, ?_, ?_⟩
  · intro d2 m2 hd2 he
    obtain ⟨f1, -, -, f4, f5⟩ := controlCode_table d2 hd2 _ (blockAddress_lt m2)
    rw [e1, f1] at he
    have hd' : d = d2 := by rw [← e4, he, f4]
    have hm : blockAddress memoryType = blockAddress m2 := by rw [← e5, he, f5]
    refine ⟨hd', ?_⟩
    cases memoryType <;> cases m2 <;> first | rfl | (exfalso; revert hm; decide)
  · intro bus tr hfound
    have hne : ¬ (d = 255) := by omega
    simp only [readChip, hfound, hne, if_false, e2, readRows_eq]
  · intro bus h tr t ht hrow
    obtain ⟨newE, newW, newT, htr, -, hnoE, hnoT, hW, -⟩ :=
      writeChipRows_shape bus memoryType d h tr
    rw [htr] at ht
    have hcontra : ∀ {P : Prop}, isRowWrite t = false → P := by
      intro P hf
      rw [hf] at hrow
      cases hrow
    rcases List.mem_append.mp ht with ht | ht
    · rcases List.mem_append.mp ht with ht | ht
      · rcases List.mem_append.mp ht with ht | ht
        · exact Or.inl ht
        · exact hcontra (hnoE t ht)
      · rcases hW t ht with ⟨i, hi, e⟩ | e | e
        · exact Or.inr ⟨i, hi, by rw [e, rowWrite, e1]⟩
        · exact hcontra (by rw [e]; rfl)
        · exact hcontra (by rw [e]; rfl)
    · exact hcontra (hnoT t ht)

theorem controlCode_value_witness :
    (0x0B <<< 4) ||| blockAddress greenPakMemory_t.NVM
        = 16 * 0x0B + blockAddress greenPakMemory_t.NVM ∧
      16 * 0x0B + blockAddress greenPakMemory_t.NVM < 256 ∧
      (16 * 0x0B + blockAddress greenPakMemory_t.NVM) >>> 4 = 0x0B ∧
      (16 * 0x0B + blockAddress greenPakMemory_t.NVM) &&& 0x0F
        = blockAddress greenPakMemory_t.NVM :=
  (controlCode_value 0x0B (by decide) greenPakMemory_t.NVM).1

/-- C15: for every region and a device discovered at address `d`, `readChip` issues behind
the discovery exactly 16 row accesses in ascending row order `0 .. 15`, each a write of the
one byte `i << 4` directly followed by a read of 16 bytes, both to the control byte
`(d << 4) | block` and both without releasing the bus, and then exactly one `Wire.stop()`;
there is no polling probe and no access is repeated; it returns `0`. -/
theorem readChip_trace (bus : Bus) (memoryType : greenPakMemory_t) (tr : List Txn) (d : Nat)
    (hd : (checkSlaveAddres bus tr).1 = d) (hfound : d ≠ 0xff) :
    d < 16 ∧
    readChip bus memoryType tr
      = ((0 : Int), tr ++ probes (d + 1)
          ++ ((List.range 16).map (fun i =>
              [Txn.write ((d <<< 4) ||| blockAddress memoryType) [(i <<< 4) % 256] true,
               Txn.read ((d <<< 4) ||| blockAddress memoryType) 16 true])).flatten
          ++ [Txn.stop]) := by
  subst hd
  obtain ⟨hlt, htr⟩ := checkSlaveAddres_found bus tr hfound
  obtain ⟨e1, e2, -⟩ := controlCode_table _ hlt _ (blockAddress_lt memoryType)
  have hne : ¬ ((checkSlaveAddres bus tr).1 = 255) := hfound
  refine ⟨hlt, ?_⟩
  simp only [readChip, hne, if_false, readRows_eq, htr, e1, e2]
  rfl

theorem readChip_trace_witness :
    readChip (onlyDevice 0x0B) greenPakMemory_t.EEPROM []
      = ((0 : Int), [] ++ probes (0x0B + 1)
          ++ ((List.range 16).map (fun i =>
              [Txn.write ((0x0B <<< 4) ||| blockAddress greenPakMemory_t.EEPROM)
                 [(i <<< 4) % 256] true,
               Txn.read ((0x0B <<< 4) ||| blockAddress greenPakMemory_t.EEPROM) 16 true])).flatten
          ++ [Txn.stop]) :=
  (readChip_trace (onlyDevice 0x0B) greenPakMemory_t.EEPROM [] 0x0B (by decide) (by decide)).2

/-- C16: when no slave address of `0 .. 15` acknowledges the discovery probe, `readChip`,
`writeChip` and `eraseChip` each return `-1` having issued exactly the 16 discovery probes
and no write, and `resister_unprotect` and `powercycle` issue the 16 probes and no write
either. -/
theorem no_device (bus : Bus) (files : LocalFiles) (ind : Indeterminate)
    (memoryType : greenPakMemory_t) (next : Int) (mem : Memory) (tr : List Txn)
    (h : ∀ k, k < 16 → bus (tr ++ probes k) (probe k) = false) :
    readChip bus memoryType tr = (-1, tr ++ probes 16) ∧
    writeChip bus files ind memoryType next mem tr = some (-1, mem, tr ++ probes 16) ∧
    eraseChip bus memoryType tr = (-1, tr ++ probes 16) ∧
    resister_unprotect bus tr = tr ++ probes 16 ∧
    powercycle bus tr = tr ++ probes 16 ∧
    (∀ t ∈ probes 16, isWrite t = false) ∧ (probes 16).length = 16 := by
  have hc := checkSlaveAddres_silent bus tr h
  have h1 : (checkSlaveAddres bus tr).1 = 0xff := by rw [hc]
  refine ⟨by simp [readChip, hc], writeChip_missing bus files ind memoryType next mem tr h1,
    by simp [eraseChip, hc], by simp [resister_unprotect, hc], by simp [powercycle, hc],
    by decide, by decide⟩

theorem no_device_witness :
    readChip neverAck greenPakMemory_t.NVM [] = (-1, [] ++ probes 16) ∧
    writeChip neverAck exampleFiles zeroIndeterminate greenPakMemory_t.NVM 5 zeroMemory []
      = some (-1, zeroMemory, [] ++ probes 16) ∧
    eraseChip neverAck greenPakMemory_t.NVM [] = (-1, [] ++ probes 16) ∧
    resister_unprotect neverAck [] = [] ++ probes 16 ∧
    powercycle neverAck [] = [] ++ probes 16 ∧
    (∀ t ∈ probes 16, isWrite t = false) ∧ (probes 16).length = 16 :=
  no_device neverAck exampleFiles zeroIndeterminate greenPakMemory_t.NVM 5 zeroMemory []
    (fun _ _ => rfl)

/-! ## `eraseChip` -/

theorem ackPollingLoop_cases (bus : Bus) (a : Nat) :
    ∀ (budget : Nat) (tr : List Txn),
      ∃ n, 1 ≤ n ∧ n ≤ budget + 1 ∧
        (ackPollingLoop bus a budget tr).2 = tr ++ List.replicate n (ackProbe a) ∧
        ((ackPollingLoop bus a budget tr).1 = 0 ∨
          ((ackPollingLoop bus a budget tr).1 = -1 ∧ n = budget + 1)) := by
  intro budget
  induction budget with
  | zero =>
    intro tr
    refine ⟨1, by omega, by omega, ?_, ?_⟩
    · by_cases h : bus tr (Txn.read a 0 false) = true <;>
        simp [ackPollingLoop, wireRead, h, ackProbe]
    · by_cases h : bus tr (Txn.read a 0 false) = true <;>
        simp [ackPollingLoop, wireRead, h]
  | succ b ih =>
    intro tr
    by_cases h : bus tr (Txn.read a 0 false) = true
    · refine ⟨1, by omega, by omega, ?_, ?_⟩ <;>
        simp [ackPollingLoop, wireRead, h, ackProbe]
    · have hstep : ackPollingLoop bus a (b + 1) tr
          = ackPollingLoop bus a b (tr ++ [ackProbe a]) := by
        simp [ackPollingLoop, wireRead, h, ackProbe]
      obtain ⟨k, hk1, hk2, htr, hres⟩ := ih (tr ++ [ackProbe a])
      refine ⟨k + 1, by omega, by omega, ?_, ?_⟩
      · rw [hstep, htr, append_replicate_succ]
      · rw [hstep]
        rcases hres with h0 | ⟨h1, h2⟩
        · exact Or.inl h0
        · exact Or.inr ⟨h1, by omega⟩

theorem ackPolling_cases (bus : Bus) (a : Nat) (tr : List Txn) :
    ∃ n, 1 ≤ n ∧ n ≤ 1001 ∧
      (ackPolling bus a tr).2 = tr ++ List.replicate n (ackProbe a) ∧
      ((ackPolling bus a tr).1 = 0 ∨ ((ackPolling bus a tr).1 = -1 ∧ n = 1001)) :=
  ackPollingLoop_cases bus a 1000 tr

/-- The exact trace of the page loop: for every page reached its erase command and its
polling probes; the loop fails exactly when the last of these polls used all 1001 probes. -/
theorem erasePages_cases (bus : Bus) (memoryType : greenPakMemory_t) (cc : Nat) :
    ∀ (is : List Nat) (tr : List Txn),
      ∃ ns : List Nat, ns.length ≤ is.length ∧ (∀ n ∈ ns, 1 ≤ n ∧ n ≤ 1001) ∧
        (erasePages bus memoryType cc cc is tr).2
          = tr ++ (List.zipWith (fun i n => eraseWrite memoryType cc i
              :: List.replicate n (ackProbe cc)) is ns).flatten ∧
        (((erasePages bus memoryType cc cc is tr).1 = 0 ∧ ns.length = is.length) ∨
          ((erasePages bus memoryType cc cc is tr).1 = -1 ∧ ns.getLast? = some 1001)) := by
  intro is
  induction is with
  | nil =>
    intro tr
    exact ⟨[], by simp, by simp, by simp [erasePages], Or.inl ⟨by simp [erasePages], rfl⟩⟩
  | cons i rest ih =>
    intro tr
    obtain ⟨n, hn1, hn2, hn, hres⟩ := ackPolling_cases bus cc
      (tr ++ [eraseWrite memoryType cc i])
    have hstep : erasePages bus memoryType cc cc (i :: rest) tr
        = if (ackPolling bus cc (tr ++ [eraseWrite memoryType cc i])).1 = -1
          then (-1, (ackPolling bus cc (tr ++ [eraseWrite memoryType cc i])).2)
          else erasePages bus memoryType cc cc rest
            (ackPolling bus cc (tr ++ [eraseWrite memoryType cc i])).2 := by
      simp only [erasePages, wireWrite, eraseWrite]
    rw [hstep]
    by_cases hfail : (ackPolling bus cc (tr ++ [eraseWrite memoryType cc i])).1 = -1
    · rw [if_pos hfail]
      have hn' : n = 1001 := by
        rcases hres with h0 | ⟨-, h2⟩
        · rw [hfail] at h0; cases h0
        · exact h2
      refine ⟨[n], by simp, ?_, ?_, Or.inr ⟨rfl, by simp [hn']⟩⟩
      · intro m hm
        simp only [List.mem_singleton] at hm
        subst hm; exact ⟨hn1, hn2⟩
      · simp only [hn]
        simp
    · rw [if_neg hfail]
      obtain ⟨ns, hlen, hall, htr, hres2⟩ := ih
        (ackPolling bus cc (tr ++ [eraseWrite memoryType cc i])).2
      refine ⟨n :: ns, by simp; omega, ?_, ?_, ?_⟩
      · intro m hm
        rcases List.mem_cons.mp hm with e | hm
        · subst e; exact ⟨hn1, hn2⟩
        · exact hall m hm
      · rw [htr, hn]
        simp
      · rcases hres2 with ⟨h0, hl⟩ | ⟨h1, hl⟩
        · exact Or.inl ⟨h0, by simp [hl]⟩
        · refine Or.inr ⟨h1, ?_⟩
          cases ns with
          | nil => simp at hl
          | cons m ms => simpa using hl

theorem eraseByte_table : ∀ i, i < 16 →
    eraseByte greenPakMemory_t.NVM i = 0x80 ||| i ∧
    eraseByte greenPakMemory_t.EEPROM i = 0x90 ||| i := by
  decide

theorem mem_pages (memoryType : greenPakMemory_t) (cc : Nat) :
    ∀ (is ns : List Nat),
      ∀ t ∈ (List.zipWith (fun i n => eraseWrite memoryType cc i
          :: List.replicate n (ackProbe cc)) is ns).flatten,
        (∃ i ∈ is, t = eraseWrite memoryType cc i) ∨ t = ackProbe cc := by
  intro is
  induction is with
  | nil => intro ns t ht; simp at ht
  | cons i rest ih =>
    intro ns t ht
    cases ns with
    | nil => simp at ht
    | cons n ns1 =>
      simp only [List.zipWith_cons_cons, List.flatten_cons, List.mem_append, List.mem_cons]
        at ht
      rcases ht with (e | hr) | ht
      · exact Or.inl ⟨i, by simp, e⟩
      · exact Or.inr (List.mem_replicate.mp hr).2
      · rcases ih ns1 t ht with ⟨j, hj, e⟩ | e
        · exact Or.inl ⟨j, by simp [hj], e⟩
        · exact Or.inr e

theorem not_reset_pagesTrace (memoryType : greenPakMemory_t) (cc : Nat) (ns : List Nat) :
    ∀ t ∈ pagesTrace memoryType cc ns, ∀ d2, t ≠ resetWrite d2 := by
  intro t ht d2
  rcases mem_pages memoryType cc _ ns t ht with ⟨i, -, e⟩ | e
  · rw [e]; simp [eraseWrite, resetWrite]
  · rw [e]; simp [ackProbe, resetWrite]

theorem not_reset_probes (n : Nat) : ∀ t ∈ probes n, ∀ d2, t ≠ resetWrite d2 := by
  intro t ht d2
  obtain ⟨i, -, rfl⟩ := List.mem_map.mp ht
  simp [probe, resetWrite]

theorem not_reset_unprotect (d : Nat) : ∀ t ∈ unprotectTxns d, ∀ d2, t ≠ resetWrite d2 := by
  intro t ht d2
  simp only [unprotectTxns, List.mem_cons, List.mem_singleton, List.not_mem_nil, or_false]
    at ht
  rcases ht with e | e | e <;> rw [e] <;> simp [resetWrite]

/-- The trace of `eraseChip` for NVM or EEPROM with the device at `d`: discovery,
`resister_unprotect`, the pages with their polls, and `powercycle` when no poll failed. -/
theorem eraseChip_shape (bus : Bus) (memoryType : greenPakMemory_t) (tr : List Txn) (d : Nat)
    (hd : (checkSlaveAddres bus tr).1 = d) (hfound : d ≠ 0xff)
    (hmt : memoryType ≠ greenPakMemory_t.RESISTER) :
    ∃ ns : List Nat, ns.length ≤ 16 ∧ (∀ n ∈ ns, 1 ≤ n ∧ n ≤ 1001) ∧
      (((eraseChip bus memoryType tr).1 = 0 ∧ ns.length = 16 ∧
          (eraseChip bus memoryType tr).2
            = powercycle bus (resister_unprotect bus (tr ++ probes (d + 1))
                ++ pagesTrace memoryType ((d <<< 4) ||| 0x02) ns)) ∨
        ((eraseChip bus memoryType tr).1 = -1 ∧ ns.getLast? = some 1001 ∧
          (eraseChip bus memoryType tr).2
            = resister_unprotect bus (tr ++ probes (d + 1))
                ++ pagesTrace memoryType ((d <<< 4) ||| 0x02) ns ∧
          ∀ t ∈ (eraseChip bus memoryType tr).2, t ∈ tr ∨ ∀ d2, t ≠ resetWrite d2)) := by
  subst hd
  obtain ⟨hlt, htr⟩ := checkSlaveAddres_found bus tr hfound
  have hne : ¬ ((checkSlaveAddres bus tr).1 = 255) := hfound
  obtain ⟨ns, hlen, hall, hpages, hres⟩ := erasePages_cases bus memoryType
    (((checkSlaveAddres bus tr).1 <<< 4) ||| RESISTER_CONFIG) (List.range 16)
    (resister_unprotect bus (checkSlaveAddres bus tr).2)
  refine ⟨ns, by simpa using hlen, hall, ?_⟩
  rcases hres with ⟨h0, hl⟩ | ⟨h1, hl⟩
  · left
    have h0' : ¬ ((erasePages bus memoryType
        (((checkSlaveAddres bus tr).1 <<< 4) ||| RESISTER_CONFIG)
        (((checkSlaveAddres bus tr).1 <<< 4) ||| RESISTER_CONFIG) (List.range 16)
        (resister_unprotect bus (checkSlaveAddres bus tr).2)).1 = -1) := by
      rw [h0]; decide
    refine ⟨?_, by simpa using hl, ?_⟩
    · simp only [eraseChip, hne, hmt, h0', if_false]
    · simp only [eraseChip, hne, hmt, h0', if_false]
      rw [hpages, htr]
      rfl
  · right
    have e2 : (eraseChip bus memoryType tr).2
        = resister_unprotect bus (tr ++ probes ((checkSlaveAddres bus tr).1 + 1))
            ++ pagesTrace memoryType (((checkSlaveAddres bus tr).1 <<< 4) ||| 0x02) ns := by
      simp only [eraseChip, hne, hmt, h1, if_false, if_true]
      rw [hpages, htr]
      rfl
    refine ⟨?_, hl, e2, ?_⟩
    · simp only [eraseChip, hne, hmt, h1, if_false, if_true]
    · intro t ht
      rw [e2] at ht
      rcases List.mem_append.mp ht with ht | ht
      · rcases resister_unprotect_cases bus
          (tr ++ probes ((checkSlaveAddres bus tr).1 + 1)) with ⟨d3, -, -, hu⟩ | ⟨-, hu⟩
        · rw [hu] at ht
          rcases List.mem_append.mp ht with ht | ht
          · rcases List.mem_append.mp ht with ht | ht
            · rcases List.mem_append.mp ht with ht | ht
              · exact Or.inl ht
              · exact Or.inr (not_reset_probes _ t ht)
            · exact Or.inr (not_reset_probes _ t ht)
          · exact Or.inr (not_reset_unprotect _ t ht)
        · rw [hu] at ht
          rcases List.mem_append.mp ht with ht | ht
          · rcases List.mem_append.mp ht with ht | ht
            · exact Or.inl ht
            · exact Or.inr (not_reset_probes _ t ht)
          · exact Or.inr (not_reset_probes _ t ht)
      · exact Or.inr (not_reset_pagesTrace _ _ _ t ht)

/-! ## The page loop driven by the answers of the bus -/

theorem ackPolling_answered (bus : Bus) (a : Nat) (tr : List Txn) (n : Nat)
    (h : Answered bus a tr n) :
    ackPolling bus a tr = (0, tr ++ List.replicate n (ackProbe a)) := by
  obtain ⟨h1, h2, hnack, hack⟩ := h
  obtain ⟨m, rfl⟩ : ∃ m, n = m + 1 := ⟨n - 1, by omega⟩
  exact ackPollingLoop_ack bus a m 1000 tr (by omega) (fun j hj => hnack j (by omega))
    (by simpa using hack)

theorem ackPolling_exhausted (bus : Bus) (a : Nat) (tr : List Txn) (h : Exhausted bus a tr) :
    ackPolling bus a tr = (-1, tr ++ List.replicate 1001 (ackProbe a)) :=
  ackPollingLoop_nack bus a 1000 tr h

theorem erasePages_step (bus : Bus) (memoryType : greenPakMemory_t) (cc : Nat) (i : Nat)
    (rest : List Nat) (tr : List Txn) :
    erasePages bus memoryType cc cc (i :: rest) tr
      = if (ackPolling bus cc (tr ++ [eraseWrite memoryType cc i])).1 = -1
        then (-1, (ackPolling bus cc (tr ++ [eraseWrite memoryType cc i])).2)
        else erasePages bus memoryType cc cc rest
          (ackPolling bus cc (tr ++ [eraseWrite memoryType cc i])).2 := by
  simp only [erasePages, wireWrite, eraseWrite]

/-- The page loop over the pages `s, s + 1, ...` when the polls of the first pages are
answered at their `ns[0]`-th, `ns[1]`-th, ... probes: with an answer for every page the
loop returns `0` behind the last poll; when the poll of the next page is exhausted it
returns `-1` behind the 1001 probes of that poll. -/
theorem erasePages_run (bus : Bus) (memoryType : greenPakMemory_t) (cc : Nat) :
    ∀ (m s : Nat) (tr0 : List Txn) (ns : List Nat), ns.length ≤ m →
      (∀ i, i < ns.length →
        Answered bus cc
          (tr0 ++ (List.zipWith (fun i n => eraseWrite memoryType cc i
              :: List.replicate n (ackProbe cc)) (List.range' s m) (ns.take i)).flatten
            ++ [eraseWrite memoryType cc (s + i)]) (ns.getD i 0)) →
      (ns.length = m →
        erasePages bus memoryType cc cc (List.range' s m) tr0
          = (0, tr0 ++ (List.zipWith (fun i n => eraseWrite memoryType cc i
              :: List.replicate n (ackProbe cc)) (List.range' s m) ns).flatten)) ∧
      (ns.length < m →
        Exhausted bus cc
          (tr0 ++ (List.zipWith (fun i n => eraseWrite memoryType cc i
              :: List.replicate n (ackProbe cc)) (List.range' s m) ns).flatten
            ++ [eraseWrite memoryType cc (s + ns.length)]) →
        erasePages bus memoryType cc cc (List.range' s m) tr0
          = (-1, tr0 ++ (List.zipWith (fun i n => eraseWrite memoryType cc i
              :: List.replicate n (ackProbe cc)) (List.range' s m) ns).flatten
            ++ eraseWrite memoryType cc (s + ns.length)
              :: List.replicate 1001 (ackProbe cc))) := by
  intro m
  induction m with
  | zero =>
    intro s tr0 ns hlen _
    have hns : ns = [] := List.length_eq_zero.mp (by omega)
    subst hns
    exact ⟨fun _ => by simp [erasePages], fun h => absurd h (by simp)⟩
  | succ m ih =>
    intro s tr0 ns hlen hans
    rw [List.range'_succ, erasePages_step]
    cases ns with
    | nil =>
      refine ⟨fun h => absurd h (by simp), fun _ hex => ?_⟩
      simp only [List.zipWith_nil_right, List.flatten_nil, List.append_nil, List.length_nil,
        Nat.add_zero] at hex ⊢
      rw [ackPolling_exhausted bus cc _ hex, if_pos rfl]
      simp only [List.append_assoc, List.singleton_append]
    | cons n ns1 =>
      have h0 := hans 0 (by simp)
      simp only [List.take_zero, List.zipWith_nil_right, List.flatten_nil, List.append_nil,
        Nat.add_zero, List.getD_cons_zero] at h0
      rw [ackPolling_answered bus cc _ n h0, if_neg (show ¬ ((0 : Int) = -1) by decide)]
      have hlen1 : ns1.length ≤ m := by simpa using hlen
      obtain ⟨ih1, ih2⟩ := ih (s + 1)
        (tr0 ++ [eraseWrite memoryType cc s] ++ List.replicate n (ackProbe cc)) ns1 hlen1
        (by
          intro i hi
          have := hans (i + 1) (by simp; omega)
          rw [List.range'_succ] at this
          simp only [List.take_succ_cons, List.zipWith_cons_cons, List.flatten_cons,
            List.getD_cons_succ] at this
          have e : s + (i + 1) = s + 1 + i := by omega
          rw [e] at this
          simpa [List.append_assoc] using this)
      constructor
      · intro hl
        rw [ih1 (by simpa using hl)]
        simp only [List.zipWith_cons_cons, List.flatten_cons, List.append_assoc,
          List.cons_append, List.singleton_append, List.nil_append]
      · intro hl hex
        have e : s + (n :: ns1).length = s + 1 + ns1.length := by simp; omega
        rw [e] at hex ⊢
        rw [ih2 (by simpa using hl) (by
          simp only [List.zipWith_cons_cons, List.flatten_cons] at hex
          simpa [List.append_assoc] using hex)]
        simp only [List.zipWith_cons_cons, List.flatten_cons, List.append_assoc,
          List.cons_append, List.singleton_append, List.nil_append]

theorem eraseChip_found (bus : Bus) (memoryType : greenPakMemory_t) (tr : List Txn) (d : Nat)
    (hd : (checkSlaveAddres bus tr).1 = d) (hfound : d ≠ 0xff)
    (hmt : memoryType ≠ greenPakMemory_t.RESISTER) :
    eraseChip bus memoryType tr
      = if (erasePages bus memoryType ((d <<< 4) ||| 0x02) ((d <<< 4) ||| 0x02)
            (List.range 16) (resister_unprotect bus (tr ++ probes (d + 1)))).1 = -1
        then (-1, (erasePages bus memoryType ((d <<< 4) ||| 0x02) ((d <<< 4) ||| 0x02)
            (List.range 16) (resister_unprotect bus (tr ++ probes (d + 1)))).2)
        else (0, powercycle bus (erasePages bus memoryType ((d <<< 4) ||| 0x02)
            ((d <<< 4) ||| 0x02) (List.range 16)
            (resister_unprotect bus (tr ++ probes (d + 1)))).2) := by
  subst hd
  obtain ⟨-, htr⟩ := checkSlaveAddres_found bus tr hfound
  have hne : ¬ ((checkSlaveAddres bus tr).1 = 255) := hfound
  simp only [eraseChip, hne, hmt, if_false, htr]
  rfl

/-- What `eraseChip` returns, from the answers of the bus: with the polls of all 16 pages
answered it returns `0` behind `powercycle`; with the polls of the pages `0 .. k - 1`
answered and the poll of page `k` exhausted it returns `-1` behind the 1001 probes of that
poll. -/
theorem eraseChip_run (bus : Bus) (memoryType : greenPakMemory_t) (tr : List Txn) (d : Nat)
    (hd : (checkSlaveAddres bus tr).1 = d) (hfound : d ≠ 0xff)
    (hmt : memoryType ≠ greenPakMemory_t.RESISTER) (ns : List Nat) (hlen : ns.length ≤ 16)
    (hans : ∀ i, i < ns.length →
      Answered bus ((d <<< 4) ||| 0x02)
        (pollStart (resister_unprotect bus (tr ++ probes (d + 1))) memoryType
          ((d <<< 4) ||| 0x02) ns i) (ns.getD i 0)) :
    (ns.length = 16 →
      eraseChip bus memoryType tr
        = ((0 : Int), powercycle bus (resister_unprotect bus (tr ++ probes (d + 1))
            ++ pagesTrace memoryType ((d <<< 4) ||| 0x02) ns))) ∧
    (ns.length < 16 →
      Exhausted bus ((d <<< 4) ||| 0x02)
        (pollStart (resister_unprotect bus (tr ++ probes (d + 1))) memoryType
          ((d <<< 4) ||| 0x02) ns ns.length) →
      eraseChip bus memoryType tr
        = (-1, resister_unprotect bus (tr ++ probes (d + 1))
            ++ pagesTrace memoryType ((d <<< 4) ||| 0x02) ns
            ++ eraseWrite memoryType ((d <<< 4) ||| 0x02) ns.length
              :: List.replicate 1001 (ackProbe ((d <<< 4) ||| 0x02)))) := by
  obtain ⟨h1, h2⟩ := erasePages_run bus memoryType ((d <<< 4) ||| 0x02) 16 0
    (resister_unprotect bus (tr ++ probes (d + 1))) ns hlen
    (by
      intro i hi
      have := hans i hi
      simp only [pollStart, pagesTrace, List.range_eq_range'] at this
      simpa using this)
  rw [eraseChip_found bus memoryType tr d hd hfound hmt, List.range_eq_range']
  constructor
  · intro hl
    rw [h1 hl, if_neg (show ¬ ((0 : Int) = -1) by decide)]
    simp only [pagesTrace, List.range_eq_range']
  · intro hl hex
    have hex2 := h2 hl (by
      simp only [pollStart, pagesTrace, List.range_eq_range', List.take_length] at hex
      simpa using hex)
    rw [hex2, if_pos rfl]
    simp only [pagesTrace, List.range_eq_range', Nat.zero_add]

theorem mem_pages_lt (memoryType : greenPakMemory_t) (cc : Nat) :
    ∀ (m s : Nat) (ns : List Nat),
      ∀ t ∈ (List.zipWith (fun i n => eraseWrite memoryType cc i
          :: List.replicate n (ackProbe cc)) (List.range' s m) ns).flatten,
        (∃ i, i < s + ns.length ∧ t = eraseWrite memoryType cc i) ∨ t = ackProbe cc := by
  intro m
  induction m with
  | zero => intro s ns t ht; simp at ht
  | succ m ih =>
    intro s ns t ht
    rw [List.range'_succ] at ht
    cases ns with
    | nil => simp at ht
    | cons n ns1 =>
      simp only [List.zipWith_cons_cons, List.flatten_cons, List.mem_append, List.mem_cons]
        at ht
      rcases ht with (e | hr) | ht
      · exact Or.inl ⟨s, by simp, e⟩
      · exact Or.inr (List.mem_replicate.mp hr).2
      · rcases ih (s + 1) ns1 t ht with ⟨j, hj, e⟩ | e
        · exact Or.inl ⟨j, by simp; omega, e⟩
        · exact Or.inr e

theorem eraseByte_inj : ∀ i, i < 16 → ∀ j, j < 16 →
    (eraseByte greenPakMemory_t.NVM i = eraseByte greenPakMemory_t.NVM j → i = j) ∧
    (eraseByte greenPakMemory_t.EEPROM i = eraseByte greenPakMemory_t.EEPROM j → i = j) := by
  decide

/-- Behind a poll of page `k` that gave up there is no erase command of a later page and
no reset write. -/
theorem pages_stop (memoryType : greenPakMemory_t) (cc : Nat)
    (hmt : memoryType ≠ greenPakMemory_t.RESISTER) (ns : List Nat) (hlen : ns.length < 16) :
    ∀ t ∈ pagesTrace memoryType cc ns
        ++ eraseWrite memoryType cc ns.length :: List.replicate 1001 (ackProbe cc),
      (∀ d2, t ≠ resetWrite d2) ∧
      (∀ i, ns.length < i → i < 16 → t ≠ eraseWrite memoryType cc i) := by
  have hinj : ∀ i, i < 16 → ∀ j, j < 16 →
      eraseWrite memoryType cc i = eraseWrite memoryType cc j → i = j := by
    intro i hi j hj e
    have e2 : eraseByte memoryType i = eraseByte memoryType j := by
      simpa [eraseWrite] using e
    obtain ⟨h1, h2⟩ := eraseByte_inj i hi j hj
    cases memoryType with
    | NVM => exact h1 e2
    | EEPROM => exact h2 e2
    | RESISTER => exact absurd rfl hmt
  intro t ht
  rcases List.mem_append.mp ht with ht | ht
  · refine ⟨not_reset_pagesTrace _ _ _ t ht, ?_⟩
    intro i hi hi16 e
    simp only [pagesTrace, List.range_eq_range'] at ht
    rcases mem_pages_lt memoryType cc 16 0 ns t ht with ⟨j, hj, e2⟩ | e2
    · have := hinj j (by omega) i hi16 (by rw [← e2, e])
      omega
    · rw [e2] at e; simp [ackProbe, eraseWrite] at e
  · rcases List.mem_cons.mp ht with e | ht
    · refine ⟨fun d2 => by rw [e]; simp [eraseWrite, resetWrite], ?_⟩
      intro i hi hi16 e2
      have := hinj ns.length (by omega) i hi16 (by rw [← e, e2])
      omega
    · have e := List.eq_of_mem_replicate ht
      exact ⟨fun d2 => by rw [e]; simp [ackProbe, resetWrite],
        fun i _ _ => by rw [e]; simp [ackProbe, eraseWrite]⟩

/-- C17: for NVM or EEPROM and a device discovered at address `d`, `eraseChip` issues
(behind its discovery and `resister_unprotect`) the page erase commands of the pages
`0, 1, ...` in ascending order, each the two bytes `0xE3`, `0x80 | i` (NVM) or `0x90 | i`
(EEPROM) written to the control byte `(d << 4) | 0x02` and each followed by the polling
probes of `ackPolling` at that control byte.  When the polls of the pages `0 .. k - 1` are
answered and the poll of page `k` is exhausted (the bus acknowledges none of its 1001
probes), `eraseChip` returns `-1` and the trace ends with those probes: no erase command of
a later page and no reset write is issued.  When the polls of all 16 pages are answered it
returns `0` behind `powercycle`. -/
theorem eraseChip_pages (bus : Bus) (memoryType : greenPakMemory_t) (tr : List Txn) (d : Nat)
    (hd : (checkSlaveAddres bus tr).1 = d) (hfound : d ≠ 0xff)
    (hmt : memoryType ≠ greenPakMemory_t.RESISTER) :
    (∀ ns : List Nat, ns.length ≤ 16 →
      (∀ i, i < ns.length →
        Answered bus ((d <<< 4) ||| 0x02)
          (pollStart (resister_unprotect bus (tr ++ probes (d + 1))) memoryType
            ((d <<< 4) ||| 0x02) ns i) (ns.getD i 0)) →
      (ns.length = 16 →
        eraseChip bus memoryType tr
          = ((0 : Int), powercycle bus (resister_unprotect bus (tr ++ probes (d + 1))
              ++ pagesTrace memoryType ((d <<< 4) ||| 0x02) ns))) ∧
      (ns.length < 16 →
        Exhausted bus ((d <<< 4) ||| 0x02)
          (pollStart (resister_unprotect bus (tr ++ probes (d + 1))) memoryType
            ((d <<< 4) ||| 0x02) ns ns.length) →
        eraseChip bus memoryType tr
          = (-1, resister_unprotect bus (tr ++ probes (d + 1))
              ++ (pagesTrace memoryType ((d <<< 4) ||| 0x02) ns
                ++ eraseWrite memoryType ((d <<< 4) ||| 0x02) ns.length
                  :: List.replicate 1001 (ackProbe ((d <<< 4) ||| 0x02)))) ∧
        ∀ t ∈ pagesTrace memoryType ((d <<< 4) ||| 0x02) ns
            ++ eraseWrite memoryType ((d <<< 4) ||| 0x02) ns.length
              :: List.replicate 1001 (ackProbe ((d <<< 4) ||| 0x02)),
          (∀ d2, t ≠ resetWrite d2) ∧
          (∀ i, ns.length < i → i < 16 →
            t ≠ eraseWrite memoryType ((d <<< 4) ||| 0x02) i))) ∧
    (∃ ns : List Nat, ns.length ≤ 16 ∧ (∀ n ∈ ns, 1 ≤ n ∧ n ≤ 1001) ∧
      (((eraseChip bus memoryType tr).1 = 0 ∧ ns.length = 16 ∧
          (eraseChip bus memoryType tr).2
            = powercycle bus (resister_unprotect bus (tr ++ probes (d + 1))
                ++ pagesTrace memoryType ((d <<< 4) ||| 0x02) ns)) ∨
        ((eraseChip bus memoryType tr).1 = -1 ∧ ns.getLast? = some 1001 ∧
          (eraseChip bus memoryType tr).2
            = resister_unprotect bus (tr ++ probes (d + 1))
                ++ pagesTrace memoryType ((d <<< 4) ||| 0x02) ns ∧
          ∀ t ∈ (eraseChip bus memoryType tr).2, t ∈ tr ∨ ∀ d2, t ≠ resetWrite d2))) ∧
    (∀ ns : List Nat, pagesTrace memoryType ((d <<< 4) ||| 0x02) ns
      = (List.zipWith (fun i n =>
          Txn.write ((d <<< 4) ||| 0x02) [0xE3, eraseByte memoryType i] false
            :: List.replicate n (Txn.read ((d <<< 4) ||| 0x02) 0 false))
          (List.range 16) ns).flatten) ∧
    (∀ i, i < 16 → eraseByte greenPakMemory_t.NVM i = 0x80 ||| i ∧
      eraseByte greenPakMemory_t.EEPROM i = 0x90 ||| i) := by
  refine ⟨?_, eraseChip_shape bus memoryType tr d hd hfound hmt, fun _ => rfl,
    eraseByte_table⟩
  intro ns hlen hans
  obtain ⟨h1, h2⟩ := eraseChip_run bus memoryType tr d hd hfound hmt ns hlen hans
  refine ⟨h1, fun hl hex => ⟨?_, pages_stop memoryType _ hmt ns hl⟩⟩
  rw [h2 hl hex, List.append_assoc]

theorem eraseChip_pages_witness :
    eraseChip (onlyDevice 0x0B) greenPakMemory_t.NVM []
      = ((0 : Int), powercycle (onlyDevice 0x0B)
          (resister_unprotect (onlyDevice 0x0B) ([] ++ probes (0x0B + 1))
            ++ pagesTrace greenPakMemory_t.NVM ((0x0B <<< 4) ||| 0x02)
              (List.replicate 16 1))) ∧
    eraseChip stuckPage3 greenPakMemory_t.NVM []
      = (-1, resister_unprotect stuckPage3 ([] ++ probes (0 + 1))
          ++ (pagesTrace greenPakMemory_t.NVM ((0 <<< 4) ||| 0x02) [1, 1, 1]
            ++ eraseWrite greenPakMemory_t.NVM ((0 <<< 4) ||| 0x02) 3
              :: List.replicate 1001 (ackProbe ((0 <<< 4) ||| 0x02)))) := by
  constructor
  · refine ((eraseChip_pages (onlyDevice 0x0B) greenPakMemory_t.NVM [] 0x0B (by decide)
      (by decide) (by decide)).1 (List.replicate 16 1) (by decide) ?_).1 (by decide)
    intro i hi
    have hi16 : i < 16 := by simpa using hi
    have hn : (List.replicate 16 1).getD i 0 = 1 := by
      interval_cases i <;> rfl
    rw [hn]
    exact ⟨by decide, by decide, fun j hj => by omega, rfl⟩
  · refine (((eraseChip_pages stuckPage3 greenPakMemory_t.NVM [] 0 (by decide)
      (by decide) (by decide)).1 [1, 1, 1] (by decide) ?_).2 (by decide) ?_).1
    · intro i hi
      have hi3 : i < 3 := hi
      interval_cases i
      · exact ⟨by decide, by decide, fun j hj => by
          have hj2 : j + 1 < 1 := hj
          omega, by decide⟩
      · exact ⟨by decide, by decide, fun j hj => by
          have hj2 : j + 1 < 1 := hj
          omega, by decide⟩
      · exact ⟨by decide, by decide, fun j hj => by
          have hj2 : j + 1 < 1 := hj
          omega, by decide⟩
    · intro j _
      simp [stuckPage3, ackProbe, pollStart]

/-! ## The image `writeChip` sends -/

/-- With the device at `d` and a count of 16, `writeChip` sends the loaded image with the
change of `patchAddress`: every row write of the trace carries it. -/
theorem writeChip_image (bus : Bus) (files : LocalFiles) (ind : Indeterminate)
    (memoryType : greenPakMemory_t) (next : Int) (mem mem1 : Memory) (d : Nat)
    (hd : (checkSlaveAddres bus []).1 = d) (hfound : d ≠ 0xff)
    (hload : hexFileRead files ind memoryType mem = some (16, mem1)) :
    ∃ res tr,
      writeChip bus files ind memoryType next mem []
        = some (res, { buffer := mem1.buffer,
                       hexData := patchAddress memoryType next d mem1.hexData }, tr) ∧
      (∀ t ∈ tr, isRowWrite t = true → ∃ i, i < 16 ∧
        t = rowWrite ((d <<< 4) ||| blockAddress memoryType)
          (patchAddress memoryType next d mem1.hexData) i) ∧
      (res = 0 → ∀ i, i < 16 →
        rowWrite ((d <<< 4) ||| blockAddress memoryType)
          (patchAddress memoryType next d mem1.hexData) i ∈ tr) := by
  obtain ⟨hlt, hrun⟩ := writeChip_found bus files ind memoryType next mem d hd hfound
  rw [hload] at hrun
  dsimp only at hrun
  rw [if_neg (by decide)] at hrun
  obtain ⟨-, hno⟩ := setup_cases bus memoryType d
  obtain ⟨newE, newW, newT, htr, -, hnoE, hnoT, hW, hok⟩ := writeChipRows_shape bus
    memoryType d (patchAddress memoryType next d mem1.hexData)
    (if memoryType = greenPakMemory_t.NVM
      then resister_unprotect bus (probes (d + 1)) else probes (d + 1))
  refine ⟨_, _, hrun, ?_, ?_⟩
  · intro t ht hrow
    rw [htr] at ht
    have hcontra : ∀ {P : Prop}, isRowWrite t = false → P := by
      intro P hf
      rw [hf] at hrow
      cases hrow
    rcases List.mem_append.mp ht with ht | ht
    · rcases List.mem_append.mp ht with ht | ht
      · rcases List.mem_append.mp ht with ht | ht
        · exact hcontra (hno t ht)
        · exact hcontra (hnoE t ht)
      · rcases hW t ht with ⟨i, hi, e⟩ | e | e
        · exact ⟨i, hi, e⟩
        · exact hcontra (by rw [e]; rfl)
        · exact hcontra (by rw [e]; rfl)
    · exact hcontra (hnoT t ht)
  · intro h0 i hi
    have := hok h0 i hi
    rw [htr]
    simp only [List.mem_append]
    exact Or.inl (Or.inr this)

/-- C18: for `writeChip(RESISTER)` on a device discovered at address `d` (the image is
loaded from `NVM.hex`), the byte at row `0xC`, column `0xA` is sent as `(b & 0xF0) | d`,
where `b` is the loaded byte, whatever new address was requested, and all other bytes are
sent as loaded; for `writeChip(EEPROM)` (the image is loaded from `EEPROM.hex`) all 256
bytes, this one included, are sent as loaded.  Each half needs the load of its own file
only. -/
theorem writeChip_register_eeprom_image (bus : Bus) (files : LocalFiles)
    (ind : Indeterminate) (next : Int) (mem : Memory) (d : Nat)
    (hd : (checkSlaveAddres bus []).1 = d) (hfound : d ≠ 0xff) :
    (∀ memR : Memory,
      hexFileRead files ind greenPakMemory_t.RESISTER mem = some (16, memR) →
      ∃ res mem2 tr,
        writeChip bus files ind greenPakMemory_t.RESISTER next mem [] = some (res, mem2, tr) ∧
        mem2.hexData 0xC 0xA = (memR.hexData 0xC 0xA &&& 0xF0) ||| d ∧
        (∀ r c, ¬ (r = 0xC ∧ c = 0xA) → mem2.hexData r c = memR.hexData r c) ∧
        (∀ t ∈ tr, isRowWrite t = true → ∃ i, i < 16 ∧
          t = Txn.write ((d <<< 4) ||| 0x02)
            (((i <<< 4) % 256) :: (List.range 16).map (fun j => mem2.hexData i j)) false) ∧
        (res = 0 → ∀ i, i < 16 →
          Txn.write ((d <<< 4) ||| 0x02)
            (((i <<< 4) % 256) :: (List.range 16).map (fun j => mem2.hexData i j)) false
              ∈ tr)) ∧
    (∀ memE : Memory,
      hexFileRead files ind greenPakMemory_t.EEPROM mem = some (16, memE) →
      ∃ res mem2 tr,
        writeChip bus files ind greenPakMemory_t.EEPROM next mem [] = some (res, mem2, tr) ∧
        (∀ r c, mem2.hexData r c = memE.hexData r c) ∧
        (∀ t ∈ tr, isRowWrite t = true → ∃ i, i < 16 ∧
          t = Txn.write ((d <<< 4) ||| 0x06)
            (((i <<< 4) % 256) :: (List.range 16).map (fun j => memE.hexData i j)) false) ∧
        (res = 0 → ∀ i, i < 16 →
          Txn.write ((d <<< 4) ||| 0x06)
            (((i <<< 4) % 256) :: (List.range 16).map (fun j => memE.hexData i j)) false
              ∈ tr)) := by
  have hlt : d < 16 := by
    obtain ⟨h, -⟩ := checkSlaveAddres_found bus [] (hd ▸ hfound)
    rw [hd] at h
    exact h
  constructor
  · intro memR hloadR
    obtain ⟨res, tr, hrun, hrows, hok⟩ := writeChip_image bus files ind
      greenPakMemory_t.RESISTER next mem memR d hd hfound hloadR
    obtain ⟨p1, -, -⟩ := patch_byte (memR.hexData 0xC 0xA) d hlt
    refine ⟨res, _, tr, hrun, ?_, ?_, hrows, hok⟩
    · show patchAddress greenPakMemory_t.RESISTER next d memR.hexData 0xC 0xA = _
      simp only [patchAddress, setCell, and_self, if_true]
      exact p1
    · intro r c hrc
      show patchAddress greenPakMemory_t.RESISTER next d memR.hexData r c = _
      simp only [patchAddress, setCell, hrc, if_false]
  · intro memE hloadE
    obtain ⟨res, tr, hrun, hrows, hok⟩ := writeChip_image bus files ind
      greenPakMemory_t.EEPROM next mem memE d hd hfound hloadE
    exact ⟨res, _, tr, hrun, fun _ _ => rfl, hrows, hok⟩

set_option maxRecDepth 100000 in
theorem writeChip_register_eeprom_image_witness :
    (hexFileRead nvmOnly zeroIndeterminate greenPakMemory_t.EEPROM zeroMemory).map Prod.fst
      = some 0 ∧
    (∃ memR res mem2 tr,
      hexFileRead nvmOnly zeroIndeterminate greenPakMemory_t.RESISTER zeroMemory
        = some (16, memR) ∧
      writeChip (onlyDevice 0x0B) nvmOnly zeroIndeterminate greenPakMemory_t.RESISTER 0x5
        zeroMemory [] = some (res, mem2, tr) ∧
      mem2.hexData 0xC 0xA = (memR.hexData 0xC 0xA &&& 0xF0) ||| 0x0B ∧
      (∀ r c, ¬ (r = 0xC ∧ c = 0xA) → mem2.hexData r c = memR.hexData r c)) ∧
    (hexFileRead eepromOnly zeroIndeterminate greenPakMemory_t.NVM zeroMemory).map Prod.fst
      = some 0 ∧
    (∃ memE res mem2 tr,
      hexFileRead eepromOnly zeroIndeterminate greenPakMemory_t.EEPROM zeroMemory
        = some (16, memE) ∧
      writeChip (onlyDevice 0x0B) eepromOnly zeroIndeterminate greenPakMemory_t.EEPROM 0x5
        zeroMemory [] = some (res, mem2, tr) ∧
      (∀ r c, mem2.hexData r c = memE.hexData r c)) := by
  obtain ⟨memR, hloadR, -⟩ := hexFileRead_records nvmOnly zeroIndeterminate
    greenPakMemory_t.RESISTER zeroMemory exampleRecords [exampleEnd]
    (by decide) (by decide) (by decide) (by decide)
  obtain ⟨memE, hloadE, -⟩ := hexFileRead_records eepromOnly zeroIndeterminate
    greenPakMemory_t.EEPROM zeroMemory exampleRecords [exampleEnd]
    (by decide) (by decide) (by decide) (by decide)
  have hlen : exampleRecords.length % 256 = 16 := by decide
  rw [hlen] at hloadR hloadE
  obtain ⟨res, mem2, tr, hrun, h1, h2, -⟩ := (writeChip_register_eeprom_image
    (onlyDevice 0x0B) nvmOnly zeroIndeterminate 0x5 zeroMemory 0x0B
    (by decide) (by decide)).1 memR hloadR
  obtain ⟨resE, memE2, trE, hrunE, hE, -⟩ := (writeChip_register_eeprom_image
    (onlyDevice 0x0B) eepromOnly zeroIndeterminate 0x5 zeroMemory 0x0B
    (by decide) (by decide)).2 memE hloadE
  exact ⟨by decide, ⟨memR, res, mem2, tr, hloadR, hrun, h1, h2⟩, by decide,
    ⟨memE, resE, memE2, trE, hloadE, hrunE, hE⟩⟩

/-! ## Malformed digits and the clearing loops -/

theorem atoh2Chars_not_hex (c0 c1 : Nat)
    (h : isHexDigit c0 = false ∨ isHexDigit c1 = false) : atoh2Chars c0 c1 = 0xff := by
  unfold atoh2Chars
  rcases h with h | h
  · simp [atoh1_not_hex c0 h]
  · simp [atoh1_not_hex c1 h]

/-- C19: `atoh1` gives `0xFF` for every character that is no hex digit and `atoh2` gives
`0xFF` when one of its two characters is none.  In a record with byte count `0x10` such a
data byte is stored as `0xFF`; the line is not given up: the record is counted and every
other byte of the record is stored with its value.  This holds for the record by itself
(`colonCase`) and for the scan of a whole line that holds the record. -/
theorem malformed_digit_sentinel :
    (∀ c, isHexDigit c = false → atoh1 c = 0xff) ∧
    (∀ c0 c1, isHexDigit c0 = false ∨ isHexDigit c1 = false → atoh2Chars c0 c1 = 0xff) ∧
    (∀ c0 c1, isHexDigit c0 = true → isHexDigit c1 = true →
      atoh2Chars c0 c1 = 16 * refDigit c0 + refDigit c1) ∧
    (∀ (buffer : Nat → Nat) (p ans : Nat) (h : HexData), p + 40 ≤ 100 →
      atoh2Chars (buffer p) (buffer (p + 1)) = 0x10 →
      ∃ h1, colonCase buffer p ans h = some (p + 40, (ans + 1) % 256, h1) ∧
        ∀ j, j < 16 →
          h1 (rowOfByte (atoh2Chars (buffer (p + 4)) (buffer (p + 5)))) j
            = if isHexDigit (buffer (p + 8 + 2 * j)) = true ∧
                isHexDigit (buffer (p + 8 + 2 * j + 1)) = true
              then 16 * refDigit (buffer (p + 8 + 2 * j)) + refDigit (buffer (p + 8 + 2 * j + 1))
              else 0xff) ∧
    (∀ (line : List Nat) (buffer : Nat → Nat) (ans : Nat) (h : HexData),
      RecordLine line → lineByteCount line = 0x10 →
      ∃ h1, scanBuffer (storeLine line buffer) Z_bufferNumber 0 ans h
          = some ((ans + 1) % 256, h1) ∧
        ∀ j, j < 16 →
          h1 (lineRow line) j
            = if isHexDigit (line.getD (9 + 2 * j) 0) = true ∧
                isHexDigit (line.getD (9 + 2 * j + 1) 0) = true
              then 16 * refDigit (line.getD (9 + 2 * j) 0)
                + refDigit (line.getD (9 + 2 * j + 1) 0)
              else 0xff) ∧
    ((scanBuffer (storeLine malformedLine zeroMemory.buffer) Z_bufferNumber 0 0
        zeroMemory.hexData).map (fun r => (r.1, (List.range 16).map (fun j => r.2 3 j)))
      = some (1, [0x01, 0x02, 0xFF, 0x04, 0x05, 0x06, 0x07, 0x08, 0x09, 0x00, 0x0A, 0x0B,
          0x0C, 0x0D, 0x0E, 0x0F])) := by
  have hbyte : ∀ c0 c1, atoh2Chars c0 c1
      = if isHexDigit c0 = true ∧ isHexDigit c1 = true
        then 16 * refDigit c0 + refDigit c1 else 0xff := by
    intro c0 c1
    by_cases h : isHexDigit c0 = true ∧ isHexDigit c1 = true
    · rw [if_pos h, atoh2Chars_hex c0 c1 h.1 h.2, refByte]
    · rw [if_neg h]
      apply atoh2Chars_not_hex
      by_cases h0 : isHexDigit c0 = true
      · right
        cases h1 : isHexDigit c1 with
        | false => rfl
        | true => exact absurd ⟨h0, h1⟩ h
      · left
        cases h1 : isHexDigit c0 with
        | false => rfl
        | true => exact absurd h1 h0
  refine ⟨atoh1_not_hex, atoh2Chars_not_hex, ?_, ?_, ?_, by decide⟩
  · intro c0 c1 h0 h1
    rw [atoh2Chars_hex c0 c1 h0 h1, refByte]
  · intro buffer p ans h hp hb
    refine ⟨_, colonCase_data buffer p ans h hp hb, ?_⟩
    intro j hj
    simp only [hj, and_self, if_true]
    exact hbyte _ _
  · intro line buffer ans h hl hb
    refine ⟨lineEffect line h, by
      rw [scanBuffer_recordLine line buffer ans h hl]
      simp only [lineCount, hb, if_true], ?_⟩
    intro j hj
    simp only [lineEffect, hb, if_true, hj, and_self, lineByte]
    exact hbyte _ _

set_option maxRecDepth 100000 in
/-- C20 on the code: with loop variables that start at 16 the clearing loops of
`hexFileRead` clear nothing, and with a `j` that keeps its 16 from the first inner loop
they clear row 0 only: after a load of the example file without its last data line (rows
0 to 14), and also when the file is absent, row 15 still holds what the image held
before. -/
theorem hexFileRead_keeps_old_image :
    (hexFileRead { nvm := some shortFile, eeprom := none } staleIndeterminate
        greenPakMemory_t.NVM usedMemory).map
      (fun r => (r.1, (List.range 16).map (fun j => r.2.hexData 15 j)))
      = some (15, List.replicate 16 0xA5) ∧
    (hexFileRead { nvm := some shortFile, eeprom := none } reusedIndeterminate
        greenPakMemory_t.NVM usedMemory).map
      (fun r => (r.1, (List.range 16).map (fun j => r.2.hexData 15 j)))
      = some (15, List.replicate 16 0xA5) ∧
    (hexFileRead noFiles staleIndeterminate greenPakMemory_t.NVM usedMemory).map
      (fun r => (r.1, r.2.hexData 15 15)) = some (0, 0xA5) ∧
    (hexFileRead { nvm := some shortFile, eeprom := none } zeroIndeterminate
        greenPakMemory_t.NVM usedMemory).map
      (fun r => (r.1, (List.range 16).map (fun j => r.2.hexData 15 j)))
      = some (15, List.replicate 16 0x00) := by
  refine ⟨by decide, by decide, by decide, by decide⟩

/-! ## The polls of the row loop -/

/-- The exact trace of the row loop: for every row written with acknowledgment its row
write and its polling probes, and behind them nothing or a row write without acknowledgment
and `Wire.stop()`. -/
theorem writeRows_cases (bus : Bus) (cc a : Nat) (h : HexData) :
    ∀ (is : List Nat) (tr : List Txn),
      ∃ (ns : List Nat) (rest : List Txn), ns.length ≤ is.length ∧
        (∀ n ∈ ns, 1 ≤ n ∧ n ≤ 1001) ∧
        (writeRows bus cc a h is tr).2
          = tr ++ (List.zipWith (fun i n => rowWrite cc h i
              :: List.replicate n (ackProbe a)) is ns).flatten ++ rest ∧
        (rest = [] ∨ ∃ k ∈ is, rest = [rowWrite cc h k, Txn.stop]) := by
  intro is
  induction is with
  | nil => intro tr; exact ⟨[], [], by simp, by simp, by simp [writeRows], Or.inl rfl⟩
  | cons i rest ih =>
    intro tr
    rw [writeRows_step]
    by_cases hb : bus tr (rowWrite cc h i) = false
    · rw [if_pos hb]
      exact ⟨[], [rowWrite cc h i, Txn.stop], by simp, by simp, by simp,
        Or.inr ⟨i, by simp, rfl⟩⟩
    · rw [if_neg hb]
      obtain ⟨n, hn1, hn2, hn, -⟩ := ackPolling_cases bus a (tr ++ [rowWrite cc h i])
      by_cases hp : (ackPolling bus a (tr ++ [rowWrite cc h i])).1 = -1
      · rw [if_pos hp]
        refine ⟨[n], [], by simp, ?_, by simp [hn], Or.inl rfl⟩
        intro m hm
        simp only [List.mem_singleton] at hm
        subst hm; exact ⟨hn1, hn2⟩
      · rw [if_neg hp]
        obtain ⟨ns, tl, hlen, hall, htr, htl⟩ := ih (ackPolling bus a (tr ++ [rowWrite cc h i])).2
        refine ⟨n :: ns, tl, by simp; omega, ?_, by rw [htr, hn]; simp, ?_⟩
        · intro m hm
          rcases List.mem_cons.mp hm with e | hm
          · subst e; exact ⟨hn1, hn2⟩
          · exact hall m hm
        · rcases htl with e | ⟨k, hk, e⟩
          · exact Or.inl e
          · exact Or.inr ⟨k, by simp [hk], e⟩

/-- The exact trace of `writeChipRows`: the erase step, the rows written with
acknowledgment with their polls, a row write without acknowledgment with `Wire.stop()` when
there is one, and the end. -/
theorem writeChipRows_cases (bus : Bus) (memoryType : greenPakMemory_t) (d : Nat)
    (h : HexData) (tr : List Txn) :
    ∃ (newE : List Txn) (ns : List Nat) (rest newT : List Txn),
      ns.length ≤ 16 ∧ (∀ n ∈ ns, 1 ≤ n ∧ n ≤ 1001) ∧
      (writeChipRows bus memoryType d h tr).2
        = tr ++ newE
          ++ rowsPolled ((d <<< 4) ||| blockAddress memoryType) (d <<< 4) h ns
          ++ rest ++ newT ∧
      (∀ t ∈ newE, isRowWrite t = false) ∧ (∀ t ∈ newT, isRowWrite t = false) ∧
      (rest = [] ∨ ∃ k, k < 16 ∧
        rest = [rowWrite ((d <<< 4) ||| blockAddress memoryType) h k, Txn.stop]) := by
  obtain ⟨newE, hE, hnoE⟩ := eraseStep_new bus memoryType tr
  simp only [writeChipRows]
  by_cases he : (if memoryType ≠ greenPakMemory_t.RESISTER then eraseChip bus memoryType tr
      else (0, tr)).1 ≠ 0
  · rw [if_pos he]
    exact ⟨newE, [], [], [], by simp, by simp, by simp only []; rw [hE]; simp [rowsPolled],
      hnoE, by simp, Or.inl rfl⟩
  · rw [if_neg he]
    obtain ⟨ns, tl, hlen, hall, hW, htl⟩ := writeRows_cases bus
      ((d <<< 4) ||| blockAddress memoryType) (d <<< 4) h (List.range 16)
      (if memoryType ≠ greenPakMemory_t.RESISTER then eraseChip bus memoryType tr
        else (0, tr)).2
    have htl' : tl = [] ∨ ∃ k, k < 16 ∧
        tl = [rowWrite ((d <<< 4) ||| blockAddress memoryType) h k, Txn.stop] := by
      rcases htl with e | ⟨k, hk, e⟩
      · exact Or.inl e
      · exact Or.inr ⟨k, List.mem_range.mp hk, e⟩
    by_cases hw : (writeRows bus ((d <<< 4) ||| blockAddress memoryType) (d <<< 4) h
        (List.range 16) (if memoryType ≠ greenPakMemory_t.RESISTER
          then eraseChip bus memoryType tr else (0, tr)).2).1 ≠ 0
    · rw [if_pos hw]
      refine ⟨newE, ns, tl, [], by simpa using hlen, hall, ?_, hnoE, by simp, htl'⟩
      simp only []
      rw [hW, hE]
      simp [rowsPolled]
    · rw [if_neg hw]
      obtain ⟨newT, hT, hnoT⟩ := tail_new bus memoryType
        (writeRows bus ((d <<< 4) ||| blockAddress memoryType) (d <<< 4) h
          (List.range 16) (if memoryType ≠ greenPakMemory_t.RESISTER
            then eraseChip bus memoryType tr else (0, tr)).2).2
      refine ⟨newE, ns, tl, newT, by simpa using hlen, hall, ?_, hnoE, hnoT, htl'⟩
      simp only []
      rw [hT, hW, hE]
      simp [rowsPolled]

theorem shift_ne_register : ∀ d, d < 16 → d <<< 4 ≠ (d <<< 4) ||| 0x02 := by
  decide

/-- C13, as the code has it: for a device discovered at address `d`, every polling probe of
the page loop of `eraseChip` (NVM, EEPROM) is a read of length zero at the control byte of
the register block, `(d << 4) | 0x02`; every polling probe of the row loop of `writeChip`
(NVM, EEPROM and Register alike) is a read of length zero at `d << 4`, the control byte of
the same device with block address bits 000, which is not `(d << 4) | 0x02`. -/
theorem ackPolling_addresses (bus : Bus) (files : LocalFiles) (ind : Indeterminate)
    (memoryType : greenPakMemory_t) (next : Int) (mem mem1 : Memory) (d : Nat)
    (hd : (checkSlaveAddres bus []).1 = d) (hfound : d ≠ 0xff)
    (hload : hexFileRead files ind memoryType mem = some (16, mem1)) :
    (memoryType ≠ greenPakMemory_t.RESISTER →
      ∃ (ns : List Nat) (post : List Txn), (∀ n ∈ ns, 1 ≤ n ∧ n ≤ 1001) ∧
        (eraseChip bus memoryType []).2
          = resister_unprotect bus ([] ++ probes (d + 1))
            ++ (List.zipWith (fun i n =>
                Txn.write ((d <<< 4) ||| 0x02) [0xE3, eraseByte memoryType i] false
                  :: List.replicate n (Txn.read ((d <<< 4) ||| 0x02) 0 false))
                (List.range 16) ns).flatten
            ++ post ∧
        (post = [] ∨ post = probes 16 ∨
          ∃ d2, d2 < 16 ∧ post = probes (d2 + 1) ++ [resetWrite d2])) ∧
    (∃ (res : Int) (mem2 : Memory) (tr pre : List Txn) (ns : List Nat) (rest post : List Txn),
      writeChip bus files ind memoryType next mem [] = some (res, mem2, tr) ∧
      (∀ n ∈ ns, 1 ≤ n ∧ n ≤ 1001) ∧
      tr = pre
        ++ (List.zipWith (fun i n =>
            Txn.write ((d <<< 4) ||| blockAddress memoryType) (rowBytes mem2.hexData i) false
              :: List.replicate n (Txn.read (d <<< 4) 0 false)) (List.range 16) ns).flatten
        ++ rest ++ post ∧
      (∀ t ∈ pre, isRowWrite t = false) ∧ (∀ t ∈ post, isRowWrite t = false) ∧
      (rest = [] ∨ ∃ k, k < 16 ∧
        rest = [Txn.write ((d <<< 4) ||| blockAddress memoryType)
          (rowBytes mem2.hexData k) false, Txn.stop])) ∧
    d <<< 4 ≠ (d <<< 4) ||| 0x02 := by
  have hlt : d < 16 := by
    obtain ⟨h, -⟩ := checkSlaveAddres_found bus [] (hd ▸ hfound)
    rw [hd] at h
    exact h
  refine ⟨?_, ?_, shift_ne_register d hlt⟩
  · intro hmt
    obtain ⟨ns, -, hall, hcases⟩ := eraseChip_shape bus memoryType [] d hd hfound hmt
    rcases hcases with ⟨-, -, htr⟩ | ⟨-, -, htr, -⟩
    · rcases powercycle_cases bus (resister_unprotect bus ([] ++ probes (d + 1))
          ++ pagesTrace memoryType ((d <<< 4) ||| 0x02) ns) with ⟨d2, hd2, -, hp⟩ | ⟨-, hp⟩
      · refine ⟨ns, probes (d2 + 1) ++ [resetWrite d2], hall, ?_, Or.inr (Or.inr ⟨d2, hd2, rfl⟩)⟩
        rw [htr, hp]
        simp [pagesTrace, eraseWrite, ackProbe, resetWrite]
      · refine ⟨ns, probes 16, hall, ?_, Or.inr (Or.inl rfl)⟩
        rw [htr, hp]
        simp [pagesTrace, eraseWrite, ackProbe]
    · refine ⟨ns, [], hall, ?_, Or.inl rfl⟩
      rw [htr]
      simp [pagesTrace, eraseWrite, ackProbe]
  · obtain ⟨-, hrun⟩ := writeChip_found bus files ind memoryType next mem d hd hfound
    rw [hload] at hrun
    dsimp only at hrun
    rw [if_neg (by decide)] at hrun
    obtain ⟨-, hno⟩ := setup_cases bus memoryType d
    obtain ⟨newE, ns, tl, newT, -, hall, htr, hnoE, hnoT, htl⟩ := writeChipRows_cases bus
      memoryType d (patchAddress memoryType next d mem1.hexData)
      (if memoryType = greenPakMemory_t.NVM
        then resister_unprotect bus (probes (d + 1)) else probes (d + 1))
    refine ⟨_, _, _, (if memoryType = greenPakMemory_t.NVM
        then resister_unprotect bus (probes (d + 1)) else probes (d + 1)) ++ newE,
      ns, tl, newT, hrun, hall, ?_, ?_, hnoT, htl⟩
    · rw [htr]
      rfl
    · intro t ht
      rcases List.mem_append.mp ht with ht | ht
      · exact hno t ht
      · exact hnoE t ht

set_option maxRecDepth 100000 in
theorem ackPolling_addresses_witness :
    ∃ mem1, hexFileRead exampleFiles zeroIndeterminate greenPakMemory_t.NVM zeroMemory
        = some (16, mem1) ∧
      0x0B <<< 4 ≠ (0x0B <<< 4) ||| 0x02 ∧
      ∃ (res : Int) (mem2 : Memory) (tr pre : List Txn) (ns : List Nat)
          (rest post : List Txn),
        writeChip (onlyDevice 0x0B) exampleFiles zeroIndeterminate greenPakMemory_t.NVM 0x5
          zeroMemory [] = some (res, mem2, tr) ∧
        (∀ n ∈ ns, 1 ≤ n ∧ n ≤ 1001) ∧
        tr = pre
          ++ (List.zipWith (fun i n =>
              Txn.write ((0x0B <<< 4) ||| blockAddress greenPakMemory_t.NVM)
                  (rowBytes mem2.hexData i) false
                :: List.replicate n (Txn.read (0x0B <<< 4) 0 false))
              (List.range 16) ns).flatten
          ++ rest ++ post := by
  obtain ⟨mem1, hload, -⟩ := hexFileRead_records exampleFiles zeroIndeterminate
    greenPakMemory_t.NVM zeroMemory exampleRecords [exampleEnd]
    (by decide) (by decide) (by decide) (by decide)
  have hlen : exampleRecords.length % 256 = 16 := by decide
  rw [hlen] at hload
  obtain ⟨-, ⟨res, mem2, tr, pre, ns, rest, post, hrun, hall, htr, -⟩, hne⟩ :=
    ackPolling_addresses (onlyDevice 0x0B) exampleFiles zeroIndeterminate
      greenPakMemory_t.NVM 0x5 zeroMemory mem1 0x0B (by decide) (by decide) hload
  exact ⟨mem1, hload, hne, res, mem2, tr, pre, ns, rest, post, hrun, hall, htr⟩

set_option maxRecDepth 100000 in
/-- C13 fails as stated: on a bus on which everything is acknowledged the device is found
at address 0, and the poll behind the first row write of `writeChip(RESISTER)` is a read at
`0x00`, not at the control byte `0x02` of the register block. -/
theorem writeChip_polls_block_zero :
    (checkSlaveAddres alwaysAck []).1 = 0 ∧
    ((writeChip alwaysAck exampleFiles zeroIndeterminate greenPakMemory_t.RESISTER
        defaultNextSlaveAddress zeroMemory []).map (fun r => r.2.2.take 3)).getD []
      = [Txn.read 0x02 0 false,
         Txn.write 0x02 [0, 159, 7, 0, 61, 15, 0, 0, 0, 0, 0, 0, 0, 0, 0, 0, 0] false,
         Txn.read 0x00 0 false] ∧
    Txn.read 0x00 0 false ≠ Txn.read ((0 <<< 4) ||| 0x02) 0 false := by
  refine ⟨by decide, by decide, by decide⟩

/-! ## The end of the row loop -/

/-- The three ways the row loop ends: every row written and polled with success (the last
transaction is then a polling probe), a row write without acknowledgment followed by
`Wire.stop()`, or a poll that used all 1001 probes, with nothing behind it. -/
theorem writeRows_outcome (bus : Bus) (cc a : Nat) (h : HexData) :
    ∀ (is : List Nat) (tr : List Txn),
      ∃ body : List Txn,
        ((writeRows bus cc a h is tr).1 = 0 ∧ (writeRows bus cc a h is tr).2 = tr ++ body ∧
          ((is = [] ∧ body = []) ∨ ∃ b0, body = b0 ++ [ackProbe a])) ∨
        ((writeRows bus cc a h is tr).1 = -1 ∧ ∃ k ∈ is,
          (writeRows bus cc a h is tr).2 = tr ++ body ++ [rowWrite cc h k, Txn.stop] ∧
          bus (tr ++ body) (rowWrite cc h k) = false) ∨
        ((writeRows bus cc a h is tr).1 = -1 ∧ ∃ k ∈ is,
          (writeRows bus cc a h is tr).2
            = tr ++ body ++ rowWrite cc h k :: List.replicate 1001 (ackProbe a) ∧
          (ackPolling bus a (tr ++ body ++ [rowWrite cc h k])).1 = -1) := by
  intro is
  induction is with
  | nil => intro tr; exact ⟨[], Or.inl ⟨by simp [writeRows], by simp [writeRows], Or.inl ⟨rfl, rfl⟩⟩⟩
  | cons i rest ih =>
    intro tr
    rw [writeRows_step]
    by_cases hb : bus tr (rowWrite cc h i) = false
    · rw [if_pos hb]
      exact ⟨[], Or.inr (Or.inl ⟨rfl, i, by simp, by simp, by simpa using hb⟩)⟩
    · rw [if_neg hb]
      obtain ⟨n, hn1, hn2, hn, hres⟩ := ackPolling_cases bus a (tr ++ [rowWrite cc h i])
      by_cases hp : (ackPolling bus a (tr ++ [rowWrite cc h i])).1 = -1
      · rw [if_pos hp]
        have hn3 : n = 1001 := by
          rcases hres with h0 | ⟨-, e⟩
          · rw [h0] at hp; exact absurd hp (by decide)
          · exact e
        refine ⟨[], Or.inr (Or.inr ⟨rfl, i, by simp, ?_, ?_⟩)⟩
        · show (ackPolling bus a (tr ++ [rowWrite cc h i])).2 = _
          rw [hn, hn3]
          simp only [List.append_nil, List.append_assoc, List.singleton_append]
        · rw [List.append_nil]; exact hp
      · rw [if_neg hp]
        obtain ⟨body, hcases⟩ := ih (ackPolling bus a (tr ++ [rowWrite cc h i])).2
        refine ⟨rowWrite cc h i :: List.replicate n (ackProbe a) ++ body, ?_⟩
        have hpre : tr ++ (rowWrite cc h i :: List.replicate n (ackProbe a) ++ body)
            = (ackPolling bus a (tr ++ [rowWrite cc h i])).2 ++ body := by
          rw [hn]; simp
        rcases hcases with ⟨h0, htr, hlast⟩ | ⟨h1, k, hk, htr, hbk⟩ | ⟨h1, k, hk, htr, hpk⟩
        · refine Or.inl ⟨h0, by rw [htr, hpre], Or.inr ?_⟩
          rcases hlast with ⟨-, e⟩ | ⟨b0, e⟩
          · subst e
            obtain ⟨m, rfl⟩ : ∃ m, n = m + 1 := ⟨n - 1, by omega⟩
            refine ⟨rowWrite cc h i :: List.replicate m (ackProbe a), ?_⟩
            simp [List.replicate_succ']
          · subst e
            exact ⟨rowWrite cc h i :: List.replicate n (ackProbe a) ++ b0, by simp⟩
        · refine Or.inr (Or.inl ⟨h1, k, by simp [hk], by rw [htr, hpre], ?_⟩)
          rw [hpre]; exact hbk
        · refine Or.inr (Or.inr ⟨h1, k, by simp [hk], by rw [htr, hpre], ?_⟩)
          rw [hpre]; exact hpk

/-- The four ways `writeChipRows` ends: without a row write (the erase step failed), with
`Wire.stop()` behind the poll of the last row (and `powercycle` behind it for NVM), with
`Wire.stop()` behind a row write without acknowledgment, or with the 1001st probe of a poll
that gave up. -/
theorem writeChipRows_outcome (bus : Bus) (memoryType : greenPakMemory_t) (d : Nat)
    (h : HexData) (tr : List Txn) :
    ((writeChipRows bus memoryType d h tr).1 = -1 ∧
      ∃ new, (writeChipRows bus memoryType d h tr).2 = tr ++ new ∧
        ∀ t ∈ new, isRowWrite t = false) ∨
    ∃ pre0 : List Txn,
      ((writeChipRows bus memoryType d h tr).1 = 0 ∧
        (writeChipRows bus memoryType d h tr).2
          = (if memoryType = greenPakMemory_t.NVM
              then powercycle bus (tr ++ pre0 ++ [ackProbe (d <<< 4), Txn.stop])
              else tr ++ pre0 ++ [ackProbe (d <<< 4), Txn.stop])) ∨
      ((writeChipRows bus memoryType d h tr).1 = -1 ∧ ∃ k, k < 16 ∧
        (writeChipRows bus memoryType d h tr).2
          = tr ++ pre0 ++ [rowWrite ((d <<< 4) ||| blockAddress memoryType) h k, Txn.stop] ∧
        bus (tr ++ pre0) (rowWrite ((d <<< 4) ||| blockAddress memoryType) h k) = false) ∨
      ((writeChipRows bus memoryType d h tr).1 = -1 ∧ ∃ k, k < 16 ∧
        (writeChipRows bus memoryType d h tr).2
          = tr ++ pre0 ++ rowWrite ((d <<< 4) ||| blockAddress memoryType) h k
              :: List.replicate 1001 (ackProbe (d <<< 4)) ∧
        (ackPolling bus (d <<< 4)
          (tr ++ pre0 ++ [rowWrite ((d <<< 4) ||| blockAddress memoryType) h k])).1 = -1) := by
  obtain ⟨newE, hE, hnoE⟩ := eraseStep_new bus memoryType tr
  simp only [writeChipRows]
  by_cases he : (if memoryType ≠ greenPakMemory_t.RESISTER then eraseChip bus memoryType tr
      else (0, tr)).1 ≠ 0
  · rw [if_pos he]
    exact Or.inl ⟨rfl, newE, hE, hnoE⟩
  · rw [if_neg he]
    right
    rw [hE]
    obtain ⟨body, hcases⟩ := writeRows_outcome bus
      ((d <<< 4) ||| blockAddress memoryType) (d <<< 4) h (List.range 16) (tr ++ newE)
    rcases hcases with ⟨h0, htr, hlast⟩ | ⟨h1, k, hk, htr, hbk⟩ | ⟨h1, k, hk, htr, hpk⟩
    · have hw : ¬ (writeRows bus ((d <<< 4) ||| blockAddress memoryType) (d <<< 4) h
          (List.range 16) (tr ++ newE)).1 ≠ 0 := by
        rw [h0]; decide
      rw [if_neg hw]
      rcases hlast with ⟨e, -⟩ | ⟨b0, e⟩
      · exact absurd e (by decide)
      · subst e
        refine ⟨newE ++ b0, Or.inl ⟨rfl, ?_⟩⟩
        simp only []
        rw [htr]
        simp
    · have hw : (writeRows bus ((d <<< 4) ||| blockAddress memoryType) (d <<< 4) h
          (List.range 16) (tr ++ newE)).1 ≠ 0 := by
        rw [h1]; decide
      rw [if_pos hw]
      refine ⟨newE ++ body, Or.inr (Or.inl ⟨rfl, k, List.mem_range.mp hk, ?_, ?_⟩)⟩
      · simp only []
        rw [htr]
        simp
      · rw [← List.append_assoc]; exact hbk
    · have hw : (writeRows bus ((d <<< 4) ||| blockAddress memoryType) (d <<< 4) h
          (List.range 16) (tr ++ newE)).1 ≠ 0 := by
        rw [h1]; decide
      rw [if_pos hw]
      refine ⟨newE ++ body, Or.inr (Or.inr ⟨rfl, k, List.mem_range.mp hk, ?_, ?_⟩)⟩
      · simp only []
        rw [htr]
        simp only [List.append_assoc]
      · rw [← List.append_assoc]; exact hpk

/-! ## C11: the stop at the end of a run of `writeChip` -/

theorem writeChipRows_register (bus : Bus) (d : Nat) (h : HexData) (tr : List Txn) :
    writeChipRows bus greenPakMemory_t.RESISTER d h tr
      = if (writeRows bus ((d <<< 4) ||| 0x02) (d <<< 4) h (List.range 16) tr).1 ≠ 0
        then (-1, (writeRows bus ((d <<< 4) ||| 0x02) (d <<< 4) h (List.range 16) tr).2)
        else (0, (writeRows bus ((d <<< 4) ||| 0x02) (d <<< 4) h (List.range 16) tr).2
          ++ [Txn.stop]) := by
  simp [writeChipRows, blockAddress, RESISTER_CONFIG]

theorem unpolled_rows (h : HexData) :
    writeChipRows unpolled greenPakMemory_t.RESISTER 0 h (probes 1)
      = (-1, Txn.read 0x02 0 false :: Txn.write 0x02 (rowBytes h 0) false
          :: List.replicate 1001 (Txn.read 0x00 0 false)) := by
  have hr : List.range 16 = 0 :: List.range' 1 15 := by decide
  have hp : ackPolling unpolled 0 (probes 1 ++ [rowWrite 0x02 h 0])
      = (-1, probes 1 ++ [rowWrite 0x02 h 0] ++ List.replicate 1001 (ackProbe 0)) :=
    ackPollingLoop_nack unpolled 0 1000 (probes 1 ++ [rowWrite 0x02 h 0]) (fun _ _ => rfl)
  have hstep := writeRows_step unpolled 0x02 0 h 0 (List.range' 1 15) (probes 1)
  rw [if_neg (by simp [unpolled, rowWrite]), hp, if_pos rfl] at hstep
  have hw : writeRows unpolled ((0 <<< 4) ||| 0x02) (0 <<< 4) h (List.range 16) (probes 1)
      = (-1, probes 1 ++ [rowWrite 0x02 h 0] ++ List.replicate 1001 (ackProbe 0)) := by
    rw [hr]; exact hstep
  rw [writeChipRows_register, hw, if_pos (show (-1 : Int) ≠ 0 by decide)]
  rfl

set_option maxRecDepth 100000 in
/-- C11 on the code: when the poll behind a row write gives up, `writeChip` returns `-1`
without `Wire.stop()`.  On a bus on which the device at address 0 answers everything but
the poll of the row loop, `writeChip(RESISTER)` writes row 0, polls 1001 times and returns
`-1`: its transactions are the discovery probe, the row write and the 1001 probes of the
poll, with no `Wire.stop()` among them.  The two other ends of the row loop do release the
bus: on a bus that refuses the write of row 7, `writeChip(EEPROM)` returns `-1` with
`Wire.stop()` as its last action, and on a bus on which everything is acknowledged it
returns `0` with `Wire.stop()` as its last action. -/
theorem writeChip_returns_without_stop :
    (∃ (mem2 : Memory) (tr : List Txn),
      writeChip unpolled exampleFiles zeroIndeterminate greenPakMemory_t.RESISTER
        defaultNextSlaveAddress zeroMemory [] = some (-1, mem2, tr) ∧
      tr = Txn.read 0x02 0 false :: Txn.write 0x02 (rowBytes mem2.hexData 0) false
        :: List.replicate 1001 (Txn.read 0x00 0 false) ∧
      Txn.stop ∉ tr) ∧
    (writeChip nackRow7 exampleFiles zeroIndeterminate greenPakMemory_t.EEPROM
        defaultNextSlaveAddress zeroMemory []).map (fun r => (r.1, r.2.2.getLast?))
      = some (-1, some Txn.stop) ∧
    (writeChip alwaysAck exampleFiles zeroIndeterminate greenPakMemory_t.EEPROM
        defaultNextSlaveAddress zeroMemory []).map (fun r => (r.1, r.2.2.getLast?))
      = some (0, some Txn.stop) := by
  refine ⟨?_, by decide, by decide⟩
  obtain ⟨mem1, hload, -⟩ := hexFileRead_records exampleFiles zeroIndeterminate
    greenPakMemory_t.RESISTER zeroMemory exampleRecords [exampleEnd]
    (by decide) (by decide) (by decide) (by decide)
  have hlen : exampleRecords.length % 256 = 16 := by decide
  rw [hlen] at hload
  obtain ⟨-, hrun⟩ := writeChip_found unpolled exampleFiles zeroIndeterminate
    greenPakMemory_t.RESISTER defaultNextSlaveAddress zeroMemory 0 (by decide) (by decide)
  rw [hload] at hrun
  dsimp only at hrun
  rw [if_neg (by decide), if_neg (by decide), unpolled_rows] at hrun
  refine ⟨_, _, hrun, rfl, ?_⟩
  intro hm
  rcases List.mem_cons.mp hm with e | hm
  · cases e
  · rcases List.mem_cons.mp hm with e | hm
    · cases e
    · cases List.eq_of_mem_replicate hm

/-! ## A device that acknowledges everything -/

theorem controlByte_device : ∀ d, d < 16 → ∀ b, b < 8 → (((d <<< 4) ||| b) >>> 4 == d) = true := by
  decide

theorem acknowledges_read (bus : Bus) (d : Nat) (hd : d < 16) (hb : Acknowledges bus d)
    (b : Nat) (hlt : b < 8) (tr : List Txn) (n : Nat) (r : Bool) :
    bus tr (Txn.read ((d <<< 4) ||| b) n r) = true :=
  hb.2 tr _ (controlByte_device d hd b hlt)

theorem acknowledges_write (bus : Bus) (d : Nat) (hd : d < 16) (hb : Acknowledges bus d)
    (b : Nat) (hlt : b < 8) (tr : List Txn) (data : List Nat) (r : Bool) :
    bus tr (Txn.write ((d <<< 4) ||| b) data r) = true :=
  hb.2 tr _ (controlByte_device d hd b hlt)

theorem checkSlaveAddres_acknowledged (bus : Bus) (d : Nat) (hd : d < 16)
    (hb : Acknowledges bus d) (tr : List Txn) :
    checkSlaveAddres bus tr = (d, tr ++ probes (d + 1)) := by
  have hpd : ∀ tr1, bus tr1 (probe d) = true := fun tr1 =>
    acknowledges_read bus d hd hb RESISTER_CONFIG (by decide) tr1 0 false
  rcases checkSlaveAddres_cases bus tr with ⟨i, hi, hres, hack, hnack⟩ | ⟨-, hnack⟩
  · have hid : i = d := by
      rcases Nat.lt_trichotomy i d with h | h | h
      · rw [hb.1 _ i h] at hack; cases hack
      · exact h
      · have := hnack d h
        rw [hpd] at this; cases this
    rw [hres, hid]
  · have := hnack d hd
    rw [hpd] at this; cases this

theorem ackPolling_acked (bus : Bus) (a : Nat) (tr : List Txn)
    (h : bus tr (ackProbe a) = true) : ackPolling bus a tr = (0, tr ++ [ackProbe a]) := by
  have := ackPollingLoop_ack bus a 0 1000 tr (by omega) (by intro j hj; omega)
    (by simpa using h)
  simpa [ackPolling] using this

theorem resister_unprotect_acknowledged (bus : Bus) (d : Nat) (hd : d < 16)
    (hb : Acknowledges bus d) (tr : List Txn) :
    resister_unprotect bus tr = tr ++ (probes (d + 1) ++ unprotectTxns d) := by
  rcases resister_unprotect_cases bus tr with ⟨d2, -, h1, h2⟩ | ⟨h1, -⟩
  · rw [checkSlaveAddres_acknowledged bus d hd hb] at h1
    have e : d = d2 := h1
    rw [h2, ← e, List.append_assoc]
  · rw [checkSlaveAddres_acknowledged bus d hd hb] at h1
    have e : d = 0xff := h1
    omega

theorem powercycle_acknowledged (bus : Bus) (d : Nat) (hd : d < 16)
    (hb : Acknowledges bus d) (tr : List Txn) :
    powercycle bus tr = tr ++ (probes (d + 1) ++ [resetWrite d]) := by
  rcases powercycle_cases bus tr with ⟨d2, -, h1, h2⟩ | ⟨h1, -⟩
  · rw [checkSlaveAddres_acknowledged bus d hd hb] at h1
    have e : d = d2 := h1
    rw [h2, ← e, List.append_assoc]
    rfl
  · rw [checkSlaveAddres_acknowledged bus d hd hb] at h1
    have e : d = 0xff := h1
    omega

theorem erasePages_acked (bus : Bus) (memoryType : greenPakMemory_t) (cc : Nat)
    (hack : ∀ tr, bus tr (ackProbe cc) = true) :
    ∀ (is : List Nat) (tr : List Txn),
      erasePages bus memoryType cc cc is tr
        = (0, tr ++ (List.zipWith (fun i n => eraseWrite memoryType cc i
            :: List.replicate n (ackProbe cc)) is (List.replicate is.length 1)).flatten) := by
  intro is
  induction is with
  | nil => intro tr; simp [erasePages]
  | cons i rest ih =>
    intro tr
    simp only [erasePages, wireWrite]
    rw [ackPolling_acked bus cc _ (hack _), if_neg (show ¬ ((0 : Int) = -1) by decide), ih]
    simp [List.replicate_succ, eraseWrite]

theorem writeRows_acked (bus : Bus) (cc a : Nat) (h : HexData)
    (hrow : ∀ tr i, bus tr (rowWrite cc h i) = true)
    (hack : ∀ tr, bus tr (ackProbe a) = true) :
    ∀ (is : List Nat) (tr : List Txn),
      writeRows bus cc a h is tr
        = (0, tr ++ (List.zipWith (fun i n => rowWrite cc h i
            :: List.replicate n (ackProbe a)) is (List.replicate is.length 1)).flatten) := by
  intro is
  induction is with
  | nil => intro tr; simp [writeRows]
  | cons i rest ih =>
    intro tr
    rw [writeRows_step, if_neg (by rw [hrow]; decide),
      ackPolling_acked bus a _ (hack _), if_neg (show ¬ ((0 : Int) = -1) by decide), ih]
    simp [List.replicate_succ]

theorem eraseChip_acknowledged (bus : Bus) (d : Nat) (hd : d < 16) (hb : Acknowledges bus d)
    (memoryType : greenPakMemory_t) (hmt : memoryType ≠ greenPakMemory_t.RESISTER)
    (tr : List Txn) :
    eraseChip bus memoryType tr = (0, tr ++ eraseTrace memoryType d) := by
  have hne : ¬ (d = 255) := by omega
  have hack : ∀ tr1, bus tr1 (ackProbe ((d <<< 4) ||| RESISTER_CONFIG)) = true := fun tr1 =>
    acknowledges_read bus d hd hb RESISTER_CONFIG (by decide) tr1 0 false
  simp only [eraseChip, checkSlaveAddres_acknowledged bus d hd hb, hne, hmt, if_false,
    resister_unprotect_acknowledged bus d hd hb, erasePages_acked bus memoryType _ hack,
    powercycle_acknowledged bus d hd hb]
  rw [if_neg (show ¬ ((0 : Int) = -1) by decide)]
  simp [eraseTrace, pagesTrace]

theorem writeChipRows_acknowledged (bus : Bus) (d : Nat) (hd : d < 16)
    (hb : Acknowledges bus d) (memoryType : greenPakMemory_t) (h : HexData) (tr : List Txn) :
    writeChipRows bus memoryType d h tr
      = ((0 : Int), tr ++ (if memoryType ≠ greenPakMemory_t.RESISTER
            then eraseTrace memoryType d else [])
          ++ rowsPolled ((d <<< 4) ||| blockAddress memoryType) (d <<< 4) h
              (List.replicate 16 1)
          ++ [Txn.stop]
          ++ (if memoryType = greenPakMemory_t.NVM then probes (d + 1) ++ [resetWrite d]
              else [])) := by
  have hrow : ∀ tr1 i, bus tr1 (rowWrite ((d <<< 4) ||| blockAddress memoryType) h i) = true :=
    fun tr1 i => acknowledges_write bus d hd hb _ (blockAddress_lt memoryType) tr1 _ false
  have hack : ∀ tr1, bus tr1 (ackProbe (d <<< 4)) = true := fun tr1 => by
    have := acknowledges_read bus d hd hb 0 (by decide) tr1 0 false
    simpa [ackProbe] using this
  have hE : (if memoryType ≠ greenPakMemory_t.RESISTER then eraseChip bus memoryType tr
      else (0, tr))
      = ((0 : Int), tr ++ (if memoryType ≠ greenPakMemory_t.RESISTER
          then eraseTrace memoryType d else [])) := by
    by_cases hmt : memoryType ≠ greenPakMemory_t.RESISTER
    · rw [if_pos hmt, if_pos hmt, eraseChip_acknowledged bus d hd hb memoryType hmt]
    · rw [if_neg hmt, if_neg hmt, List.append_nil]
  simp only [writeChipRows]
  rw [hE, if_neg (show ¬ ((0 : Int) ≠ 0) by decide), writeRows_acked bus _ _ h hrow hack,
    if_neg (show ¬ ((0 : Int) ≠ 0) by decide)]
  by_cases hn : memoryType = greenPakMemory_t.NVM
  · rw [if_pos hn, if_pos hn, powercycle_acknowledged bus d hd hb]
    simp [rowsPolled]
  · rw [if_neg hn, if_neg hn]
    simp [rowsPolled]

theorem writeChip_acknowledged (bus : Bus) (d : Nat) (hd : d < 16) (hb : Acknowledges bus d)
    (files : LocalFiles) (ind : Indeterminate) (memoryType : greenPakMemory_t) (next : Int)
    (mem mem1 : Memory)
    (hload : hexFileRead files ind memoryType mem = some (16, mem1)) :
    writeChip bus files ind memoryType next mem []
      = some (0, { buffer := mem1.buffer,
                   hexData := patchAddress memoryType next d mem1.hexData },
          programTrace memoryType d (patchAddress memoryType next d mem1.hexData)) := by
  have hc : (checkSlaveAddres bus []).1 = d := by
    rw [checkSlaveAddres_acknowledged bus d hd hb]
  obtain ⟨-, hrun⟩ := writeChip_found bus files ind memoryType next mem d hc (by omega)
  rw [hload] at hrun
  dsimp only at hrun
  rw [if_neg (by decide)] at hrun
  rw [hrun, writeChipRows_acknowledged bus d hd hb]
  have hS : (if memoryType = greenPakMemory_t.NVM then resister_unprotect bus (probes (d + 1))
      else probes (d + 1))
      = probes (d + 1) ++ (if memoryType = greenPakMemory_t.NVM
          then probes (d + 1) ++ unprotectTxns d else []) := by
    by_cases hn : memoryType = greenPakMemory_t.NVM
    · rw [if_pos hn, if_pos hn, resister_unprotect_acknowledged bus d hd hb]
    · rw [if_neg hn, if_neg hn, List.append_nil]
  rw [hS]
  simp only [programTrace, List.append_assoc]

theorem mem_rowsPolled (cc a : Nat) (h : HexData) :
    ∀ (is ns : List Nat),
      ∀ t ∈ (List.zipWith (fun i n => rowWrite cc h i
          :: List.replicate n (ackProbe a)) is ns).flatten,
        (∃ i ∈ is, t = rowWrite cc h i) ∨ t = ackProbe a := by
  intro is
  induction is with
  | nil => intro ns t ht; simp at ht
  | cons i rest ih =>
    intro ns t ht
    cases ns with
    | nil => simp at ht
    | cons n ns1 =>
      simp only [List.zipWith_cons_cons, List.flatten_cons, List.mem_append, List.mem_cons]
        at ht
      rcases ht with (e | hr) | ht
      · exact Or.inl ⟨i, by simp, e⟩
      · exact Or.inr (List.mem_replicate.mp hr).2
      · rcases ih ns1 t ht with ⟨j, hj, e⟩ | e
        · exact Or.inl ⟨j, by simp [hj], e⟩
        · exact Or.inr e

theorem rowWrite_ne_reset (cc : Nat) (h : HexData) (i d2 : Nat) :
    rowWrite cc h i ≠ resetWrite d2 := by
  intro e
  have e2 := congrArg isRowWrite e
  rw [isRowWrite_rowWrite] at e2
  cases e2

theorem not_reset_rowsPolled (cc a : Nat) (h : HexData) (ns : List Nat) :
    ∀ t ∈ rowsPolled cc a h ns, ∀ d2, t ≠ resetWrite d2 := by
  intro t ht d2
  rcases mem_rowsPolled cc a h _ ns t ht with ⟨i, -, e⟩ | e
  · rw [e]; exact rowWrite_ne_reset _ _ _ _
  · rw [e]; simp [ackProbe, resetWrite]

/-- The first and the last transactions of the row loop when every poll is answered at its
first probe. -/
theorem rowsPolled_ends (cc a : Nat) (h : HexData) :
    ∃ mid : List Txn,
      rowsPolled cc a h (List.replicate 16 1)
        = rowWrite cc h 0 :: (mid ++ [rowWrite cc h 15, ackProbe a]) ∧
      ∀ t ∈ mid, ∀ d2, t ≠ resetWrite d2 := by
  refine ⟨((rowsPolled cc a h (List.replicate 16 1)).drop 1).take 29, rfl, ?_⟩
  intro t ht
  exact not_reset_rowsPolled cc a h _ t (List.mem_of_mem_drop (List.mem_of_mem_take ht))

theorem not_reset_append (A B : List Txn) (hA : ∀ t ∈ A, ∀ d2, t ≠ resetWrite d2)
    (hB : ∀ t ∈ B, ∀ d2, t ≠ resetWrite d2) : ∀ t ∈ A ++ B, ∀ d2, t ≠ resetWrite d2 := by
  intro t ht
  rcases List.mem_append.mp ht with ht | ht
  · exact hA t ht
  · exact hB t ht

theorem not_reset_stop : ∀ t ∈ [Txn.stop], ∀ d2, t ≠ resetWrite d2 := by
  intro t ht d2
  simp only [List.mem_singleton] at ht
  rw [ht]; simp [resetWrite]

theorem not_reset_nil : ∀ t ∈ ([] : List Txn), ∀ d2, t ≠ resetWrite d2 := by
  intro t ht; cases ht

theorem not_reset_ends (cc a : Nat) (h : HexData) :
    ∀ t ∈ [rowWrite cc h 15, ackProbe a], ∀ d2, t ≠ resetWrite d2 := by
  intro t ht d2
  simp only [List.mem_cons, List.mem_singleton, List.not_mem_nil, or_false] at ht
  rcases ht with e | e
  · rw [e]; exact rowWrite_ne_reset _ _ _ _
  · rw [e]; simp [ackProbe, resetWrite]

/-- The reset writes in the trace of a successful `writeChip`: none for Register; for NVM
and EEPROM the one of the erase step, directly before the write of row 0, which is the only
one for EEPROM; for NVM a second one as the very last transaction. -/
theorem programTrace_resets (memoryType : greenPakMemory_t) (d : Nat) (h : HexData) :
    (memoryType = greenPakMemory_t.RESISTER →
      ∀ t ∈ programTrace memoryType d h, ∀ d2, t ≠ resetWrite d2) ∧
    (memoryType ≠ greenPakMemory_t.RESISTER →
      ∃ pre post : List Txn,
        programTrace memoryType d h
          = pre ++ resetWrite d
              :: rowWrite ((d <<< 4) ||| blockAddress memoryType) h 0 :: post ∧
        (∀ t ∈ pre, ∀ d2, t ≠ resetWrite d2) ∧
        (memoryType = greenPakMemory_t.EEPROM → ∀ t ∈ post, ∀ d2, t ≠ resetWrite d2) ∧
        (memoryType = greenPakMemory_t.NVM →
          ∃ mid : List Txn,
            post = mid ++ [rowWrite ((d <<< 4) ||| blockAddress memoryType) h 15,
                ackProbe (d <<< 4), Txn.stop] ++ probes (d + 1) ++ [resetWrite d] ∧
            ∀ t ∈ mid, ∀ d2, t ≠ resetWrite d2)) := by
  obtain ⟨mid, hmid, hnomid⟩ := rowsPolled_ends ((d <<< 4) ||| blockAddress memoryType)
    (d <<< 4) h
  constructor
  · intro hmt
    have h1 : ¬ (memoryType = greenPakMemory_t.NVM) := by rw [hmt]; decide
    have h2 : ¬ (memoryType ≠ greenPakMemory_t.RESISTER) := by rw [hmt]; decide
    simp only [programTrace, if_neg h1, if_neg h2, List.append_nil]
    exact not_reset_append _ _ (not_reset_append _ _ (not_reset_probes _)
      (not_reset_rowsPolled _ _ _ _)) not_reset_stop
  · intro hmt
    have hpre : ∀ t ∈ probes (d + 1)
        ++ (if memoryType = greenPakMemory_t.NVM then probes (d + 1) ++ unprotectTxns d
            else [])
        ++ (probes (d + 1) ++ (probes (d + 1) ++ unprotectTxns d)
            ++ pagesTrace memoryType ((d <<< 4) ||| RESISTER_CONFIG) (List.replicate 16 1)
            ++ probes (d + 1)), ∀ d2, t ≠ resetWrite d2 := by
      refine not_reset_append _ _ (not_reset_append _ _ (not_reset_probes _) ?_)
        (not_reset_append _ _ (not_reset_append _ _ (not_reset_append _ _
          (not_reset_probes _) (not_reset_append _ _ (not_reset_probes _)
            (not_reset_unprotect _))) (not_reset_pagesTrace _ _ _)) (not_reset_probes _))
      by_cases hn : memoryType = greenPakMemory_t.NVM
      · rw [if_pos hn]
        exact not_reset_append _ _ (not_reset_probes _) (not_reset_unprotect _)
      · rw [if_neg hn]
        exact not_reset_nil
    refine ⟨_, mid ++ [rowWrite ((d <<< 4) ||| blockAddress memoryType) h 15,
        ackProbe (d <<< 4)] ++ [Txn.stop]
        ++ (if memoryType = greenPakMemory_t.NVM then probes (d + 1) ++ [resetWrite d]
            else []), ?_, hpre, ?_, ?_⟩
    · simp only [programTrace, if_pos hmt, eraseTrace, hmid, List.append_assoc,
        List.cons_append, List.nil_append]
    · intro he
      have h1 : ¬ (memoryType = greenPakMemory_t.NVM) := by rw [he]; decide
      rw [if_neg h1, List.append_nil]
      exact not_reset_append _ _ (not_reset_append _ _ hnomid (not_reset_ends _ _ _))
        not_reset_stop
    · intro hn
      refine ⟨mid, ?_, hnomid⟩
      rw [if_pos hn]
      simp only [List.append_assoc, List.cons_append, List.nil_append]

/-! ## C12: the reset writes of `writeChip` -/

/-- C12, as the code has it: on a bus on which the device at slave address `d` acknowledges
every transaction (and no lower address answers), `writeChip` succeeds for every memory and
its transactions are those of `programTrace`.  `writeChip(RESISTER)` issues no reset write
(bytes `0xC8`, `0x02` to a register control byte).  `writeChip(EEPROM)` and `writeChip(NVM)`
issue one at the end of their erase step, directly before the write of row 0 (`eraseChip`
calls `powercycle` when it succeeds); for EEPROM it is the only one, for NVM there is a
second one, the last transaction of the run, behind the write of row 15, its poll,
`Wire.stop()` and the discovery of `powercycle`. -/
theorem writeChip_resets (bus : Bus) (files : LocalFiles) (ind : Indeterminate)
    (memoryType : greenPakMemory_t) (next : Int) (mem mem1 : Memory) (d : Nat)
    (hd : d < 16) (hb : Acknowledges bus d)
    (hload : hexFileRead files ind memoryType mem = some (16, mem1)) :
    ∃ (mem2 : Memory) (tr : List Txn),
      writeChip bus files ind memoryType next mem [] = some (0, mem2, tr) ∧
      tr = programTrace memoryType d mem2.hexData ∧
      (memoryType = greenPakMemory_t.RESISTER → ∀ t ∈ tr, ∀ d2, t ≠ resetWrite d2) ∧
      (memoryType ≠ greenPakMemory_t.RESISTER →
        ∃ pre post : List Txn,
          tr = pre ++ resetWrite d
              :: Txn.write ((d <<< 4) ||| blockAddress memoryType)
                  (rowBytes mem2.hexData 0) false :: post ∧
          (∀ t ∈ pre, ∀ d2, t ≠ resetWrite d2) ∧
          (memoryType = greenPakMemory_t.EEPROM → ∀ t ∈ post, ∀ d2, t ≠ resetWrite d2) ∧
          (memoryType = greenPakMemory_t.NVM →
            ∃ mid : List Txn,
              post = mid ++ [Txn.write ((d <<< 4) ||| blockAddress memoryType)
                    (rowBytes mem2.hexData 15) false,
                  Txn.read (d <<< 4) 0 false, Txn.stop]
                ++ probes (d + 1) ++ [resetWrite d] ∧
              ∀ t ∈ mid, ∀ d2, t ≠ resetWrite d2)) := by
  obtain ⟨hR, hE⟩ := programTrace_resets memoryType d
    (patchAddress memoryType next d mem1.hexData)
  exact ⟨_, _, writeChip_acknowledged bus d hd hb files ind memoryType next mem mem1 hload,
    rfl, hR, hE⟩

set_option maxRecDepth 100000 in
theorem writeChip_resets_witness :
    0x0B < 16 ∧ Acknowledges (onlyDevice 0x0B) 0x0B ∧
    ∃ mem1, hexFileRead exampleFiles zeroIndeterminate greenPakMemory_t.NVM zeroMemory
        = some (16, mem1) ∧
      ∃ (mem2 : Memory) (tr : List Txn),
        writeChip (onlyDevice 0x0B) exampleFiles zeroIndeterminate greenPakMemory_t.NVM 0x5
          zeroMemory [] = some (0, mem2, tr) ∧
        tr = programTrace greenPakMemory_t.NVM 0x0B mem2.hexData ∧
        (greenPakMemory_t.NVM = greenPakMemory_t.RESISTER →
          ∀ t ∈ tr, ∀ d2, t ≠ resetWrite d2) ∧
        (greenPakMemory_t.NVM ≠ greenPakMemory_t.RESISTER →
          ∃ pre post : List Txn,
            tr = pre ++ resetWrite 0x0B
                :: Txn.write ((0x0B <<< 4) ||| blockAddress greenPakMemory_t.NVM)
                    (rowBytes mem2.hexData 0) false :: post ∧
            (∀ t ∈ pre, ∀ d2, t ≠ resetWrite d2) ∧
            (greenPakMemory_t.NVM = greenPakMemory_t.EEPROM →
              ∀ t ∈ post, ∀ d2, t ≠ resetWrite d2) ∧
            (greenPakMemory_t.NVM = greenPakMemory_t.NVM →
              ∃ mid : List Txn,
                post = mid ++ [Txn.write ((0x0B <<< 4) ||| blockAddress greenPakMemory_t.NVM)
                      (rowBytes mem2.hexData 15) false,
                    Txn.read (0x0B <<< 4) 0 false, Txn.stop]
                  ++ probes (0x0B + 1) ++ [resetWrite 0x0B] ∧
                ∀ t ∈ mid, ∀ d2, t ≠ resetWrite d2)) := by
  have hb : Acknowledges (onlyDevice 0x0B) 0x0B :=
    ⟨fun _ => (by decide : ∀ i, i < 0x0B → onlyDevice 0x0B [] (probe i) = false),
     fun _ _ h => h⟩
  obtain ⟨mem1, hload, -⟩ := hexFileRead_records exampleFiles zeroIndeterminate
    greenPakMemory_t.NVM zeroMemory exampleRecords [exampleEnd]
    (by decide) (by decide) (by decide) (by decide)
  have hlen : exampleRecords.length % 256 = 16 := by decide
  rw [hlen] at hload
  exact ⟨by decide, hb, mem1, hload, writeChip_resets (onlyDevice 0x0B) exampleFiles
    zeroIndeterminate greenPakMemory_t.NVM 0x5 zeroMemory mem1 0x0B (by decide) hb hload⟩

set_option maxRecDepth 100000 in
/-- C12 fails as stated: on a bus on which everything is acknowledged (the device is then
found at address 0), `writeChip(EEPROM)` succeeds and its transaction 39, the last one of
its erase step, is the reset write `0xC8`, `0x02` to the register control byte `0x02`; the
write of row 0 to the EEPROM control byte `0x06` follows it. -/
theorem writeChip_eeprom_resets :
    Acknowledges alwaysAck 0 ∧
    (writeChip alwaysAck exampleFiles zeroIndeterminate greenPakMemory_t.EEPROM
        defaultNextSlaveAddress zeroMemory []).map
      (fun r => (r.1, r.2.2[39]?, (r.2.2[40]?).map isRowWrite))
      = some (0, some (Txn.write 0x02 [0xC8, 0x02] false), some true) := by
  refine ⟨⟨fun _ i hi => absurd hi (Nat.not_lt_zero i), fun _ _ _ => rfl⟩, by decide⟩

/-! ## The row a record is stored in -/

theorem atoh2Chars_lt (c0 c1 : Nat) : atoh2Chars c0 c1 < 256 := by
  unfold atoh2Chars
  simp only
  split
  · exact Nat.mod_lt _ (by decide)
  · decide

theorem rowOfByte_eq (c0 c1 : Nat) :
    ¬ (atoh2Chars c0 c1 >>> 4 > 0x0f) ∧
    rowOfByte (atoh2Chars c0 c1) = atoh2Chars c0 c1 >>> 4 ∧
    rowOfByte (atoh2Chars c0 c1) < 16 := by
  have h := atoh2Chars_lt c0 c1
  have e : atoh2Chars c0 c1 >>> 4 = atoh2Chars c0 c1 / 16 := by
    rw [Nat.shiftRight_eq_div_pow]
  have hn : ¬ (atoh2Chars c0 c1 >>> 4 > 0x0f) := by rw [e]; omega
  refine ⟨hn, ?_, ?_⟩
  · rw [rowOfByte, if_neg hn]
  · rw [rowOfByte, if_neg hn, e]; omega

theorem rowOfByte_lt (b : Nat) : rowOfByte b < 16 := by
  unfold rowOfByte
  split
  · decide
  · omega

theorem atoh2_congr (buffer buffer2 : Nat → Nat) (q : Nat) (h0 : buffer2 q = buffer q)
    (h1 : buffer2 (q + 1) = buffer (q + 1)) : atoh2 buffer2 q = atoh2 buffer q := by
  simp only [atoh2, peek, h0, h1]

theorem readData_congr (buffer buffer2 : Nat → Nat) (address : Nat) :
    ∀ (is : List Nat) (q : Nat) (h : HexData), (∀ k, q ≤ k → buffer2 k = buffer k) →
      readData buffer2 address is q h = readData buffer address is q h := by
  intro is
  induction is with
  | nil => intro q h _; rfl
  | cons i rest ih =>
    intro q h hk
    simp only [readData]
    rw [atoh2_congr buffer buffer2 q (hk q (Nat.le_refl _)) (hk (q + 1) (by omega))]
    cases atoh2 buffer q with
    | none => rfl
    | some v => exact ih (q + 2) _ (fun k hq => hk k (by omega))

/-- The characters of the high address byte, `p[2]` and `p[3]`, are not read by
`case ':'`. -/
theorem colonCase_congr (buffer buffer2 : Nat → Nat) (p ans : Nat) (h : HexData)
    (hk : ∀ k, k ≠ p + 2 → k ≠ p + 3 → buffer2 k = buffer k) :
    colonCase buffer2 p ans h = colonCase buffer p ans h := by
  have hrd : ∀ a h1, readData buffer2 a (List.range 16) (p + 8) h1
      = readData buffer a (List.range 16) (p + 8) h1 :=
    fun a h1 => readData_congr buffer buffer2 a _ (p + 8) h1
      (fun k hq => hk k (by omega) (by omega))
  simp only [colonCase,
    atoh2_congr buffer buffer2 p (hk p (by omega) (by omega))
      (hk (p + 1) (by omega) (by omega)),
    atoh2_congr buffer buffer2 (p + 4) (hk (p + 4) (by omega) (by omega))
      (hk (p + 4 + 1) (by omega) (by omega)),
    atoh2_congr buffer buffer2 (p + 6) (hk (p + 6) (by omega) (by omega))
      (hk (p + 6 + 1) (by omega) (by omega)), hrd]

/-! ## No write outside `hexData` -/

theorem sameOutside_refl (h : HexData) : SameOutside h h := fun _ _ _ => rfl

theorem sameOutside_trans (h h1 h2 : HexData) (a : SameOutside h h1) (b : SameOutside h1 h2) :
    SameOutside h h2 := fun r c hrc => by rw [b r c hrc, a r c hrc]

theorem setCell_outside (h : HexData) (r c v : Nat) (hr : r < 16) (hc : c < 16) :
    SameOutside h (setCell h r c v) := by
  intro r1 c1 hrc
  have hne : ¬ (r1 = r ∧ c1 = c) := by omega
  simp only [setCell, if_neg hne]

theorem foldl_outside {α : Type} (f : HexData → α → HexData) :
    ∀ (l : List α) (h : HexData), (∀ x ∈ l, ∀ h1, SameOutside h1 (f h1 x)) →
      SameOutside h (l.foldl f h) := by
  intro l
  induction l with
  | nil => intro h _; exact sameOutside_refl h
  | cons x rest ih =>
    intro h hf
    rw [List.foldl_cons]
    exact sameOutside_trans _ _ _ (hf x (by simp) h)
      (ih (f h x) (fun y hy => hf y (by simp [hy])))

theorem clearHexData_outside (ind : Indeterminate) (h : HexData) :
    SameOutside h (clearHexData ind h) := by
  unfold clearHexData
  apply foldl_outside
  intro i hi h1
  apply foldl_outside
  intro j hj h2
  have hi2 := List.mem_range'_1.mp hi
  have hj2 := List.mem_range'_1.mp hj
  exact setCell_outside h2 i j 0 (by omega) (by omega)

theorem readData_outside (buffer : Nat → Nat) (address : Nat) (ha : address < 16) :
    ∀ (is : List Nat) (p : Nat) (h : HexData) (p1 : Nat) (h1 : HexData),
      (∀ i ∈ is, i < 16) → readData buffer address is p h = some (p1, h1) →
      SameOutside h h1 := by
  intro is
  induction is with
  | nil =>
    intro p h p1 h1 _ hres
    simp only [readData, Option.some.injEq, Prod.mk.injEq] at hres
    rw [← hres.2]; exact sameOutside_refl h
  | cons i rest ih =>
    intro p h p1 h1 hall hres
    simp only [readData] at hres
    cases hv : atoh2 buffer p with
    | none => rw [hv] at hres; cases hres
    | some v =>
      rw [hv] at hres
      exact sameOutside_trans _ _ _ (setCell_outside h address i v ha (hall i (by simp)))
        (ih (p + 2) _ p1 h1 (fun j hj => hall j (by simp [hj])) hres)

theorem colonCase_outside (buffer : Nat → Nat) (p ans : Nat) (h : HexData)
    (p1 ans1 : Nat) (h1 : HexData) (hres : colonCase buffer p ans h = some (p1, ans1, h1)) :
    SameOutside h h1 := by
  unfold colonCase at hres
  cases hb : atoh2 buffer p with
  | none => rw [hb] at hres; cases hres
  | some byteCount =>
    cases hl : atoh2 buffer (p + 4) with
    | none => rw [hb, hl] at hres; cases hres
    | some lowAddress =>
      cases ht : atoh2 buffer (p + 6) with
      | none => rw [hb, hl, ht] at hres; cases hres
      | some recodeType =>
        rw [hb, hl, ht] at hres
        simp only at hres
        by_cases hc : byteCount ≠ 0x10
        · rw [if_pos hc] at hres
          simp only [Option.some.injEq, Prod.mk.injEq] at hres
          rw [← hres.2.2]; exact sameOutside_refl h
        · rw [if_neg hc] at hres
          cases hd : readData buffer (if lowAddress >>> 4 > 0x0f then 0x00
              else lowAddress >>> 4) (List.range 16) (p + 8) h with
          | none => rw [hd] at hres; cases hres
          | some r =>
            obtain ⟨p2, h2⟩ := r
            rw [hd] at hres
            simp only [Option.some.injEq, Prod.mk.injEq] at hres
            rw [← hres.2.2]
            exact readData_outside buffer _ (rowOfByte_lt lowAddress) (List.range 16)
              (p + 8) h p2 h2 (fun i hi => List.mem_range.mp hi) hd

theorem scanBuffer_outside (buffer : Nat → Nat) :
    ∀ (fuel p ans : Nat) (h : HexData) (ans1 : Nat) (h1 : HexData),
      scanBuffer buffer fuel p ans h = some (ans1, h1) → SameOutside h h1 := by
  intro fuel
  induction fuel with
  | zero => intro p ans h ans1 h1 hres; simp [scanBuffer] at hres
  | succ fuel ih =>
    intro p ans h ans1 h1 hres
    rw [scanBuffer] at hres
    cases hp : peek buffer p with
    | none => rw [hp] at hres; cases hres
    | some c =>
      rw [hp] at hres
      simp only at hres
      by_cases h0 : c = 0x00
      · rw [if_pos h0] at hres
        simp only [Option.some.injEq, Prod.mk.injEq] at hres
        rw [← hres.2]; exact sameOutside_refl h
      · rw [if_neg h0] at hres
        by_cases h58 : c = 58
        · rw [if_pos h58] at hres
          cases hcc : colonCase buffer (p + 1) ans h with
          | none => rw [hcc] at hres; cases hres
          | some r =>
            obtain ⟨p2, ans2, h2⟩ := r
            rw [hcc] at hres
            exact sameOutside_trans _ _ _
              (colonCase_outside buffer (p + 1) ans h p2 ans2 h2 hcc)
              (ih p2 ans2 h2 ans1 h1 hres)
        · rw [if_neg h58] at hres
          exact ih (p + 1) ans h ans1 h1 hres

theorem readLines_outside :
    ∀ (ls : List (List Nat)) (buffer : Nat → Nat) (ans : Nat) (h : HexData)
      (b : Nat → Nat) (ans1 : Nat) (h1 : HexData),
      readLines ls buffer ans h = some (b, ans1, h1) → SameOutside h h1 := by
  intro ls
  induction ls with
  | nil =>
    intro buffer ans h b ans1 h1 hres
    simp only [readLines, Option.some.injEq, Prod.mk.injEq] at hres
    rw [← hres.2.2]; exact sameOutside_refl h
  | cons l rest ih =>
    intro buffer ans h b ans1 h1 hres
    rw [readLines] at hres
    cases hs : scanBuffer (storeLine l buffer) Z_bufferNumber 0 ans h with
    | none => rw [hs] at hres; cases hres
    | some r =>
      obtain ⟨ans2, h2⟩ := r
      rw [hs] at hres
      exact sameOutside_trans _ _ _ (scanBuffer_outside _ _ _ _ _ _ _ hs)
        (ih _ _ _ _ _ _ hres)

theorem hexFileRead_outside (files : LocalFiles) (ind : Indeterminate)
    (memoryType : greenPakMemory_t) (mem : Memory) (count : Nat) (mem1 : Memory)
    (hres : hexFileRead files ind memoryType mem = some (count, mem1)) :
    SameOutside mem.hexData mem1.hexData := by
  unfold hexFileRead at hres
  cases hf : hexFileOf files memoryType with
  | none =>
    rw [hf] at hres
    simp only [Option.some.injEq, Prod.mk.injEq] at hres
    rw [← hres.2]; exact clearHexData_outside ind mem.hexData
  | some file =>
    rw [hf] at hres
    simp only at hres
    cases hr : readLines (fileLines file) mem.buffer 0 (clearHexData ind mem.hexData) with
    | none => rw [hr] at hres; cases hres
    | some r =>
      obtain ⟨b, ans, h1⟩ := r
      rw [hr] at hres
      simp only [Option.some.injEq, Prod.mk.injEq] at hres
      rw [← hres.2]
      exact sameOutside_trans _ _ _ (clearHexData_outside ind mem.hexData)
        (readLines_outside _ _ _ _ _ _ _ hr)

/-! ## C21: the row index of a record -/

set_option maxRecDepth 100000 in
/-- C21: the row `hexFileRead` stores a record with byte count `0x10` in is
`atoh2(low address byte) >> 4`.  `atoh2` gives a value below 256, so this row is at most 15
and the test `address > 0x0f` never holds; a low address byte with a malformed digit gives
row 15 (`0xFF >> 4`).  The record is stored in that row, columns 0 to 15, and nowhere else;
the two characters of the high address byte are not read, so changing them changes
nothing, for `case ':'` on any buffer as for the scan of a whole line.  No run of
`hexFileRead` that returns changes a cell outside the 16 x 16 array `hexData`.  The line
with the address field `ZZG0` fills row 15 and leaves row 0 as it was. -/
theorem hexFileRead_row_index :
    (∀ c0 c1, atoh2Chars c0 c1 < 256 ∧ ¬ (atoh2Chars c0 c1 >>> 4 > 0x0f) ∧
      rowOfByte (atoh2Chars c0 c1) = atoh2Chars c0 c1 >>> 4 ∧
      rowOfByte (atoh2Chars c0 c1) < 16) ∧
    (∀ c0 c1, isHexDigit c0 = false ∨ isHexDigit c1 = false →
      rowOfByte (atoh2Chars c0 c1) = 15) ∧
    (∀ (buffer : Nat → Nat) (p ans : Nat) (h : HexData), p + 40 ≤ 100 →
      atoh2Chars (buffer p) (buffer (p + 1)) = 0x10 →
      colonCase buffer p ans h
        = some (p + 40, (ans + 1) % 256, fun r c =>
            if r = atoh2Chars (buffer (p + 4)) (buffer (p + 5)) >>> 4 ∧ c < 16
            then atoh2Chars (buffer (p + 8 + 2 * c)) (buffer (p + 8 + 2 * c + 1))
            else h r c)) ∧
    (∀ (buffer buffer2 : Nat → Nat) (p ans : Nat) (h : HexData),
      (∀ k, k ≠ p + 2 → k ≠ p + 3 → buffer2 k = buffer k) →
      colonCase buffer2 p ans h = colonCase buffer p ans h) ∧
    (∀ (line : List Nat) (buffer : Nat → Nat) (ans : Nat) (h : HexData),
      RecordLine line → lineByteCount line = 0x10 →
      scanBuffer (storeLine line buffer) Z_bufferNumber 0 ans h
        = some ((ans + 1) % 256, fun r c =>
            if r = atoh2Chars (line.getD 5 0) (line.getD 6 0) >>> 4 ∧ c < 16
            then atoh2Chars (line.getD (9 + 2 * c) 0) (line.getD (9 + 2 * c + 1) 0)
            else h r c)) ∧
    (∀ (line line2 : List Nat) (buffer : Nat → Nat) (ans : Nat) (h : HexData),
      RecordLine line → RecordLine line2 →
      (∀ k, k ≠ 3 → k ≠ 4 → line2.getD k 0 = line.getD k 0) →
      scanBuffer (storeLine line2 buffer) Z_bufferNumber 0 ans h
        = scanBuffer (storeLine line buffer) Z_bufferNumber 0 ans h) ∧
    (∀ (files : LocalFiles) (ind : Indeterminate) (memoryType : greenPakMemory_t)
        (mem : Memory) (count : Nat) (mem1 : Memory),
      hexFileRead files ind memoryType mem = some (count, mem1) →
      ∀ r c, 16 ≤ r ∨ 16 ≤ c → mem1.hexData r c = mem.hexData r c) ∧
    ((scanBuffer (storeLine malformedAddressLine zeroMemory.buffer) Z_bufferNumber 0 0
        zeroMemory.hexData).map
      (fun r => (r.1, (List.range 16).map (fun j => r.2 15 j),
        (List.range 16).map (fun j => r.2 0 j)))
      = some (1, [0x00, 0x01, 0x02, 0x03, 0x04, 0x05, 0x06, 0x07, 0x08, 0x09, 0x0A, 0x0B,
          0x0C, 0x0D, 0x0E, 0x0F], List.replicate 16 0x00)) := by
  refine ⟨fun c0 c1 => ⟨atoh2Chars_lt c0 c1, rowOfByte_eq c0 c1⟩, ?_, ?_, colonCase_congr,
    ?_, ?_, hexFileRead_outside, by decide⟩
  · intro c0 c1 hm
    rw [atoh2Chars_not_hex c0 c1 hm]
    decide
  · intro buffer p ans h hp hb
    rw [colonCase_data buffer p ans h hp hb, (rowOfByte_eq _ _).2.1]
  · intro line buffer ans h hl hb
    rw [scanBuffer_recordLine line buffer ans h hl]
    simp only [lineCount, lineEffect, if_pos hb, lineRow, (rowOfByte_eq _ _).2.1, lineByte]
  · intro line line2 buffer ans h hl hl2 hk
    rw [scanBuffer_recordLine line buffer ans h hl, scanBuffer_recordLine line2 buffer ans h hl2]
    have e1 : lineByteCount line2 = lineByteCount line := by
      simp only [lineByteCount, hk 1 (by decide) (by decide), hk 2 (by decide) (by decide)]
    have e2 : lineRow line2 = lineRow line := by
      simp only [lineRow, hk 5 (by decide) (by decide), hk 6 (by decide) (by decide)]
    have e3 : ∀ c, lineByte line2 c = lineByte line c := by
      intro c
      simp only [lineByte, hk (9 + 2 * c) (by omega) (by omega),
        hk (9 + 2 * c + 1) (by omega) (by omega)]
    simp only [lineCount, lineEffect, e1, e2, e3]

/-! ## The count of a file of record lines -/

theorem qualifyingIn_noColon : ∀ l : List Nat, (∀ c ∈ l, c ≠ 58) → qualifyingIn l = 0 := by
  intro l
  induction l with
  | nil => intro _; rfl
  | cons c rest ih =>
    intro h
    have hc : ¬ (c = 58 ∧ atoh2Chars (rest.getD 0 0) (rest.getD 1 0) = 0x10) :=
      fun hh => h c (by simp) hh.1
    rw [qualifyingIn, if_neg hc, ih (fun x hx => h x (by simp [hx]))]

theorem qualifyingIn_recordLine (l : List Nat) (hl : RecordLine l) :
    qualifyingIn l = if lineByteCount l = 0x10 then 1 else 0 := by
  obtain ⟨h0, hlen, -, -, hno⟩ := hl
  cases l with
  | nil => simp at hlen
  | cons c0 rest =>
    have hc0 : c0 = 58 := by simpa using h0
    have hrest : ∀ c ∈ rest, c ≠ 58 := by
      intro c hc
      obtain ⟨k, hk, e⟩ := List.getElem_of_mem hc
      have := (hno (k + 1) (by omega) (by simp; omega)).1
      simp only [List.getD_cons_succ] at this
      rw [List.getD_eq_getElem _ _ hk, e] at this
      exact this
    rw [qualifyingIn, qualifyingIn_noColon rest hrest, Nat.add_zero]
    simp only [lineByteCount, List.getD_cons_succ, hc0, true_and]

theorem foldl_lineCount_qualifying :
    ∀ (ls : List (List Nat)) (a : Nat), a < 256 → (∀ l ∈ ls, RecordLine l) →
      ls.foldl (fun a l => lineCount l a) a = (a + (ls.map qualifyingIn).sum) % 256 := by
  intro ls
  induction ls with
  | nil => intro a ha _; simp [Nat.mod_eq_of_lt ha]
  | cons l rest ih =>
    intro a ha hall
    have hq := qualifyingIn_recordLine l (hall l (by simp))
    rw [List.foldl_cons, List.map_cons, List.sum_cons, hq]
    by_cases hb : lineByteCount l = 0x10
    · rw [if_pos hb]
      have e : lineCount l a = (a + 1) % 256 := by simp only [lineCount, if_pos hb]
      rw [e, ih _ (Nat.mod_lt _ (by decide)) (fun x hx => hall x (by simp [hx]))]
      omega
    · rw [if_neg hb]
      have e : lineCount l a = a := by simp only [lineCount, if_neg hb]
      rw [e, ih _ ha (fun x hx => hall x (by simp [hx]))]
      omega

/-- The count and the image `hexFileRead` gives for a file every line of which is one
complete record. -/
theorem hexFileRead_recordLines (files : LocalFiles) (ind : Indeterminate)
    (memoryType : greenPakMemory_t) (mem : Memory) (file : List Nat)
    (hfile : hexFileOf files memoryType = some file)
    (hrec : ∀ l ∈ fileLines file, RecordLine l) :
    ∃ mem1, hexFileRead files ind memoryType mem
        = some (qualifyingRecords file % 256, mem1) ∧
      mem1.hexData = (fileLines file).foldl (fun x l => lineEffect l x)
        (clearHexData ind mem.hexData) := by
  obtain ⟨b, hb⟩ := readLines_recordLines (fileLines file) mem.buffer 0
    (clearHexData ind mem.hexData) hrec
  refine ⟨{ buffer := b, hexData := _ }, ?_, rfl⟩
  simp only [hexFileRead, hfile, hb]
  rw [foldl_lineCount_qualifying _ 0 (by decide) hrec, Nat.zero_add]
  rfl

theorem sum_map_one (ls : List (List Nat)) (h : ∀ l ∈ ls, qualifyingIn l = 1) :
    (ls.map qualifyingIn).sum = ls.length := by
  induction ls with
  | nil => rfl
  | cons l rest ih =>
    rw [List.map_cons, List.sum_cons, h l (by simp), ih (fun x hx => h x (by simp [hx])),
      List.length_cons]
    omega

theorem fileLines_dataRecords (recs : List DataRecord)
    (hwf : ∀ r ∈ recs, r.wellFormed = true) (heol : eolOk (recs.map DataRecord.eol) = true) :
    fileLines (recs.map DataRecord.text).flatten = recs.map DataRecord.text := by
  have hls : (recs.map (fun r => (r.body, r.eol))).map pairText = recs.map DataRecord.text := by
    simp only [List.map_map]
    rfl
  have hsnd : (recs.map (fun r => (r.body, r.eol))).map Prod.snd = recs.map DataRecord.eol := by
    simp only [List.map_map]
    rfl
  have h := fileLines_pairs (recs.map (fun r => (r.body, r.eol)))
    (by
      intro l hl
      obtain ⟨r, hr, rfl⟩ := List.mem_map.mp hl
      obtain ⟨h1, h2⟩ := dataRecord_body_hex r (hwf r hr)
      exact ⟨h1, by simp only; omega⟩)
    (by rw [hsnd]; exact heol)
  rw [hls] at h
  exact h

/-! ## C22: the count modulo 256 -/

/-- C22, as the code has it: for a HEX input every line of which (as `fgets` delivers it)
is one complete record, `hexFileRead` returns the number of records with byte count `0x10`
modulo 256, whatever rows the records name: `ans` is a `uint8_t` incremented once per
record.  An input of that kind with 272 such records returns 16, and `writeChip` then
passes its count check and goes on to the erase step and the row loop with the loaded
image, as for any input with count 16. -/
theorem hexFileRead_count_mod_256 (files : LocalFiles) (ind : Indeterminate)
    (memoryType : greenPakMemory_t) (mem : Memory) (file : List Nat)
    (hfile : hexFileOf files memoryType = some file)
    (hrec : ∀ l ∈ fileLines file, RecordLine l) :
    ∃ mem1, hexFileRead files ind memoryType mem
        = some (qualifyingRecords file % 256, mem1) ∧
      (qualifyingRecords file = 272 →
        hexFileRead files ind memoryType mem = some (16, mem1)) ∧
      (qualifyingRecords file % 256 = 16 →
        ∀ (bus : Bus) (next : Int) (d : Nat), (checkSlaveAddres bus []).1 = d → d ≠ 0xff →
          writeChip bus files ind memoryType next mem []
            = some ((writeChipRows bus memoryType d
                  (patchAddress memoryType next d mem1.hexData)
                  (if memoryType = greenPakMemory_t.NVM
                    then resister_unprotect bus (probes (d + 1)) else probes (d + 1))).1,
                { buffer := mem1.buffer,
                  hexData := patchAddress memoryType next d mem1.hexData },
                (writeChipRows bus memoryType d
                  (patchAddress memoryType next d mem1.hexData)
                  (if memoryType = greenPakMemory_t.NVM
                    then resister_unprotect bus (probes (d + 1)) else probes (d + 1))).2)) := by
  obtain ⟨mem1, hres, -⟩ := hexFileRead_recordLines files ind memoryType mem file hfile hrec
  refine ⟨mem1, hres, ?_, ?_⟩
  · intro h272
    rw [hres, h272]
  · intro h16 bus next d hd hfound
    obtain ⟨-, hrun⟩ := writeChip_found bus files ind memoryType next mem d hd hfound
    rw [hres, h16] at hrun
    dsimp only at hrun
    rw [if_neg (by decide)] at hrun
    exact hrun

set_option maxRecDepth 100000 in
theorem hexFileRead_count_mod_256_witness :
    hexFileOf files272 greenPakMemory_t.NVM = some file272 ∧
    (∀ l ∈ fileLines file272, RecordLine l) ∧
    qualifyingRecords file272 = 272 ∧
    ∃ mem1, hexFileRead files272 zeroIndeterminate greenPakMemory_t.NVM zeroMemory
        = some (qualifyingRecords file272 % 256, mem1) ∧
      (qualifyingRecords file272 = 272 →
        hexFileRead files272 zeroIndeterminate greenPakMemory_t.NVM zeroMemory
          = some (16, mem1)) ∧
      (qualifyingRecords file272 % 256 = 16 →
        ∀ (bus : Bus) (next : Int) (d : Nat), (checkSlaveAddres bus []).1 = d → d ≠ 0xff →
          writeChip bus files272 zeroIndeterminate greenPakMemory_t.NVM next zeroMemory []
            = some ((writeChipRows bus greenPakMemory_t.NVM d
                  (patchAddress greenPakMemory_t.NVM next d mem1.hexData)
                  (if greenPakMemory_t.NVM = greenPakMemory_t.NVM
                    then resister_unprotect bus (probes (d + 1)) else probes (d + 1))).1,
                { buffer := mem1.buffer,
                  hexData := patchAddress greenPakMemory_t.NVM next d mem1.hexData },
                (writeChipRows bus greenPakMemory_t.NVM d
                  (patchAddress greenPakMemory_t.NVM next d mem1.hexData)
                  (if greenPakMemory_t.NVM = greenPakMemory_t.NVM
                    then resister_unprotect bus (probes (d + 1)) else probes (d + 1))).2)) := by
  have hmem : ∀ r ∈ records272, r ∈ exampleRecords := by
    intro r hr
    obtain ⟨l, hl, hrl⟩ := List.mem_flatten.mp hr
    rw [List.eq_of_mem_replicate hl] at hrl
    exact hrl
  have hwf0 : ∀ r ∈ exampleRecords, r.wellFormed = true := by decide
  have heol0 : ∀ r ∈ exampleRecords, r.eol = [10] := by decide
  have hwf : ∀ r ∈ records272, r.wellFormed = true := fun r hr => hwf0 r (hmem r hr)
  have heol : eolOk (records272.map DataRecord.eol) = true := by decide
  have hfl : fileLines file272 = records272.map DataRecord.text :=
    fileLines_dataRecords records272 hwf heol
  have hrec : ∀ l ∈ fileLines file272, RecordLine l := by
    intro l hl
    rw [hfl] at hl
    obtain ⟨r, hr, rfl⟩ := List.mem_map.mp hl
    exact dataRecord_recordLine r (hwf r hr) (Or.inr (Or.inl (heol0 r (hmem r hr))))
  have hq : qualifyingRecords file272 = 272 := by
    unfold qualifyingRecords
    rw [sum_map_one _ (fun l hl => by
      rw [qualifyingIn_recordLine l (hrec l hl)]
      rw [hfl] at hl
      obtain ⟨r, -, rfl⟩ := List.mem_map.mp hl
      rw [if_pos (dataRecord_lineByteCount r)]), hfl, List.length_map]
    decide
  exact ⟨rfl, hrec, hq, hexFileRead_count_mod_256 files272 zeroIndeterminate
    greenPakMemory_t.NVM zeroMemory file272 rfl hrec⟩

set_option maxRecDepth 100000 in
/-- C22 fails as stated: the file of one data record behind nine blanks, followed by a line
with a colon only, has one record with byte count `0x10`, and `hexFileRead` returns 2.  The
scan of the second line steps over its end into what the first line left in `buffer` and
counts that record once more. -/
theorem hexFileRead_counts_stale_record :
    qualifyingRecords staleOnce = 1 ∧
    (hexFileRead { nvm := some staleOnce, eeprom := none } zeroIndeterminate
        greenPakMemory_t.NVM zeroMemory).map Prod.fst = some 2 ∧
    2 ≠ 1 % 256 := by
  refine ⟨by decide, by decide, by decide⟩

end GreenPak
